import Mathlib

/-! # LinearAnisotropicDiffusionLBRImageFilter

A shallow embedding of `itkLinearAnisotropicDiffusionLBRImageFilter.hxx`.

* `ScalarType` (a floating type in the source) is the field of rationals, so all
  arithmetic is exact.
* `VectorType` holds the superbase vectors.  The source only ever stores integers in
  them (unit vectors, sums, differences, opposites), so entries are integers.
* Fixed-size arrays of the source are functions on `Fin n`.
* Pixel buffers are lists addressed by the linear buffer index.
* Values of type `int` (the step counts, and the buffer addresses of type
  `InternalSizeT`) are integers with the 32-bit range made explicit: narrowing to `int`
  is `wrapInt32`, the conversion of `ceil(...)` to `int` is `intOfCeil`.
-/

set_option autoImplicit false

namespace LBR

/-! ## Values of type `int` -/

/-- Smallest value of the type `int` (32 bits, two's complement). -/
def INT_MIN : ℤ := -2147483648

/-- Largest value of the type `int`. -/
def INT_MAX : ℤ := 2147483647

/-- Narrowing of a wider signed integer to `int`: the value that is congruent to `z`
modulo `2 ^ 32` and lies between `INT_MIN` and `INT_MAX`. -/
def wrapInt32 (z : ℤ) : ℤ := (z + 2147483648) % 4294967296 - 2147483648

/-- The initialisation `int n = ceil(x)`, as a function of the real number `x`.  When
`ceil(x)` is a value of `int` the conversion is exact.  Otherwise the conversion has no
defined result in C++; the result taken here is the one of the conversion instruction
of x86-64 processors, which returns `INT_MIN` for every operand out of range. -/
def intOfCeil (x : ℚ) : ℤ :=
  if INT_MIN ≤ ⌈x⌉ ∧ ⌈x⌉ ≤ INT_MAX then ⌈x⌉ else INT_MIN

/-! ## Tensors and the scalar product -/

/-- Symmetric second rank tensor (`itk::SymmetricSecondRankTensor`): only the entries
with row at most column are stored, in `upper`. -/
structure TensorType (dim : ℕ) where
  upper : Fin dim → Fin dim → ℚ

/-- Entry access `m(i, j)`: both orders of the indices reach the same stored entry. -/
def TensorType.get {dim : ℕ} (m : TensorType dim) (i j : Fin dim) : ℚ :=
  if i ≤ j then m.upper i j else m.upper j i

/-- Vectors of the superbase. -/
abbrev VectorType (dim : ℕ) := Fin dim → ℤ

/-- `ScalarProduct(m, u, v)`: the first loop adds the diagonal terms, the second the
terms `m(i, j) * (u[i] * v[j] + u[j] * v[i])` for `i < j`. -/
def ScalarProduct {dim : ℕ} (m : TensorType dim) (u v : VectorType dim) : ℚ :=
  (∑ i : Fin dim, m.get i i * u i * v i) +
    ∑ i : Fin dim, ∑ j ∈ Finset.univ.filter (fun j => i < j),
      m.get i j * (u i * v j + u j * v i)

/-- The vector with `sb[i][j] = (i == j)`. -/
def unitVector {dim : ℕ} (i : Fin dim) : VectorType dim := fun j => if i = j then 1 else 0

/-- Number of iterations allowed to the Selling loop (`maxIter`). -/
def maxIter : ℕ := 200

/-! ## `Stencil(Dispatch<2>)` -/

/-- A superbase in dimension two: `sb[0..2]`. -/
abbrev Superbase2 := Fin 3 → VectorType 2

/-- Superbase at loop entry: the two unit vectors and `-(sb[0] + sb[1])`. -/
def initialSuperbase2 : Superbase2 :=
  ![unitVector 0, unitVector 1, -(unitVector 0 + unitVector 1)]

/-- Body of the `if` inside the scan, with `u = sb[i]`, `v = sb[j]`:
`sb[0] = v - u; sb[1] = u; sb[2] = -v`. -/
def sellingStep2 (sb : Superbase2) (i j : Fin 3) : Superbase2 :=
  ![sb j - sb i, sb i, -sb j]

/-- Pairs `(i, j)` in the order of the two nested loops `i = 1..2`, `j = 0..i-1`. -/
def scanPairs2 : List (Fin 3 × Fin 3) := [(1, 0), (2, 0), (2, 1)]

/-- One pass of the two nested `for` loops.  The state is `(sb, same)`; both loops are
guarded by `same`, so nothing is tested once a pair has been replaced. -/
def scan2 (D : TensorType 2) (sb : Superbase2) : Superbase2 × Bool :=
  scanPairs2.foldl
    (fun st ij =>
      if st.2 = true ∧ ScalarProduct D (st.1 ij.1) (st.1 ij.2) > 0 then
        (sellingStep2 st.1 ij.1 ij.2, false)
      else st)
    (sb, true)

/-- The loop `for (; iter < maxIter; ++iter)`: `fuel` is `maxIter - iter`.  It returns
the superbase and the value of `iter` at loop exit (`break` leaves `iter` as it is). -/
def sellingLoop2 (D : TensorType 2) : ℕ → ℕ → Superbase2 → Superbase2 × ℕ
  | 0, iter, sb => (sb, iter)
  | fuel + 1, iter, sb =>
    if (scan2 D sb).2 = true then ((scan2 D sb).1, iter)
    else sellingLoop2 D fuel (iter + 1) (scan2 D sb).1

/-- Superbase and iteration count after the Selling loop of `Stencil(Dispatch<2>)`. -/
def selling2 (D : TensorType 2) : Superbase2 × ℕ :=
  sellingLoop2 D maxIter 0 initialSuperbase2

/-- Output of a `Stencil` routine: `K` offsets, `K` coefficients, and whether the
warning "Selling's algorithm not stabilized" was printed (`iter == maxIter`). -/
structure StencilOutput (dim K : ℕ) where
  offsets : Fin K → Fin dim → ℤ
  coefficients : Fin K → ℚ
  warned : Bool

/-- The routine `Stencil(Dispatch<2>, D, offsets, coefficients)`, as it runs when
assertions are compiled out (`NDEBUG`).  Index arithmetic in `Fin 3` is modulo 3, as
`(i + 1) % 3` and `(i + 2) % 3` in the source. -/
def Stencil2 (D : TensorType 2) : StencilOutput 2 3 :=
  let sb := (selling2 D).1
  ⟨fun i => ![-(sb i 1), sb i 0],
   fun i => (-1 / 2) * ScalarProduct D (sb (i + 1)) (sb (i + 2)),
   decide ((selling2 D).2 = maxIter)⟩

/-- The same routine when assertions are active: the statement
`assert(coefficients[i] >= 0)`, which follows the assignment of each coefficient, stops
the program (`none`) at the first negative coefficient; otherwise the routine returns
what `Stencil2` returns. -/
def Stencil2Asserted (D : TensorType 2) : Option (StencilOutput 2 3) :=
  if ∀ i, 0 ≤ (Stencil2 D).coefficients i then some (Stencil2 D) else none

/-! ## `Stencil(Dispatch<3>)` -/

/-- A superbase in dimension three: `sb[0..3]`. -/
abbrev Superbase3 := Fin 4 → VectorType 3

/-- Superbase at loop entry: the three unit vectors and `-(sb[0] + sb[1] + sb[2])`. -/
def initialSuperbase3 : Superbase3 :=
  ![unitVector 0, unitVector 1, unitVector 2, -(unitVector 0 + unitVector 1 + unitVector 2)]

/-- Assignment `sb[l] = w` for a run-time position `l`. -/
def setAt (sb : Superbase3) (l : ℕ) (w : VectorType 3) : Superbase3 :=
  fun k => if k.val = l then w else sb k

/-- Body of the `if` inside the scan, with `u = sb[i]`, `v = sb[j]`: the loop
`for (k = 0, l = 0; k <= 3; ++k) if (k != i && k != j) sb[l++] = sb[k] + u`, run in
place, followed by `sb[2] = -u; sb[3] = v`. -/
def sellingStep3 (sb : Superbase3) (i j : Fin 4) : Superbase3 :=
  let u := sb i
  let v := sb j
  let shifted := (List.finRange 4).foldl
    (fun (st : Superbase3 × ℕ) k =>
      if k ≠ i ∧ k ≠ j then (setAt st.1 st.2 (st.1 k + u), st.2 + 1) else st)
    (sb, 0)
  setAt (setAt shifted.1 2 (-u)) 3 v

/-- Pairs `(i, j)` in the order of the two nested loops `i = 1..3`, `j = 0..i-1`. -/
def scanPairs3 : List (Fin 4 × Fin 4) := [(1, 0), (2, 0), (2, 1), (3, 0), (3, 1), (3, 2)]

/-- One pass of the two nested `for` loops in dimension three. -/
def scan3 (D : TensorType 3) (sb : Superbase3) : Superbase3 × Bool :=
  scanPairs3.foldl
    (fun st ij =>
      if st.2 = true ∧ ScalarProduct D (st.1 ij.1) (st.1 ij.2) > 0 then
        (sellingStep3 st.1 ij.1 ij.2, false)
      else st)
    (sb, true)

/-- The loop `for (; iter < maxIter; ++iter)` in dimension three. -/
def sellingLoop3 (D : TensorType 3) : ℕ → ℕ → Superbase3 → Superbase3 × ℕ
  | 0, iter, sb => (sb, iter)
  | fuel + 1, iter, sb =>
    if (scan3 D sb).2 = true then ((scan3 D sb).1, iter)
    else sellingLoop3 D fuel (iter + 1) (scan3 D sb).1

/-- Superbase and iteration count after the Selling loop of `Stencil(Dispatch<3>)`. -/
def selling3 (D : TensorType 3) : Superbase3 × ℕ :=
  sellingLoop3 D maxIter 0 initialSuperbase3

/-- The tensor `Weights`: the source writes `Weights(i, j)` for `j < i`, which is the
stored entry of row `j` and column `i`. -/
def Weights (D : TensorType 3) (sb : Superbase3) : TensorType 4 :=
  ⟨fun j i => (-1 / 2) * ScalarProduct D (sb i) (sb j)⟩

/-- The first three offsets: the comatrix of `sb[0..2]`. -/
def comatrixOffsets (sb : Superbase3) (i : Fin 3) : Fin 3 → ℤ :=
  fun j =>
    sb (Fin.castSucc (i + 1)) (j + 1) * sb (Fin.castSucc (i + 2)) (j + 2) -
      sb (Fin.castSucc (i + 2)) (j + 1) * sb (Fin.castSucc (i + 1)) (j + 2)

/-- The routine `Stencil(Dispatch<3>, D, offsets, coefficients)`. -/
def Stencil3 (D : TensorType 3) : StencilOutput 3 6 :=
  let sb := (selling3 D).1
  let W := Weights D sb
  let o := comatrixOffsets sb
  ⟨![o 0, o 1, o 2, o 0 - o 1, o 0 - o 2, o 1 - o 2],
   ![W.get 0 3, W.get 1 3, W.get 2 3, W.get 0 1, W.get 0 2, W.get 1 2],
   decide ((selling3 D).2 = maxIter)⟩

/-! ## `StencilFunctor` -/

/-- An image region (`itk::ImageRegion`): start index and size along each axis. -/
structure RegionType (dim : ℕ) where
  index : Fin dim → ℤ
  size : Fin dim → ℕ

/-- `region.IsInside(y)`. -/
def RegionType.IsInside {dim : ℕ} (r : RegionType dim) (y : Fin dim → ℤ) : Prop :=
  ∀ i, r.index i ≤ y i ∧ y i < r.index i + r.size i

instance {dim : ℕ} (r : RegionType dim) (y : Fin dim → ℤ) : Decidable (r.IsInside y) := by
  unfold RegionType.IsInside
  infer_instance

/-- Number of pixels of the region. -/
def RegionType.numberOfPixels {dim : ℕ} (r : RegionType dim) : ℕ := ∏ i, r.size i

/-- The loop of `Initialize` that fills `prod`: `prod[0] = 1` and
`prod[i] = prod[i - 1] * region.GetSize()[i - 1]`. -/
def prodLoop {dim : ℕ} (r : RegionType dim) : ℕ → ℤ
  | 0 => 1
  | i + 1 => prodLoop r i * (if h : i < dim then (r.size ⟨i, h⟩ : ℤ) else 1)

/-- Data members of `StencilFunctor`. -/
structure StencilFunctor (dim : ℕ) where
  region : RegionType dim
  prod : Fin dim → ℤ
  invSpacing : Fin dim → ℚ

/-- `StencilFunctor::Initialize(region, spacing)`. -/
def StencilFunctor.Initialize {dim : ℕ} (region : RegionType dim) (spacing : Fin dim → ℚ) :
    StencilFunctor dim :=
  ⟨region, fun i => prodLoop region i.val, fun i => 1 / spacing i⟩

/-- `StencilFunctor::BufferIndex(x)`.  The loop accumulates the sum `ans` in the 64-bit
type `IndexValueType`; the function returns it as `InternalSizeT`, which the header of
the filter declares as `int`, so the result is the sum narrowed to 32 bits.  (Wrapping
the sum to 64 bits first would not change the result.) -/
def StencilFunctor.BufferIndex {dim : ℕ} (f : StencilFunctor dim) (x : Fin dim → ℤ) : ℤ :=
  wrapInt32 (∑ i, f.prod i * (x i - f.region.index i))

/-- The stencil as `operator()` fills it (`StencilType`, a pair in the source):
`first` holds the `2 * K` stored addresses, which are values of `InternalSizeT`, that
is `int`s; `second` holds the `K` coefficients. -/
structure StoredStencil (K : ℕ) where
  first : Fin (2 * K) → ℤ
  second : Fin K → ℚ

/-- A stencil as the two sequential loops use it: `first` holds, for each of the
`2 * K` slots, the cell of the pixel buffers that the slot designates (or the
sentinel), `second` the `K` coefficients. -/
structure StencilType (K : ℕ) where
  first : Fin (2 * K) → ℕ
  second : Fin K → ℚ

/-- The stored stencil as the sequential loops read it.  They use the stored `int`
`yIndex` as an index into the pixel buffers (`diagBuffer[yIndex]`,
`inputBuffer[yIndex]`), so a stored value `a ≥ 0` is the cell of rank `a`.  A negative
stored value designates no cell (the access would fall before the buffer) and is read
as 0 here; it does not occur when the region has at most `INT_MAX` pixels. -/
def StoredStencil.cells {K : ℕ} (st : StoredStencil K) : StencilType K :=
  ⟨fun s => (st.first s).toNat, st.second⟩

/-- Index `i / 2` of the coefficient shared by slots `i`. -/
def halfSlot {K : ℕ} (i : Fin (2 * K)) : Fin K := ⟨i.val / 2, by omega⟩

/-- The dimension-specific `Stencil` overload selected by `Dispatch<ImageDimension>`. -/
structure Dispatch (dim K : ℕ) where
  Stencil : TensorType dim → StencilOutput dim K

/-- `Dispatch<2>`. -/
def Dispatch2 : Dispatch 2 3 := ⟨Stencil2⟩

/-- `Dispatch<3>`. -/
def Dispatch3 : Dispatch 3 6 := ⟨Stencil3⟩

/-- `StencilFunctor::operator()(tensor, x)`.  `outside` is the value of
`OutsideBufferIndex()`, the largest value of the address type `InternalSizeT`
(`INT_MAX` in the filter).  Slot `2 * i + orientation` receives the address of
`x + offsets[i]` (orientation 0) or `x - offsets[i]` (orientation 1): the `int`
returned by `BufferIndex(y)` when `y` is inside the region, the sentinel otherwise. -/
def StencilFunctor.apply {dim K : ℕ} (f : StencilFunctor dim) (d : Dispatch dim K)
    (outside : ℕ) (tensor : TensorType dim) (x : Fin dim → ℤ) : StoredStencil K :=
  let D : TensorType dim := ⟨fun i j => tensor.get i j * f.invSpacing i * f.invSpacing j⟩
  let out := d.Stencil D
  ⟨fun s =>
      let y : Fin dim → ℤ :=
        if s.val % 2 = 1 then x - out.offsets (halfSlot s) else x + out.offsets (halfSlot s)
      if f.region.IsInside y then f.BufferIndex y else (outside : ℤ),
   out.coefficients⟩

/-! ## `GenerateStencils` -/

/-- An image of stencils over a region of `numberOfPixels` pixels; `pixel p` is the
pixel met in `p`-th position by a region iterator, which is also the pixel of buffer
address `p`. -/
structure StencilImage (K : ℕ) where
  numberOfPixels : ℕ
  pixel : ℕ → StencilType K

/-- Index of the pixel of buffer address `p` (`ComputeIndex` of the image). -/
def indexOfAddress {dim : ℕ} (f : StencilFunctor dim) (p : ℕ) : Fin dim → ℤ :=
  fun i => f.region.index i + ((p : ℤ) / f.prod i) % (f.region.size i : ℤ)

/-- First half of `GenerateStencils`: the functor filter applies `StencilFunctor` to the
tensor and the index of every pixel of the region; the result is the stencil image that
the sequential loops read. -/
def stencilImageOf {dim K : ℕ} (d : Dispatch dim K) (outside : ℕ) (region : RegionType dim)
    (spacing : Fin dim → ℚ) (tensorImage : (Fin dim → ℤ) → TensorType dim) : StencilImage K :=
  let f := StencilFunctor.Initialize region spacing
  ⟨region.numberOfPixels,
   fun p => (f.apply d outside (tensorImage (indexOfAddress f p)) (indexOfAddress f p)).cells⟩

/-- The statement `buf[k] += c` on a pixel buffer. -/
def addAt (buf : List ℚ) (k : ℕ) (c : ℚ) : List ℚ := buf.set k (buf.getD k 0 + c)

/-- Body of the loop over the slots in `GenerateStencils`, at the pixel of address `p`:
`diagIt.Value() += coefficient; diagBuffer[yIndex] += coefficient`. -/
def diagonalSlot {K : ℕ} (outside : ℕ) (st : StencilType K) (p : ℕ) (diag : List ℚ)
    (i : Fin (2 * K)) : List ℚ :=
  let yIndex := st.first i
  if yIndex ≠ outside then
    let coefficient := st.second (halfSlot i)
    addAt (addAt diag p coefficient) yIndex coefficient
  else diag

/-- Second half of `GenerateStencils`: `m_DiagonalCoefficients` after the sequential
sweep over the pixels, starting from the buffer filled with zeros. -/
def DiagonalCoefficients {K : ℕ} (outside : ℕ) (S : StencilImage K) : List ℚ :=
  (List.range S.numberOfPixels).foldl
    (fun diag p => (List.finRange (2 * K)).foldl (diagonalSlot outside (S.pixel p) p) diag)
    (List.replicate S.numberOfPixels 0)

/-! ## Time step and parameters -/

/-- Maximum of a buffer (`MinimumMaximumImageCalculator::GetMaximum` over the region).
On an empty buffer the calculator returns the lowest value of the pixel type, which the
rationals do not have; 0 stands for it. -/
def GetMaximum : List ℚ → ℚ
  | [] => 0
  | a :: rest => rest.foldl max a

/-- `MaxStableTimeStep()`. -/
def MaxStableTimeStep (diag : List ℚ) : ℚ := 1 / GetMaximum diag

/-- Parameters and results held by the filter.  `m_MaxNumberOfTimeSteps` is an `int`
member: its value lies between `INT_MIN` and `INT_MAX`. -/
structure FilterState where
  m_DiffusionTime : ℚ
  m_RatioToMaxStableTimeStep : ℚ
  m_MaxNumberOfTimeSteps : ℤ
  m_EffectiveDiffusionTime : ℚ
  m_EffectiveNumberOfTimeSteps : ℤ
  maxNumberOfTimeSteps_int : INT_MIN ≤ m_MaxNumberOfTimeSteps ∧ m_MaxNumberOfTimeSteps ≤ INT_MAX
  deriving DecidableEq

/-- `SetMaxDiffusionTime(time)`; an exception is `Except.error`. -/
def SetMaxDiffusionTime (s : FilterState) (time : ℚ) : Except String FilterState :=
  if time < 0 then Except.error "diffusion time must be finite and positive"
  else Except.ok { s with m_DiffusionTime := time }

/-- `SetRatioToMaxStableTimeStep(ratio)`; an exception is `Except.error`. -/
def SetRatioToMaxStableTimeStep (s : FilterState) (ratio : ℚ) : Except String FilterState :=
  if ratio ≤ 0 ∨ ratio > 1 then
    Except.error ("Ratio to max time step " ++ toString ratio ++ "should be within ]0,1]")
  else Except.ok { s with m_RatioToMaxStableTimeStep := ratio }

/-- `SetMaxNumberOfTimeSteps(n)`, whose argument is an `int`; an exception is
`Except.error`. -/
def SetMaxNumberOfTimeSteps (s : FilterState) (n : ℤ) (hn : INT_MIN ≤ n ∧ n ≤ INT_MAX) :
    Except String FilterState :=
  if n ≤ 0 then Except.error "Max number of time steps must be positive"
  else Except.ok { s with m_MaxNumberOfTimeSteps := n, maxNumberOfTimeSteps_int := hn }

/-- What the first lines of `ImageUpdateLoop` compute: the step `delta` handed to
`ImageUpdate`, the number `n` of steps and the effective diffusion time. -/
structure TimeStepping where
  delta : ℚ
  n : ℤ
  effectiveDiffusionTime : ℚ
  deriving DecidableEq

/-- The scheduling lines of `ImageUpdateLoop`: `int n = ceil(m_DiffusionTime / delta)`
followed by the test `n > m_MaxNumberOfTimeSteps`. -/
def timeStepping (s : FilterState) (diag : List ℚ) : TimeStepping :=
  let delta := MaxStableTimeStep diag * s.m_RatioToMaxStableTimeStep
  let n : ℤ := intOfCeil (s.m_DiffusionTime / delta)
  if n > s.m_MaxNumberOfTimeSteps then
    ⟨delta, s.m_MaxNumberOfTimeSteps, s.m_MaxNumberOfTimeSteps * delta⟩
  else
    ⟨s.m_DiffusionTime / n, n, s.m_DiffusionTime⟩

/-! ## `ImageUpdate` -/

/-- `FunctorType::operator()(output, input, diag)` with the member `delta`. -/
def FunctorType (delta output input diag : ℚ) : ℚ :=
  output * delta + input * (1 - delta * diag)

/-- Body of the loop over the slots in `ImageUpdate`, at the pixel of address `p`:
`outputIt.Value() += coefficient * inputBuffer[yIndex];
outputBuffer[yIndex] += coefficient * inputIt.Value()`. -/
def offDiagonalSlot {K : ℕ} (outside : ℕ) (input : List ℚ) (st : StencilType K) (p : ℕ)
    (output : List ℚ) (i : Fin (2 * K)) : List ℚ :=
  let yIndex := st.first i
  if yIndex ≠ outside then
    let coefficient := st.second (halfSlot i)
    addAt (addAt output p (coefficient * input.getD yIndex 0)) yIndex
      (coefficient * input.getD p 0)
  else output

/-- The output buffer of `ImageUpdate` after `FillBuffer` and the sequential loop over
the off-diagonal matrix elements. -/
def offDiagonal {K : ℕ} (outside : ℕ) (S : StencilImage K) (input : List ℚ) : List ℚ :=
  (List.range S.numberOfPixels).foldl
    (fun output p =>
      (List.finRange (2 * K)).foldl (offDiagonalSlot outside input (S.pixel p) p) output)
    (List.replicate S.numberOfPixels 0)

/-- `ImageUpdate(delta)`: the next image computed from the previous one (`input`), the
stencil image and the diagonal coefficients.  The ternary functor filter applies
`FunctorType` pixel by pixel. -/
def ImageUpdate {K : ℕ} (outside : ℕ) (S : StencilImage K) (diag : List ℚ) (delta : ℚ)
    (input : List ℚ) : List ℚ :=
  (List.range S.numberOfPixels).map
    (fun q => FunctorType delta ((offDiagonal outside S input).getD q 0) (input.getD q 0)
      (diag.getD q 0))

/-- The loop `for (k = 0; k < n; ++k) { ImageUpdate(delta); swap(previous, next); }`:
the previous image after `n` steps. -/
def updateSteps {K : ℕ} (outside : ℕ) (S : StencilImage K) (diag : List ℚ) (delta : ℚ) :
    ℕ → List ℚ → List ℚ
  | 0, previous => previous
  | n + 1, previous => updateSteps outside S diag delta n (ImageUpdate outside S diag delta previous)

/-- `ImageUpdateLoop()`: the filter state with the effective time and number of steps
recorded, and the image grafted to the output. -/
def ImageUpdateLoop {K : ℕ} (outside : ℕ) (S : StencilImage K) (diag : List ℚ)
    (s : FilterState) (input : List ℚ) : FilterState × List ℚ :=
  let t := timeStepping s diag
  ({ s with m_EffectiveDiffusionTime := t.effectiveDiffusionTime,
            m_EffectiveNumberOfTimeSteps := t.n },
   updateSteps outside S diag t.delta t.n.toNat input)

/-! ## Inputs used in the statements -/

/-- The tensor with `a`, `b`, `c` for `D(0,0)`, `D(0,1)`, `D(1,1)`. -/
def tensor2 (a b c : ℚ) : TensorType 2 := ⟨![![a, b], ![b, c]]⟩

/-- The identity tensor. -/
def identityTensor (dim : ℕ) : TensorType dim := ⟨fun i j => if i = j then 1 else 0⟩

/-- Positive definiteness of a symmetric tensor in dimension two (Sylvester): the two
leading principal minors are positive. -/
def PositiveDefinite2 (D : TensorType 2) : Prop :=
  0 < D.get 0 0 ∧ 0 < D.get 0 0 * D.get 1 1 - D.get 0 1 * D.get 1 0

instance (D : TensorType 2) : Decidable (PositiveDefinite2 D) := by
  unfold PositiveDefinite2
  infer_instance

/-- A superbase is obtuse for `D` when no pair of the scan has a positive product. -/
def Obtuse2 (D : TensorType 2) (sb : Superbase2) : Prop :=
  ScalarProduct D (sb 1) (sb 0) ≤ 0 ∧ ScalarProduct D (sb 2) (sb 0) ≤ 0 ∧
    ScalarProduct D (sb 2) (sb 1) ≤ 0

/-- A strongly sheared positive-definite tensor: `D(0,0) = 1`, `D(0,1) = 300`,
`D(1,1) = 90001`, of determinant 1. -/
def shearedTensor : TensorType 2 := tensor2 1 300 90001

/-- Superbase met by the Selling loop on `shearedTensor` after `k ≥ 2` iterations. -/
def shearedSuperbase (k : ℕ) : Superbase2 := ![![k, -1], ![-1, 0], ![-((k : ℤ) - 1), 1]]

/-- The members of the filter after a setter call: an exception leaves them as they
were. -/
def stateAfter (s : FilterState) (r : Except String FilterState) : FilterState :=
  match r with
  | Except.ok s' => s'
  | Except.error _ => s

/-- Whether a setter call raised an exception. -/
def raises (r : Except String FilterState) : Prop :=
  match r with
  | Except.ok _ => False
  | Except.error _ => True

/-- The request `T = 10^10`, `r = 1`, `N_max = 10`, before the filter has run. -/
def overflowState : FilterState := ⟨10000000000, 1, 10, 0, 0, by decide⟩

/-- A stencil image of one pixel whose six slots all hold address 0 with coefficient 0. -/
def trivialImage : StencilImage 3 := ⟨1, fun _ => ⟨fun _ => 0, fun _ => 0⟩⟩

/-! ## Notions used to state the properties of the update -/

/-- Every address of the stencil image that is not the sentinel is a valid index of the
pixel buffers. -/
def ValidAddresses {K : ℕ} (outside : ℕ) (S : StencilImage K) : Prop :=
  ∀ p, p < S.numberOfPixels → ∀ i, (S.pixel p).first i ≠ outside →
    (S.pixel p).first i < S.numberOfPixels

/-- Shape shared by the slot bodies of the two sequential loops: at a slot whose address
is not the sentinel, `buf[p] += f i; buf[first i] += g i`. -/
def scatterSlot {K : ℕ} (outside : ℕ) (first : Fin (2 * K) → ℕ) (f g : Fin (2 * K) → ℚ)
    (p : ℕ) (buf : List ℚ) (i : Fin (2 * K)) : List ℚ :=
  if first i ≠ outside then addAt (addAt buf p (f i)) (first i) (g i) else buf

/-- What slot `i` of pixel `p` adds to cell `q` of a buffer of `n` cells. -/
def slotShare {K : ℕ} (outside : ℕ) (first : Fin (2 * K) → ℕ) (f g : Fin (2 * K) → ℚ)
    (p n q : ℕ) (i : Fin (2 * K)) : ℚ :=
  if first i ≠ outside then
    (if p = q ∧ p < n then f i else 0) + (if first i = q ∧ first i < n then g i else 0)
  else 0

/-- Coefficient carried by slot `i` of pixel `p`: the stored coefficient `second[i / 2]`
when the address of the slot is not the sentinel, zero otherwise (the slot is skipped). -/
def slotCoefficient {K : ℕ} (outside : ℕ) (S : StencilImage K) (p : ℕ) (i : Fin (2 * K)) : ℚ :=
  if (S.pixel p).first i ≠ outside then (S.pixel p).second (halfSlot i) else 0

/-- Pixels `p` and `q` are joined by a stencil slot that is not the sentinel: `q` is a
target of `p`, or `p` is a target of `q`. -/
def Joined {K : ℕ} (outside : ℕ) (S : StencilImage K) (p q : ℕ) : Prop :=
  (∃ i, (S.pixel p).first i ≠ outside ∧ (S.pixel p).first i = q) ∨
    (∃ i, (S.pixel q).first i ≠ outside ∧ (S.pixel q).first i = p)

instance {K : ℕ} (outside : ℕ) (S : StencilImage K) : Decidable (ValidAddresses outside S) := by
  unfold ValidAddresses
  infer_instance

/-- Two pixels joined to each other (`K = 1`, sentinel 7): slot 0 of pixel 0 holds
address 1, slot 1 of pixel 1 holds address 0, the two other slots are outside; the
coefficient is `1/2` at both pixels. -/
def chainImage : StencilImage 1 :=
  ⟨2, fun p => ⟨fun i => if p = 0 ∧ i.val = 0 then 1 else if p = 1 ∧ i.val = 1 then 0 else 7,
    fun _ => 1 / 2⟩⟩

/-! ## The isotropic image on a two-dimensional grid -/

/-- The region of a two-dimensional grid: start index `(ox, oy)`, size `W × H`. -/
def region2 (ox oy : ℤ) (W H : ℕ) : RegionType 2 := ⟨![ox, oy], ![W, H]⟩

/-- The stencil image that `GenerateStencils` builds on a two-dimensional region with
unit spacing and the identity tensor at every pixel. -/
def isotropicImage (outside : ℕ) (region : RegionType 2) : StencilImage 3 :=
  stencilImageOf Dispatch2 outside region (fun _ => 1) (fun _ => identityTensor 2)

/-- The value of `OutsideBufferIndex()` in the filter: the largest value of
`InternalSizeT`, which is `INT_MAX`. -/
def OutsideBufferIndex : ℕ := 2147483647

/-- Every stencil target of the pixel of address `p` is inside the region: none of its
slots holds the sentinel. -/
def AllTargetsInside {K : ℕ} (outside : ℕ) (S : StencilImage K) (p : ℕ) : Prop :=
  ∀ s, (S.pixel p).first s ≠ outside

/-- The field equal to 1 at the pixel of address `P` and to 0 elsewhere. -/
def hotField (N P : ℕ) : List ℚ := (List.range N).map (fun q => if q = P then 1 else 0)

/-- First coordinate of the displacement of slot `s` of the isotropic stencil. -/
def slotDx (s : Fin (2 * 3)) : ℤ :=
  match s.val with
  | 0 => 0
  | 1 => 0
  | 2 => -1
  | 3 => 1
  | 4 => 1
  | _ => -1

/-- Second coordinate of the displacement of slot `s` of the isotropic stencil. -/
def slotDy (s : Fin (2 * 3)) : ℤ :=
  match s.val with
  | 0 => 1
  | 1 => -1
  | 2 => 0
  | 3 => 0
  | 4 => -1
  | _ => 1

/-- The slot of the opposite orientation: `2 * i + 1` for `2 * i` and conversely. -/
def oppositeSlot (s : Fin (2 * 3)) : Fin (2 * 3) :=
  match s.val with
  | 0 => ⟨1, by omega⟩
  | 1 => ⟨0, by omega⟩
  | 2 => ⟨3, by omega⟩
  | 3 => ⟨2, by omega⟩
  | 4 => ⟨5, by omega⟩
  | _ => ⟨4, by omega⟩

/-- Buffer address of the grid point `x` of the region `region2 ox oy W H`:
`BufferIndex(x)` of the functor initialised on that region with unit spacing. -/
def gridAddress (ox oy : ℤ) (W H : ℕ) (x : Fin 2 → ℤ) : ℕ :=
  ((StencilFunctor.Initialize (region2 ox oy W H) (fun _ => 1)).BufferIndex x).toNat

/-- One `ImageUpdate` step at `delta = MaxStableTimeStep()` on the isotropic grid, from
the field equal to 1 at the grid point `x` and to 0 elsewhere. -/
def hotStep (outside : ℕ) (ox oy : ℤ) (W H : ℕ) (x : Fin 2 → ℤ) : List ℚ :=
  ImageUpdate outside (isotropicImage outside (region2 ox oy W H))
    (DiagonalCoefficients outside (isotropicImage outside (region2 ox oy W H)))
    (MaxStableTimeStep (DiagonalCoefficients outside (isotropicImage outside (region2 ox oy W H))))
    (hotField (isotropicImage outside (region2 ox oy W H)).numberOfPixels
      (gridAddress ox oy W H x))

/-! ## The update written as in the specification -/

/-- The explicit-Euler gather form of one step, following the words of the
specification: `previous[p] + delta *` the sum, over all pixels `q` and all slots `i` of
`q` whose address `t` is not the sentinel, of
`coefficient * (previous[t] - previous[p])` if `q = p`, plus
`coefficient * (previous[q] - previous[p])` if `t = p`. -/
def gatherStep {K : ℕ} (outside : ℕ) (S : StencilImage K) (delta : ℚ) (previous : List ℚ)
    (p : ℕ) : ℚ :=
  previous.getD p 0 + delta *
    ∑ q ∈ Finset.range S.numberOfPixels, ∑ i : Fin (2 * K),
      if (S.pixel q).first i ≠ outside then
        (if q = p then
            (S.pixel q).second (halfSlot i) *
              (previous.getD ((S.pixel q).first i) 0 - previous.getD p 0)
          else 0) +
          (if (S.pixel q).first i = p then
            (S.pixel q).second (halfSlot i) * (previous.getD q 0 - previous.getD p 0)
          else 0)
      else 0

/-- The field `a * u + b * w`, pixel by pixel. -/
def combine (a b : ℚ) (u w : List ℚ) : List ℚ := List.zipWith (fun x y => a * x + b * y) u w

/-- The standard dot product of two fields over `N` pixels. -/
def dot (N : ℕ) (u w : List ℚ) : ℚ := ∑ p ∈ Finset.range N, u.getD p 0 * w.getD p 0

/-! ## Superbases -/

/-- Determinant of the first two vectors of a superbase in dimension two. -/
def superbaseDet2 (sb : Superbase2) : ℤ :=
  Matrix.det (fun i j : Fin 2 => sb (Fin.castSucc i) j)

/-- Determinant of the first three vectors of a superbase in dimension three. -/
def superbaseDet3 (sb : Superbase3) : ℤ :=
  Matrix.det (fun i j : Fin 3 => sb (Fin.castSucc i) j)

/-- The three vectors sum to zero and the first two have determinant `1` or `-1`. -/
def IsSuperbase2 (sb : Superbase2) : Prop :=
  sb 0 + sb 1 + sb 2 = 0 ∧ (superbaseDet2 sb = 1 ∨ superbaseDet2 sb = -1)

/-- The four vectors sum to zero and the first three have determinant `1` or `-1`. -/
def IsSuperbase3 (sb : Superbase3) : Prop :=
  sb 0 + sb 1 + sb 2 + sb 3 = 0 ∧ (superbaseDet3 sb = 1 ∨ superbaseDet3 sb = -1)

/-- A superbase in dimension three is obtuse for `D` when no pair of the scan has a
positive product. -/
def Obtuse3 (D : TensorType 3) (sb : Superbase3) : Prop :=
  ScalarProduct D (sb 1) (sb 0) ≤ 0 ∧ ScalarProduct D (sb 2) (sb 0) ≤ 0 ∧
    ScalarProduct D (sb 2) (sb 1) ≤ 0 ∧ ScalarProduct D (sb 3) (sb 0) ≤ 0 ∧
    ScalarProduct D (sb 3) (sb 1) ≤ 0 ∧ ScalarProduct D (sb 3) (sb 2) ≤ 0

/-! ## Notions used to state the properties of the functor -/

/-- The grid point that slot `s` of the stencil at `x` refers to: `x + offsets[s / 2]`
for an even slot (orientation 0), `x - offsets[s / 2]` for an odd one. -/
def slotTarget {dim K : ℕ} (out : StencilOutput dim K) (x : Fin dim → ℤ) (s : Fin (2 * K)) :
    Fin dim → ℤ :=
  if s.val % 2 = 1 then x - out.offsets (halfSlot s) else x + out.offsets (halfSlot s)

/-- The rescaled tensor in the words of the specification:
`D(i, j) = tensor(i, j) / (spacing[i] * spacing[j])`. -/
def rescaledTensor {dim : ℕ} (tensor : TensorType dim) (spacing : Fin dim → ℚ) :
    TensorType dim :=
  ⟨fun i j => tensor.get i j / (spacing i * spacing j)⟩

/-- Size of the region along axis `i`, as the loop of `Initialize` reads it (1 past the
last axis). -/
def sizeAt {dim : ℕ} (r : RegionType dim) (i : ℕ) : ℤ :=
  if h : i < dim then (r.size ⟨i, h⟩ : ℤ) else 1

/-- Coordinate of `x` along axis `i` relative to the start of the region (0 past the
last axis). -/
def digitAt {dim : ℕ} (r : RegionType dim) (x : Fin dim → ℤ) (i : ℕ) : ℤ :=
  if h : i < dim then x ⟨i, h⟩ - r.index ⟨i, h⟩ else 0

/-! # Properties -/

/-! ## The scalar product and the Selling loop in dimension two -/

theorem ScalarProduct_comm {dim : ℕ} (m : TensorType dim) (u v : VectorType dim) :
    ScalarProduct m u v = ScalarProduct m v u := by
  unfold ScalarProduct
  congr 1
  · exact Finset.sum_congr rfl (fun i _ => by ring)
  · exact Finset.sum_congr rfl (fun i _ => Finset.sum_congr rfl (fun j _ => by ring))

theorem ScalarProduct_two (m : TensorType 2) (u v : VectorType 2) :
    ScalarProduct m u v =
      m.upper 0 0 * u 0 * v 0 + m.upper 1 1 * u 1 * v 1 +
        m.upper 0 1 * (u 0 * v 1 + u 1 * v 0) := by
  simp [ScalarProduct, TensorType.get, Fin.sum_univ_two, Finset.sum_filter]

theorem ScalarProduct_three (m : TensorType 3) (u v : VectorType 3) :
    ScalarProduct m u v =
      m.upper 0 0 * u 0 * v 0 + m.upper 1 1 * u 1 * v 1 + m.upper 2 2 * u 2 * v 2 +
        (m.upper 0 1 * (u 0 * v 1 + u 1 * v 0) + m.upper 0 2 * (u 0 * v 2 + u 2 * v 0) +
          m.upper 1 2 * (u 1 * v 2 + u 2 * v 1)) := by
  simp [ScalarProduct, TensorType.get, Fin.sum_univ_three, Finset.sum_filter]

theorem scan2_eq (D : TensorType 2) (sb : Superbase2) :
    scan2 D sb =
      if ScalarProduct D (sb 1) (sb 0) > 0 then (sellingStep2 sb 1 0, false)
      else if ScalarProduct D (sb 2) (sb 0) > 0 then (sellingStep2 sb 2 0, false)
      else if ScalarProduct D (sb 2) (sb 1) > 0 then (sellingStep2 sb 2 1, false)
      else (sb, true) := by
  simp only [scan2, scanPairs2, List.foldl]
  by_cases h1 : ScalarProduct D (sb 1) (sb 0) > 0
  · simp [h1]
  by_cases h2 : ScalarProduct D (sb 2) (sb 0) > 0
  · simp [h1, h2]
  by_cases h3 : ScalarProduct D (sb 2) (sb 1) > 0
  · simp [h1, h2, h3]
  simp [h1, h2, h3]

theorem scan2_same (D : TensorType 2) (sb : Superbase2) (h : (scan2 D sb).2 = true) :
    (scan2 D sb).1 = sb ∧ Obtuse2 D sb := by
  rw [scan2_eq] at h ⊢
  unfold Obtuse2
  split_ifs at h ⊢ with h1 h2 h3
  all_goals exact ⟨rfl, not_lt.mp h1, not_lt.mp h2, not_lt.mp h3⟩

theorem sellingLoop2_iter_le (D : TensorType 2) (fuel : ℕ) :
    ∀ (iter : ℕ) (sb : Superbase2), (sellingLoop2 D fuel iter sb).2 ≤ iter + fuel := by
  induction fuel with
  | zero => intro iter sb; simp [sellingLoop2]
  | succ fuel ih =>
    intro iter sb
    unfold sellingLoop2
    split_ifs with h
    · simp
    · have := ih (iter + 1) (scan2 D sb).1
      omega

theorem sellingLoop2_obtuse (D : TensorType 2) (fuel : ℕ) :
    ∀ (iter : ℕ) (sb : Superbase2), (sellingLoop2 D fuel iter sb).2 < iter + fuel →
      Obtuse2 D (sellingLoop2 D fuel iter sb).1 := by
  induction fuel with
  | zero => intro iter sb h; simp [sellingLoop2] at h
  | succ fuel ih =>
    intro iter sb
    unfold sellingLoop2
    split_ifs with h
    · intro _
      have := scan2_same D sb h
      simp only [this.1]
      exact this.2
    · intro hlt
      exact ih (iter + 1) (scan2 D sb).1 (by omega)

theorem Stencil2_nonneg_of_obtuse (D : TensorType 2) (h : Obtuse2 D (selling2 D).1)
    (i : Fin 3) : 0 ≤ (Stencil2 D).coefficients i := by
  obtain ⟨h10, h20, h21⟩ := h
  have h12 := ScalarProduct_comm D ((selling2 D).1 1) ((selling2 D).1 2)
  have h01 := ScalarProduct_comm D ((selling2 D).1 0) ((selling2 D).1 1)
  simp only [Stencil2]
  fin_cases i
  · show 0 ≤ (-1 / 2) * ScalarProduct D ((selling2 D).1 1) ((selling2 D).1 2)
    rw [h12]; linarith
  · show 0 ≤ (-1 / 2) * ScalarProduct D ((selling2 D).1 2) ((selling2 D).1 0)
    linarith
  · show 0 ≤ (-1 / 2) * ScalarProduct D ((selling2 D).1 0) ((selling2 D).1 1)
    rw [h01]; linarith

theorem scan2_sheared (k : ℕ) (hk : k < 300) :
    scan2 shearedTensor (shearedSuperbase k) = (shearedSuperbase (k + 1), false) := by
  have hk' : (k : ℚ) < 300 := by exact_mod_cast hk
  rw [scan2_eq]
  have h1 : ScalarProduct shearedTensor (shearedSuperbase k 1) (shearedSuperbase k 0) > 0 := by
    simp [ScalarProduct_two, shearedTensor, tensor2, shearedSuperbase]
    linarith
  rw [if_pos h1]
  congr 1
  funext i j
  fin_cases i <;> fin_cases j <;> simp [sellingStep2, shearedSuperbase]

theorem sellingLoop2_sheared (fuel : ℕ) :
    ∀ k : ℕ, k + fuel ≤ 300 →
      sellingLoop2 shearedTensor fuel k (shearedSuperbase k) =
        (shearedSuperbase (k + fuel), k + fuel) := by
  induction fuel with
  | zero => intro k _; simp [sellingLoop2]
  | succ fuel ih =>
    intro k hk
    unfold sellingLoop2
    rw [scan2_sheared k (by omega)]
    simp only [Bool.false_eq_true, if_false]
    rw [ih (k + 1) (by omega)]
    have e : k + 1 + fuel = k + (fuel + 1) := by omega
    rw [e]

theorem initialSuperbase2_eq : initialSuperbase2 = ![![1, 0], ![0, 1], ![-1, -1]] := by
  decide

theorem selling2_sheared : selling2 shearedTensor = (shearedSuperbase 200, 200) := by
  have e1 : scan2 shearedTensor initialSuperbase2 = (![![1, -1], ![0, 1], ![-1, 0]], false) := by
    rw [scan2_eq, initialSuperbase2_eq]
    have h1 : ScalarProduct shearedTensor ((![![1, 0], ![0, 1], ![-1, -1]] : Superbase2) 1)
        ((![![1, 0], ![0, 1], ![-1, -1]] : Superbase2) 0) > 0 := by
      norm_num [ScalarProduct_two, shearedTensor, tensor2]
    rw [if_pos h1]
    congr 1
    decide
  have e2 : scan2 shearedTensor ![![1, -1], ![0, 1], ![-1, 0]] = (shearedSuperbase 2, false) := by
    rw [scan2_eq]
    have h1 : ¬ ScalarProduct shearedTensor ((![![1, -1], ![0, 1], ![-1, 0]] : Superbase2) 1)
        ((![![1, -1], ![0, 1], ![-1, 0]] : Superbase2) 0) > 0 := by
      norm_num [ScalarProduct_two, shearedTensor, tensor2]
    have h2 : ScalarProduct shearedTensor ((![![1, -1], ![0, 1], ![-1, 0]] : Superbase2) 2)
        ((![![1, -1], ![0, 1], ![-1, 0]] : Superbase2) 0) > 0 := by
      norm_num [ScalarProduct_two, shearedTensor, tensor2]
    rw [if_neg h1, if_pos h2]
    congr 1
    decide
  unfold selling2 maxIter
  unfold sellingLoop2
  rw [e1]
  simp only [Bool.false_eq_true, if_false]
  unfold sellingLoop2
  rw [e2]
  simp only [Bool.false_eq_true, if_false]
  exact sellingLoop2_sheared 198 2 (by norm_num)

/-- C1 on the code: the tensor with `D(0,0) = 1`, `D(0,1) = 300`, `D(1,1) = 90001` is
symmetric positive definite; the Selling loop uses up its 200 iterations on it (the
warning is printed), the coefficient written at position 2 is `-50`, and the assertion
`assert(coefficients[i] >= 0)` of the routine fails. -/
theorem C1_assertion_violated :
    PositiveDefinite2 shearedTensor ∧ (Stencil2 shearedTensor).warned = true ∧
      (Stencil2 shearedTensor).coefficients 2 = -50 ∧
      Stencil2Asserted shearedTensor = none := by
  have h2 : (Stencil2 shearedTensor).coefficients 2 = -50 := by
    show (-1 / 2) * ScalarProduct shearedTensor ((selling2 shearedTensor).1 0)
        ((selling2 shearedTensor).1 1) = -50
    rw [selling2_sheared]
    norm_num [ScalarProduct_two, shearedTensor, tensor2, shearedSuperbase]
  refine ⟨?_, ?_, h2, ?_⟩
  · norm_num [PositiveDefinite2, shearedTensor, tensor2, TensorType.get]
  · simp [Stencil2, selling2_sheared, maxIter]
  · unfold Stencil2Asserted
    rw [if_neg]
    intro h
    have := h 2
    rw [h2] at this
    norm_num at this

/-! ## The isotropic stencil -/

theorem initialSuperbase3_eq :
    initialSuperbase3 = ![![1, 0, 0], ![0, 1, 0], ![0, 0, 1], ![-1, -1, -1]] := by
  decide

theorem scan3_eq (D : TensorType 3) (sb : Superbase3) :
    scan3 D sb =
      if ScalarProduct D (sb 1) (sb 0) > 0 then (sellingStep3 sb 1 0, false)
      else if ScalarProduct D (sb 2) (sb 0) > 0 then (sellingStep3 sb 2 0, false)
      else if ScalarProduct D (sb 2) (sb 1) > 0 then (sellingStep3 sb 2 1, false)
      else if ScalarProduct D (sb 3) (sb 0) > 0 then (sellingStep3 sb 3 0, false)
      else if ScalarProduct D (sb 3) (sb 1) > 0 then (sellingStep3 sb 3 1, false)
      else if ScalarProduct D (sb 3) (sb 2) > 0 then (sellingStep3 sb 3 2, false)
      else (sb, true) := by
  simp only [scan3, scanPairs3, List.foldl]
  by_cases h1 : ScalarProduct D (sb 1) (sb 0) > 0
  · simp [h1]
  by_cases h2 : ScalarProduct D (sb 2) (sb 0) > 0
  · simp [h1, h2]
  by_cases h3 : ScalarProduct D (sb 2) (sb 1) > 0
  · simp [h1, h2, h3]
  by_cases h4 : ScalarProduct D (sb 3) (sb 0) > 0
  · simp [h1, h2, h3, h4]
  by_cases h5 : ScalarProduct D (sb 3) (sb 1) > 0
  · simp [h1, h2, h3, h4, h5]
  by_cases h6 : ScalarProduct D (sb 3) (sb 2) > 0
  · simp [h1, h2, h3, h4, h5, h6]
  simp [h1, h2, h3, h4, h5, h6]

theorem selling2_identity : selling2 (identityTensor 2) = (initialSuperbase2, 0) := by
  have hscan : scan2 (identityTensor 2) initialSuperbase2 = (initialSuperbase2, true) := by
    rw [scan2_eq, initialSuperbase2_eq]
    simp +decide [ScalarProduct_two, identityTensor]
  simp [selling2, maxIter, sellingLoop2, hscan]

theorem selling3_identity : selling3 (identityTensor 3) = (initialSuperbase3, 0) := by
  have hscan : scan3 (identityTensor 3) initialSuperbase3 = (initialSuperbase3, true) := by
    rw [scan3_eq, initialSuperbase3_eq]
    simp +decide [ScalarProduct_three, identityTensor]
  simp [selling3, maxIter, sellingLoop3, hscan]

/-- C6: for the identity tensor the Selling loop makes no reduction step (it leaves at
`iter = 0` with the initial superbase, in 2D and in 3D).  In 2D the coefficients are
`(1/2, 1/2, 0)`, `offsets[0]` is the unit vector of axis 1, `offsets[1]` the opposite of
the unit vector of axis 0, and the only non-axis offset `(1, -1)` has coefficient 0.  In
3D the coefficients are `(1/2, 1/2, 1/2, 0, 0, 0)` and `offsets[0..2]` are the three
unit vectors. -/
theorem C6_isotropic_stencil :
    (selling2 (identityTensor 2) = (initialSuperbase2, 0) ∧
      (Stencil2 (identityTensor 2)).warned = false ∧
      (Stencil2 (identityTensor 2)).coefficients = ![1 / 2, 1 / 2, 0] ∧
      (Stencil2 (identityTensor 2)).offsets 0 = unitVector 1 ∧
      (Stencil2 (identityTensor 2)).offsets 1 = -unitVector 0 ∧
      (Stencil2 (identityTensor 2)).offsets 2 = ![1, -1]) ∧
    (selling3 (identityTensor 3) = (initialSuperbase3, 0) ∧
      (Stencil3 (identityTensor 3)).warned = false ∧
      (Stencil3 (identityTensor 3)).coefficients = ![1 / 2, 1 / 2, 1 / 2, 0, 0, 0] ∧
      (Stencil3 (identityTensor 3)).offsets 0 = unitVector 0 ∧
      (Stencil3 (identityTensor 3)).offsets 1 = unitVector 1 ∧
      (Stencil3 (identityTensor 3)).offsets 2 = unitVector 2 ∧
      (Stencil3 (identityTensor 3)).offsets 3 = ![1, -1, 0] ∧
      (Stencil3 (identityTensor 3)).offsets 4 = ![1, 0, -1] ∧
      (Stencil3 (identityTensor 3)).offsets 5 = ![0, 1, -1]) := by
  refine ⟨⟨selling2_identity, ?_, ?_, ?_, ?_, ?_⟩, ⟨selling3_identity, ?_, ?_, ?_, ?_, ?_, ?_, ?_, ?_⟩⟩
  · simp [Stencil2, selling2_identity, maxIter]
  · funext i
    simp only [Stencil2, selling2_identity, initialSuperbase2_eq]
    fin_cases i <;> simp +decide [ScalarProduct_two, identityTensor] <;> norm_num
  · simp only [Stencil2, selling2_identity, initialSuperbase2_eq]; decide
  · simp only [Stencil2, selling2_identity, initialSuperbase2_eq]; decide
  · simp only [Stencil2, selling2_identity, initialSuperbase2_eq]; decide
  · simp [Stencil3, selling3_identity, maxIter]
  · funext i
    simp only [Stencil3, selling3_identity, initialSuperbase3_eq, Weights, TensorType.get]
    fin_cases i <;> simp +decide [ScalarProduct_three, identityTensor] <;> norm_num
  all_goals (simp only [Stencil3, selling3_identity, initialSuperbase3_eq]; decide)

/-! ## Parameters and the time step -/

theorem updateSteps_zero {K : ℕ} (outside : ℕ) (S : StencilImage K) (diag : List ℚ) (delta : ℚ)
    (input : List ℚ) : updateSteps outside S diag delta 0 input = input := rfl

theorem intOfCeil_of_le (x : ℚ) (h0 : 0 ≤ ⌈x⌉) (h1 : ⌈x⌉ ≤ INT_MAX) : intOfCeil x = ⌈x⌉ := by
  unfold intOfCeil
  rw [if_pos ⟨by unfold INT_MIN; omega, h1⟩]

theorem intOfCeil_of_gt (x : ℚ) (h : INT_MAX < ⌈x⌉) : intOfCeil x = INT_MIN := by
  unfold intOfCeil
  rw [if_neg]
  intro h'
  omega

theorem intOfCeil_zero : intOfCeil 0 = 0 := by
  simp [intOfCeil, INT_MIN, INT_MAX]

/-- C8 on the code: `SetMaxDiffusionTime(0)` does not raise; it stores 0 as the
diffusion time, and the update loop run afterwards makes no step and returns its input
unchanged. -/
theorem C8_zero_time_accepted {K : ℕ} (s : FilterState) (outside : ℕ) (S : StencilImage K)
    (diag input : List ℚ) :
    SetMaxDiffusionTime s 0 = Except.ok { s with m_DiffusionTime := 0 } ∧
      ¬ raises (SetMaxDiffusionTime s 0) ∧
      (stateAfter s (SetMaxDiffusionTime s 0)).m_DiffusionTime = 0 ∧
      (ImageUpdateLoop outside S diag (stateAfter s (SetMaxDiffusionTime s 0)) input).2 = input := by
  have h : SetMaxDiffusionTime s 0 = Except.ok { s with m_DiffusionTime := 0 } := by
    simp [SetMaxDiffusionTime]
  refine ⟨h, ?_, ?_, ?_⟩
  · rw [h]; simp [raises]
  · rw [h]; simp [stateAfter]
  · rw [h]
    simp only [stateAfter, ImageUpdateLoop, timeStepping, zero_div, intOfCeil_zero]
    split_ifs with hneg
    · have : (s.m_MaxNumberOfTimeSteps).toNat = 0 := by
        apply Int.toNat_of_nonpos
        exact le_of_lt hneg
      simp only [this]
      rfl
    · rfl

/-- C9: `SetRatioToMaxStableTimeStep(ratio)` raises exactly when `ratio ≤ 0` or
`ratio > 1`; when it raises the stored ratio (like every member) is unchanged, and when
it does not the stored ratio is the argument and the other members are unchanged. -/
theorem C9_ratio_validation (s : FilterState) (ratio : ℚ) :
    (raises (SetRatioToMaxStableTimeStep s ratio) ↔ (ratio ≤ 0 ∨ ratio > 1)) ∧
      (raises (SetRatioToMaxStableTimeStep s ratio) →
        stateAfter s (SetRatioToMaxStableTimeStep s ratio) = s) ∧
      (¬ raises (SetRatioToMaxStableTimeStep s ratio) →
        SetRatioToMaxStableTimeStep s ratio =
            Except.ok { s with m_RatioToMaxStableTimeStep := ratio } ∧
          (stateAfter s (SetRatioToMaxStableTimeStep s ratio)).m_RatioToMaxStableTimeStep =
            ratio) := by
  unfold SetRatioToMaxStableTimeStep
  by_cases h : ratio ≤ 0 ∨ ratio > 1
  · simp [h, raises, stateAfter]
  · simp [h, raises, stateAfter]

theorem MaxStableTimeStep_mul (diag : List ℚ) (r : ℚ) :
    MaxStableTimeStep diag * r = r / GetMaximum diag := by
  unfold MaxStableTimeStep
  ring

/-- The schedule when `ceil(T / targetStep)` is a value of `int`. -/
theorem timeStepping_of_fit (s : FilterState) (diag : List ℚ)
    (h0 : 0 ≤ ⌈s.m_DiffusionTime / (s.m_RatioToMaxStableTimeStep / GetMaximum diag)⌉)
    (hfit : ⌈s.m_DiffusionTime / (s.m_RatioToMaxStableTimeStep / GetMaximum diag)⌉ ≤ INT_MAX) :
    timeStepping s diag =
      if ⌈s.m_DiffusionTime / (s.m_RatioToMaxStableTimeStep / GetMaximum diag)⌉ >
          s.m_MaxNumberOfTimeSteps then
        ⟨s.m_RatioToMaxStableTimeStep / GetMaximum diag, s.m_MaxNumberOfTimeSteps,
          s.m_MaxNumberOfTimeSteps * (s.m_RatioToMaxStableTimeStep / GetMaximum diag)⟩
      else
        ⟨s.m_DiffusionTime /
            ⌈s.m_DiffusionTime / (s.m_RatioToMaxStableTimeStep / GetMaximum diag)⌉,
          ⌈s.m_DiffusionTime / (s.m_RatioToMaxStableTimeStep / GetMaximum diag)⌉,
          s.m_DiffusionTime⟩ := by
  unfold timeStepping
  simp only [MaxStableTimeStep_mul]
  rw [intOfCeil_of_le _ h0 hfit]

/-- The schedule when `ceil(T / targetStep)` exceeds `INT_MAX`: the converted count is
`INT_MIN`, which is not above `m_MaxNumberOfTimeSteps`, so the `else` branch runs. -/
theorem timeStepping_of_overflow (s : FilterState) (diag : List ℚ)
    (h : INT_MAX < ⌈s.m_DiffusionTime / (s.m_RatioToMaxStableTimeStep / GetMaximum diag)⌉) :
    timeStepping s diag = ⟨s.m_DiffusionTime / INT_MIN, INT_MIN, s.m_DiffusionTime⟩ := by
  unfold timeStepping
  simp only [MaxStableTimeStep_mul]
  rw [intOfCeil_of_gt _ h, if_neg (not_lt.mpr s.maxNumberOfTimeSteps_int.1)]

/-- The truncated schedule when `ceil(T / targetStep)` is a value of `int`: `N_max`
steps of size `targetStep`, and an effective time `N_max * targetStep` below `T`. -/
theorem timeStepping_truncated (s : FilterState) (diag : List ℚ)
    (hstep : 0 < s.m_RatioToMaxStableTimeStep / GetMaximum diag)
    (hn : ⌈s.m_DiffusionTime / (s.m_RatioToMaxStableTimeStep / GetMaximum diag)⌉ >
      s.m_MaxNumberOfTimeSteps)
    (h0 : 0 ≤ ⌈s.m_DiffusionTime / (s.m_RatioToMaxStableTimeStep / GetMaximum diag)⌉)
    (hfit : ⌈s.m_DiffusionTime / (s.m_RatioToMaxStableTimeStep / GetMaximum diag)⌉ ≤ INT_MAX) :
    timeStepping s diag =
        ⟨s.m_RatioToMaxStableTimeStep / GetMaximum diag, s.m_MaxNumberOfTimeSteps,
          s.m_MaxNumberOfTimeSteps * (s.m_RatioToMaxStableTimeStep / GetMaximum diag)⟩ ∧
      (s.m_MaxNumberOfTimeSteps : ℚ) * (s.m_RatioToMaxStableTimeStep / GetMaximum diag) <
        s.m_DiffusionTime := by
  refine ⟨by rw [timeStepping_of_fit s diag h0 hfit, if_pos hn], ?_⟩
  have h1 : s.m_MaxNumberOfTimeSteps <
      ⌈s.m_DiffusionTime / (s.m_RatioToMaxStableTimeStep / GetMaximum diag)⌉ := hn
  rw [Int.lt_ceil] at h1
  exact (lt_div_iff₀ hstep).mp h1

theorem getD_le_foldl_max (l : List ℚ) :
    ∀ (a : ℚ), a ≤ l.foldl max a ∧ ∀ p, p < l.length → l.getD p 0 ≤ l.foldl max a := by
  induction l with
  | nil => intro a; simp
  | cons b l ih =>
    intro a
    simp only [List.foldl_cons, List.length_cons]
    refine ⟨le_trans (le_max_left a b) (ih (max a b)).1, ?_⟩
    intro p hp
    cases p with
    | zero => simpa using le_trans (le_max_right a b) (ih (max a b)).1
    | succ p => simpa using (ih (max a b)).2 p (by omega)

theorem getD_le_GetMaximum (diag : List ℚ) (p : ℕ) (hp : p < diag.length) :
    diag.getD p 0 ≤ GetMaximum diag := by
  cases diag with
  | nil => simp at hp
  | cons a l =>
    simp only [GetMaximum]
    cases p with
    | zero => simpa using (getD_le_foldl_max l a).1
    | succ p => simpa using (getD_le_foldl_max l a).2 p (by simpa using hp)

theorem timeStepping_delta_le (s : FilterState) (diag : List ℚ)
    (hstep : 0 < s.m_RatioToMaxStableTimeStep / GetMaximum diag) (hT : 0 < s.m_DiffusionTime)
    (hfit : ⌈s.m_DiffusionTime / (s.m_RatioToMaxStableTimeStep / GetMaximum diag)⌉ ≤ INT_MAX) :
    0 < (timeStepping s diag).delta ∧
      (timeStepping s diag).delta ≤ s.m_RatioToMaxStableTimeStep / GetMaximum diag := by
  have hq : 0 < s.m_DiffusionTime / (s.m_RatioToMaxStableTimeStep / GetMaximum diag) :=
    div_pos hT hstep
  have hc : 0 < ⌈s.m_DiffusionTime / (s.m_RatioToMaxStableTimeStep / GetMaximum diag)⌉ :=
    Int.ceil_pos.mpr hq
  rw [timeStepping_of_fit s diag (le_of_lt hc) hfit]
  split_ifs with h
  · exact ⟨hstep, le_refl _⟩
  · have hn : (0 : ℚ) < ⌈s.m_DiffusionTime / (s.m_RatioToMaxStableTimeStep / GetMaximum diag)⌉ := by
      exact_mod_cast hc
    refine ⟨div_pos hT hn, ?_⟩
    show s.m_DiffusionTime / _ ≤ _
    rw [div_le_iff₀ hn]
    have := Int.le_ceil (s.m_DiffusionTime / (s.m_RatioToMaxStableTimeStep / GetMaximum diag))
    rw [div_le_iff₀ hstep] at this
    linarith

/-- C2: for a diagonal field with positive maximum, `T > 0`, `0 < r ≤ 1` and
`N_max ≥ 1`: whenever the loop of `ImageUpdateLoop` calls `ImageUpdate` (it does so
when its step count `n` is at least 1), the step `delta` it passes is `r / max(diag)`
when the step count is clamped and `T / n` otherwise, with
`n = ceil(T * max(diag) / r)`, and `delta * diag[p] ≤ 1` at every point `p`.  The loop
makes no call exactly when `ceil(T * max(diag) / r)` exceeds `INT_MAX`, and the image is
then returned unchanged. -/
theorem C2_stable_step (s : FilterState) (diag : List ℚ) (hmax : 0 < GetMaximum diag)
    (hT : 0 < s.m_DiffusionTime) (hr0 : 0 < s.m_RatioToMaxStableTimeStep)
    (hr1 : s.m_RatioToMaxStableTimeStep ≤ 1) (hN : 1 ≤ s.m_MaxNumberOfTimeSteps) :
    (1 ≤ (timeStepping s diag).n →
      (timeStepping s diag).delta =
          (if ⌈s.m_DiffusionTime * GetMaximum diag / s.m_RatioToMaxStableTimeStep⌉ >
              s.m_MaxNumberOfTimeSteps then
            s.m_RatioToMaxStableTimeStep / GetMaximum diag
          else s.m_DiffusionTime /
            ⌈s.m_DiffusionTime * GetMaximum diag / s.m_RatioToMaxStableTimeStep⌉) ∧
        ∀ p, p < diag.length → (timeStepping s diag).delta * diag.getD p 0 ≤ 1) ∧
      ((timeStepping s diag).n < 1 ↔
        INT_MAX < ⌈s.m_DiffusionTime * GetMaximum diag / s.m_RatioToMaxStableTimeStep⌉) ∧
      (∀ (K : ℕ) (outside : ℕ) (S : StencilImage K) (input : List ℚ),
        (timeStepping s diag).n < 1 → (ImageUpdateLoop outside S diag s input).2 = input) := by
  have hstep : 0 < s.m_RatioToMaxStableTimeStep / GetMaximum diag := div_pos hr0 hmax
  have e : s.m_DiffusionTime / (s.m_RatioToMaxStableTimeStep / GetMaximum diag) =
      s.m_DiffusionTime * GetMaximum diag / s.m_RatioToMaxStableTimeStep := by
    field_simp
  have hc : 0 < ⌈s.m_DiffusionTime / (s.m_RatioToMaxStableTimeStep / GetMaximum diag)⌉ :=
    Int.ceil_pos.mpr (div_pos hT hstep)
  have hiff : (timeStepping s diag).n < 1 ↔
      INT_MAX < ⌈s.m_DiffusionTime / (s.m_RatioToMaxStableTimeStep / GetMaximum diag)⌉ := by
    by_cases hfit :
        ⌈s.m_DiffusionTime / (s.m_RatioToMaxStableTimeStep / GetMaximum diag)⌉ ≤ INT_MAX
    · rw [timeStepping_of_fit s diag (le_of_lt hc) hfit]
      split_ifs with h
      · constructor
        · intro h'
          exact absurd hN (not_le.mpr h')
        · intro h'
          exact absurd hfit (not_le.mpr h')
      · constructor
        · intro h'
          have h'' : ⌈s.m_DiffusionTime /
              (s.m_RatioToMaxStableTimeStep / GetMaximum diag)⌉ < 1 := h'
          exact absurd hc (not_lt.mpr (by omega))
        · intro h'
          exact absurd hfit (not_le.mpr h')
    · rw [timeStepping_of_overflow s diag (not_le.mp hfit)]
      constructor
      · intro _
        exact not_le.mp hfit
      · intro _
        show INT_MIN < 1
        decide
  refine ⟨?_, ?_, ?_⟩
  · intro hn1
    have hfit :
        ⌈s.m_DiffusionTime / (s.m_RatioToMaxStableTimeStep / GetMaximum diag)⌉ ≤ INT_MAX := by
      by_contra hcon
      exact absurd (hiff.mpr (not_le.mp hcon)) (not_lt.mpr hn1)
    constructor
    · rw [timeStepping_of_fit s diag (le_of_lt hc) hfit, e]
      split_ifs <;> rfl
    · intro p hp
      obtain ⟨hpos, hle⟩ := timeStepping_delta_le s diag hstep hT hfit
      have hd := getD_le_GetMaximum diag p hp
      by_cases hneg : diag.getD p 0 ≤ 0
      · have := mul_nonpos_of_nonneg_of_nonpos (le_of_lt hpos) hneg
        linarith
      · push_neg at hneg
        calc (timeStepping s diag).delta * diag.getD p 0
            ≤ (s.m_RatioToMaxStableTimeStep / GetMaximum diag) * GetMaximum diag :=
              mul_le_mul hle hd (le_of_lt hneg) (le_of_lt hstep)
          _ = s.m_RatioToMaxStableTimeStep := by field_simp
          _ ≤ 1 := hr1
  · rw [← e]
    exact hiff
  · intro K outside S input hlt
    have h0 : (timeStepping s diag).n.toNat = 0 := Int.toNat_of_nonpos (by omega)
    simp only [ImageUpdateLoop, h0]
    rfl

/-- Witness of C2: `T = 1`, `r = 7/10`, `N_max = 10`, diagonal `[4, 2]`; six steps are
made. -/
theorem C2_stable_step_witness :
    (0 : ℚ) < GetMaximum [4, 2] ∧
    1 ≤ (timeStepping (FilterState.mk 1 (7 / 10) 10 0 0 (by decide)) [4, 2]).n ∧
    ∀ p, p < [(4 : ℚ), 2].length →
      (timeStepping (FilterState.mk 1 (7 / 10) 10 0 0 (by decide)) [4, 2]).delta *
        [(4 : ℚ), 2].getD p 0 ≤ 1 := by
  have h1 : (0 : ℚ) < GetMaximum [4, 2] := by norm_num [GetMaximum]
  have h := C2_stable_step (FilterState.mk 1 (7 / 10) 10 0 0 (by decide)) [4, 2] h1
    (by norm_num) (by norm_num) (by norm_num) (by norm_num)
  have hc : ⌈(1 : ℚ) * GetMaximum [4, 2] / (7 / 10)⌉ = 6 := by
    rw [Int.ceil_eq_iff]
    norm_num [GetMaximum]
  have hn : 1 ≤ (timeStepping (FilterState.mk 1 (7 / 10) 10 0 0 (by decide)) [4, 2]).n := by
    by_contra hcon
    have := h.2.1.mp (not_le.mp hcon)
    simp only [hc] at this
    exact absurd this (by decide)
  exact ⟨h1, hn, (h.1 hn).2⟩

/-! ## The two sequential sweeps -/

theorem length_addAt (buf : List ℚ) (k : ℕ) (c : ℚ) : (addAt buf k c).length = buf.length := by
  simp [addAt]

theorem getD_addAt (buf : List ℚ) (k q : ℕ) (c : ℚ) :
    (addAt buf k c).getD q 0 = buf.getD q 0 + if k = q ∧ k < buf.length then c else 0 := by
  unfold addAt
  by_cases hkq : k = q
  · subst hkq
    by_cases hk : k < buf.length
    · simp [List.getD_eq_getElem?_getD, List.getElem?_set, hk]
    · simp [List.getD_eq_getElem?_getD, List.getElem?_set, hk,
        List.getElem?_eq_none (not_lt.mp hk)]
  · simp [List.getD_eq_getElem?_getD, List.getElem?_set, hkq]

theorem scatterSlot_foldl {K : ℕ} (outside : ℕ) (first : Fin (2 * K) → ℕ)
    (f g : Fin (2 * K) → ℚ) (p q : ℕ) (l : List (Fin (2 * K))) :
    ∀ buf : List ℚ,
      (l.foldl (scatterSlot outside first f g p) buf).length = buf.length ∧
      (l.foldl (scatterSlot outside first f g p) buf).getD q 0 =
        buf.getD q 0 + (l.map (slotShare outside first f g p buf.length q)).sum := by
  induction l with
  | nil => intro buf; simp
  | cons i l ih =>
    intro buf
    simp only [List.foldl_cons, List.map_cons, List.sum_cons]
    have hlen : (scatterSlot outside first f g p buf i).length = buf.length := by
      unfold scatterSlot
      by_cases h : first i = outside
      · simp [h]
      · simp [h, length_addAt]
    have hget : (scatterSlot outside first f g p buf i).getD q 0 =
        buf.getD q 0 + slotShare outside first f g p buf.length q i := by
      unfold scatterSlot slotShare
      by_cases h : first i = outside
      · simp [h]
      · simp only [ne_eq, h, not_false_eq_true, if_true]
        rw [getD_addAt, getD_addAt, length_addAt]
        ring
    obtain ⟨h1, h2⟩ := ih (scatterSlot outside first f g p buf i)
    rw [h1, h2, hlen, hget]
    exact ⟨rfl, by ring⟩

theorem scatter_foldl {K : ℕ} (outside : ℕ) (first : ℕ → Fin (2 * K) → ℕ)
    (F G : ℕ → Fin (2 * K) → ℚ) (q : ℕ) (buf : List ℚ) (N : ℕ) :
    ((List.range N).foldl
        (fun b p => (List.finRange (2 * K)).foldl
          (scatterSlot outside (first p) (F p) (G p) p) b) buf).length = buf.length ∧
      ((List.range N).foldl
        (fun b p => (List.finRange (2 * K)).foldl
          (scatterSlot outside (first p) (F p) (G p) p) b) buf).getD q 0 =
        buf.getD q 0 + ∑ p ∈ Finset.range N, ∑ i : Fin (2 * K),
          slotShare outside (first p) (F p) (G p) p buf.length q i := by
  induction N with
  | zero => simp
  | succ N ih =>
    rw [List.range_succ, List.foldl_append, Finset.sum_range_succ]
    simp only [List.foldl_cons, List.foldl_nil]
    obtain ⟨h1, h2⟩ := ih
    obtain ⟨h3, h4⟩ := scatterSlot_foldl outside (first N) (F N) (G N) N q
      (List.finRange (2 * K)) ((List.range N).foldl
        (fun b p => (List.finRange (2 * K)).foldl
          (scatterSlot outside (first p) (F p) (G p) p) b) buf)
    rw [h3, h4, h1, h2, Fin.sum_univ_def]
    exact ⟨rfl, by ring⟩

theorem getD_DiagonalCoefficients {K : ℕ} (outside : ℕ) (S : StencilImage K) (q : ℕ) :
    (DiagonalCoefficients outside S).length = S.numberOfPixels ∧
    (DiagonalCoefficients outside S).getD q 0 =
      ∑ p ∈ Finset.range S.numberOfPixels, ∑ i : Fin (2 * K),
        slotShare outside (S.pixel p).first (fun i => (S.pixel p).second (halfSlot i))
          (fun i => (S.pixel p).second (halfSlot i)) p S.numberOfPixels q i := by
  have h := scatter_foldl outside (fun p => (S.pixel p).first)
    (fun p i => (S.pixel p).second (halfSlot i)) (fun p i => (S.pixel p).second (halfSlot i))
    q (List.replicate S.numberOfPixels 0) S.numberOfPixels
  simp only [List.length_replicate] at h
  have h0 : (List.replicate S.numberOfPixels (0 : ℚ)).getD q 0 = 0 := by
    simp only [List.getD_eq_getElem?_getD, List.getElem?_replicate]
    split_ifs <;> rfl
  rw [h0, zero_add] at h
  exact h

theorem getD_offDiagonal {K : ℕ} (outside : ℕ) (S : StencilImage K) (input : List ℚ) (q : ℕ) :
    (offDiagonal outside S input).length = S.numberOfPixels ∧
    (offDiagonal outside S input).getD q 0 =
      ∑ p ∈ Finset.range S.numberOfPixels, ∑ i : Fin (2 * K),
        slotShare outside (S.pixel p).first
          (fun i => (S.pixel p).second (halfSlot i) * input.getD ((S.pixel p).first i) 0)
          (fun i => (S.pixel p).second (halfSlot i) * input.getD p 0) p S.numberOfPixels q i := by
  have h := scatter_foldl outside (fun p => (S.pixel p).first)
    (fun p i => (S.pixel p).second (halfSlot i) * input.getD ((S.pixel p).first i) 0)
    (fun p i => (S.pixel p).second (halfSlot i) * input.getD p 0)
    q (List.replicate S.numberOfPixels 0) S.numberOfPixels
  simp only [List.length_replicate] at h
  have h0 : (List.replicate S.numberOfPixels (0 : ℚ)).getD q 0 = 0 := by
    simp only [List.getD_eq_getElem?_getD, List.getElem?_replicate]
    split_ifs <;> rfl
  rw [h0, zero_add] at h
  exact h

theorem getD_DiagonalCoefficients_valid {K : ℕ} (outside : ℕ) (S : StencilImage K)
    (hv : ValidAddresses outside S) (q : ℕ) :
    (DiagonalCoefficients outside S).getD q 0 =
      ∑ p ∈ Finset.range S.numberOfPixels, ∑ i : Fin (2 * K),
        slotCoefficient outside S p i *
          ((if p = q then 1 else 0) + (if (S.pixel p).first i = q then 1 else 0)) := by
  rw [(getD_DiagonalCoefficients outside S q).2]
  refine Finset.sum_congr rfl (fun p hp => Finset.sum_congr rfl (fun i _ => ?_))
  have hp' : p < S.numberOfPixels := Finset.mem_range.mp hp
  unfold slotShare slotCoefficient
  by_cases h : (S.pixel p).first i = outside
  · simp [h]
  · have ht := hv p hp' i h
    simp only [ne_eq, h, not_false_eq_true, if_true, hp', ht, and_true]
    split_ifs <;> ring

theorem getD_offDiagonal_valid {K : ℕ} (outside : ℕ) (S : StencilImage K)
    (hv : ValidAddresses outside S) (input : List ℚ) (q : ℕ) :
    (offDiagonal outside S input).getD q 0 =
      ∑ p ∈ Finset.range S.numberOfPixels, ∑ i : Fin (2 * K),
        slotCoefficient outside S p i *
          ((if p = q then input.getD ((S.pixel p).first i) 0 else 0) +
            (if (S.pixel p).first i = q then input.getD p 0 else 0)) := by
  rw [(getD_offDiagonal outside S input q).2]
  refine Finset.sum_congr rfl (fun p hp => Finset.sum_congr rfl (fun i _ => ?_))
  have hp' : p < S.numberOfPixels := Finset.mem_range.mp hp
  unfold slotShare slotCoefficient
  by_cases h : (S.pixel p).first i = outside
  · simp [h]
  · have ht := hv p hp' i h
    simp only [ne_eq, h, not_false_eq_true, if_true, hp', ht, and_true]
    split_ifs <;> ring

theorem getD_ImageUpdate {K : ℕ} (outside : ℕ) (S : StencilImage K) (diag : List ℚ) (delta : ℚ)
    (input : List ℚ) (q : ℕ) (hq : q < S.numberOfPixels) :
    (ImageUpdate outside S diag delta input).getD q 0 =
      FunctorType delta ((offDiagonal outside S input).getD q 0) (input.getD q 0)
        (diag.getD q 0) := by
  unfold ImageUpdate
  simp [List.getD_eq_getElem?_getD, List.getElem?_map, List.getElem?_range hq]

theorem length_ImageUpdate {K : ℕ} (outside : ℕ) (S : StencilImage K) (diag : List ℚ) (delta : ℚ)
    (input : List ℚ) : (ImageUpdate outside S diag delta input).length = S.numberOfPixels := by
  simp [ImageUpdate]

theorem getD_replicate_of_lt (n q : ℕ) (c : ℚ) (hq : q < n) :
    (List.replicate n c).getD q 0 = c := by
  simp [List.getD_eq_getElem?_getD, List.getElem?_replicate, hq]

theorem offDiagonal_constant {K : ℕ} (outside : ℕ) (S : StencilImage K)
    (hv : ValidAddresses outside S) (c : ℚ) (q : ℕ) :
    (offDiagonal outside S (List.replicate S.numberOfPixels c)).getD q 0 =
      c * (DiagonalCoefficients outside S).getD q 0 := by
  rw [getD_offDiagonal_valid outside S hv, getD_DiagonalCoefficients_valid outside S hv,
    Finset.mul_sum]
  refine Finset.sum_congr rfl (fun p hp => ?_)
  rw [Finset.mul_sum]
  refine Finset.sum_congr rfl (fun i _ => ?_)
  have hp' : p < S.numberOfPixels := Finset.mem_range.mp hp
  unfold slotCoefficient
  by_cases h : (S.pixel p).first i = outside
  · simp [h]
  · have ht := hv p hp' i h
    simp only [ne_eq, h, not_false_eq_true, if_true, getD_replicate_of_lt _ _ c hp',
      getD_replicate_of_lt _ _ c ht]
    split_ifs <;> ring

theorem ImageUpdate_constant {K : ℕ} (outside : ℕ) (S : StencilImage K)
    (hv : ValidAddresses outside S) (c delta : ℚ) :
    ImageUpdate outside S (DiagonalCoefficients outside S) delta
        (List.replicate S.numberOfPixels c) = List.replicate S.numberOfPixels c := by
  apply List.ext_getElem
  · simp [ImageUpdate]
  · intro q h1 h2
    have hq : q < S.numberOfPixels := by simpa using h2
    have h := getD_ImageUpdate outside S (DiagonalCoefficients outside S) delta
      (List.replicate S.numberOfPixels c) q hq
    rw [offDiagonal_constant outside S hv, getD_replicate_of_lt _ _ c hq] at h
    rw [List.getD_eq_getElem _ _ h1] at h
    rw [h, List.getElem_replicate]
    unfold FunctorType
    ring

theorem updateSteps_constant {K : ℕ} (outside : ℕ) (S : StencilImage K)
    (hv : ValidAddresses outside S) (c delta : ℚ) (n : ℕ) :
    updateSteps outside S (DiagonalCoefficients outside S) delta n
        (List.replicate S.numberOfPixels c) = List.replicate S.numberOfPixels c := by
  induction n with
  | zero => rfl
  | succ n ih =>
    unfold updateSteps
    rw [ImageUpdate_constant outside S hv, ih]

/-- C5: for a stencil image whose non-sentinel addresses are valid, with the diagonal
computed from it by `GenerateStencils`, every constant `c` and every `delta`, one
`ImageUpdate` step maps the field equal to `c` everywhere to itself (so the value is
`c` at every grid point), and so does any number of steps and the whole
`ImageUpdateLoop`, whatever the parameters of the filter. -/
theorem C5_constant_fixed_point {K : ℕ} (outside : ℕ) (S : StencilImage K)
    (hv : ValidAddresses outside S) (c delta : ℚ) :
    ImageUpdate outside S (DiagonalCoefficients outside S) delta
        (List.replicate S.numberOfPixels c) = List.replicate S.numberOfPixels c ∧
      (∀ q, q < S.numberOfPixels →
        (ImageUpdate outside S (DiagonalCoefficients outside S) delta
          (List.replicate S.numberOfPixels c)).getD q 0 = c) ∧
      (∀ n, updateSteps outside S (DiagonalCoefficients outside S) delta n
        (List.replicate S.numberOfPixels c) = List.replicate S.numberOfPixels c) ∧
      (∀ s : FilterState, (ImageUpdateLoop outside S (DiagonalCoefficients outside S) s
        (List.replicate S.numberOfPixels c)).2 = List.replicate S.numberOfPixels c) := by
  refine ⟨ImageUpdate_constant outside S hv c delta, ?_, ?_, ?_⟩
  · intro q hq
    rw [ImageUpdate_constant outside S hv c delta]
    exact getD_replicate_of_lt _ _ c hq
  · intro n
    exact updateSteps_constant outside S hv c delta n
  · intro s
    exact updateSteps_constant outside S hv c _ _

theorem sum_map_range (f : ℕ → ℚ) (n : ℕ) :
    ((List.range n).map f).sum = ∑ q ∈ Finset.range n, f q := by
  induction n with
  | zero => simp
  | succ n ih =>
    rw [List.range_succ, List.map_append, List.sum_append, Finset.sum_range_succ, ih]
    simp

theorem sum_eq_sum_getD (l : List ℚ) : l.sum = ∑ q ∈ Finset.range l.length, l.getD q 0 := by
  rw [← sum_map_range]
  congr 1
  apply List.ext_getElem
  · simp
  · intro q h1 h2
    simp [List.getD_eq_getElem?_getD, List.getElem?_eq_getElem h1]

theorem sum_offDiagonal {K : ℕ} (outside : ℕ) (S : StencilImage K)
    (hv : ValidAddresses outside S) (input : List ℚ) :
    ∑ q ∈ Finset.range S.numberOfPixels, (offDiagonal outside S input).getD q 0 =
      ∑ p ∈ Finset.range S.numberOfPixels, ∑ i : Fin (2 * K),
        slotCoefficient outside S p i * (input.getD ((S.pixel p).first i) 0 + input.getD p 0) := by
  simp only [getD_offDiagonal_valid outside S hv]
  rw [Finset.sum_comm]
  refine Finset.sum_congr rfl (fun p hp => ?_)
  rw [Finset.sum_comm]
  refine Finset.sum_congr rfl (fun i _ => ?_)
  have hp' : p < S.numberOfPixels := Finset.mem_range.mp hp
  rw [← Finset.mul_sum, Finset.sum_add_distrib, Finset.sum_ite_eq, Finset.sum_ite_eq]
  unfold slotCoefficient
  by_cases h : (S.pixel p).first i = outside
  · simp [h]
  · have ht := hv p hp' i h
    simp [h, hp', ht]

theorem sum_DiagonalCoefficients_mul {K : ℕ} (outside : ℕ) (S : StencilImage K)
    (hv : ValidAddresses outside S) (input : List ℚ) :
    ∑ q ∈ Finset.range S.numberOfPixels,
        (DiagonalCoefficients outside S).getD q 0 * input.getD q 0 =
      ∑ p ∈ Finset.range S.numberOfPixels, ∑ i : Fin (2 * K),
        slotCoefficient outside S p i * (input.getD ((S.pixel p).first i) 0 + input.getD p 0) := by
  simp only [getD_DiagonalCoefficients_valid outside S hv, Finset.sum_mul]
  rw [Finset.sum_comm]
  refine Finset.sum_congr rfl (fun p hp => ?_)
  rw [Finset.sum_comm]
  refine Finset.sum_congr rfl (fun i _ => ?_)
  have hp' : p < S.numberOfPixels := Finset.mem_range.mp hp
  have e : ∀ q, slotCoefficient outside S p i *
      ((if p = q then 1 else 0) + (if (S.pixel p).first i = q then 1 else 0)) * input.getD q 0 =
      slotCoefficient outside S p i *
        ((if p = q then input.getD q 0 else 0) +
          (if (S.pixel p).first i = q then input.getD q 0 else 0)) := by
    intro q
    split_ifs <;> ring
  simp only [e]
  rw [← Finset.mul_sum, Finset.sum_add_distrib, Finset.sum_ite_eq, Finset.sum_ite_eq]
  unfold slotCoefficient
  by_cases h : (S.pixel p).first i = outside
  · simp [h]
  · have ht := hv p hp' i h
    simp only [ne_eq, h, not_false_eq_true, if_true, Finset.mem_range, hp', ht]
    ring

theorem sum_ImageUpdate {K : ℕ} (outside : ℕ) (S : StencilImage K)
    (hv : ValidAddresses outside S) (previous : List ℚ)
    (hlen : previous.length = S.numberOfPixels) (delta : ℚ) :
    (ImageUpdate outside S (DiagonalCoefficients outside S) delta previous).sum =
      previous.sum := by
  rw [sum_eq_sum_getD previous, hlen]
  unfold ImageUpdate
  rw [sum_map_range]
  unfold FunctorType
  have e : ∀ q, (offDiagonal outside S previous).getD q 0 * delta +
      previous.getD q 0 * (1 - delta * (DiagonalCoefficients outside S).getD q 0) =
      delta * (offDiagonal outside S previous).getD q 0 + previous.getD q 0 -
        delta * ((DiagonalCoefficients outside S).getD q 0 * previous.getD q 0) := by
    intro q; ring
  simp only [e]
  rw [Finset.sum_sub_distrib, Finset.sum_add_distrib, ← Finset.mul_sum, ← Finset.mul_sum,
    sum_offDiagonal outside S hv, sum_DiagonalCoefficients_mul outside S hv]
  ring

/-- C4: for a stencil image whose non-sentinel addresses are valid, with the diagonal
computed from it by `GenerateStencils`, for every previous field (one value per pixel)
and every `delta`, the sum over all grid points of the field after one `ImageUpdate`
step equals the sum of the previous field. -/
theorem C4_mass_preservation {K : ℕ} (outside : ℕ) (S : StencilImage K)
    (hv : ValidAddresses outside S) (previous : List ℚ)
    (hlen : previous.length = S.numberOfPixels) (delta : ℚ) :
    (ImageUpdate outside S (DiagonalCoefficients outside S) delta previous).sum =
      previous.sum :=
  sum_ImageUpdate outside S hv previous hlen delta

theorem chainImage_valid : ValidAddresses 7 chainImage := by decide

theorem finRange_two_mul_one : List.finRange (2 * 1) = [⟨0, by omega⟩, ⟨1, by omega⟩] := by
  decide

theorem chainImage_diag : DiagonalCoefficients 7 chainImage = [1, 1] := by
  have h2 : List.range 2 = [0, 1] := by decide
  simp only [DiagonalCoefficients, chainImage, h2, finRange_two_mul_one, List.foldl_cons,
    List.foldl_nil, diagonalSlot]
  norm_num [addAt, List.replicate]

theorem slotCoefficient_nonneg {K : ℕ} (outside : ℕ) (S : StencilImage K) (p : ℕ)
    (hc : ∀ k, 0 ≤ (S.pixel p).second k) (i : Fin (2 * K)) :
    0 ≤ slotCoefficient outside S p i := by
  unfold slotCoefficient
  split_ifs
  · exact hc _
  · exact le_refl 0

theorem offDiagonal_bounds {K : ℕ} (outside : ℕ) (S : StencilImage K)
    (hv : ValidAddresses outside S)
    (hc : ∀ p, p < S.numberOfPixels → ∀ k, 0 ≤ (S.pixel p).second k)
    (previous : List ℚ) (p0 : ℕ) (m M : ℚ)
    (hm : ∀ q, q < S.numberOfPixels → Joined outside S p0 q →
      m ≤ previous.getD q 0 ∧ previous.getD q 0 ≤ M) :
    m * (DiagonalCoefficients outside S).getD p0 0 ≤ (offDiagonal outside S previous).getD p0 0 ∧
      (offDiagonal outside S previous).getD p0 0 ≤
        M * (DiagonalCoefficients outside S).getD p0 0 := by
  rw [getD_offDiagonal_valid outside S hv, getD_DiagonalCoefficients_valid outside S hv,
    Finset.mul_sum, Finset.mul_sum]
  have key : ∀ p ∈ Finset.range S.numberOfPixels, ∀ i : Fin (2 * K),
      m * (slotCoefficient outside S p i *
          ((if p = p0 then 1 else 0) + (if (S.pixel p).first i = p0 then 1 else 0))) ≤
        slotCoefficient outside S p i *
          ((if p = p0 then previous.getD ((S.pixel p).first i) 0 else 0) +
            (if (S.pixel p).first i = p0 then previous.getD p 0 else 0)) ∧
      slotCoefficient outside S p i *
          ((if p = p0 then previous.getD ((S.pixel p).first i) 0 else 0) +
            (if (S.pixel p).first i = p0 then previous.getD p 0 else 0)) ≤
        M * (slotCoefficient outside S p i *
          ((if p = p0 then 1 else 0) + (if (S.pixel p).first i = p0 then 1 else 0))) := by
    intro p hp i
    have hp' : p < S.numberOfPixels := Finset.mem_range.mp hp
    have hw := slotCoefficient_nonneg outside S p (hc p hp') i
    by_cases h : (S.pixel p).first i = outside
    · simp [slotCoefficient, h]
    · have ht := hv p hp' i h
      have hA : m * ((if p = p0 then 1 else 0) + (if (S.pixel p).first i = p0 then 1 else 0)) ≤
          (if p = p0 then previous.getD ((S.pixel p).first i) 0 else 0) +
            (if (S.pixel p).first i = p0 then previous.getD p 0 else 0) ∧
          (if p = p0 then previous.getD ((S.pixel p).first i) 0 else 0) +
            (if (S.pixel p).first i = p0 then previous.getD p 0 else 0) ≤
          M * ((if p = p0 then 1 else 0) + (if (S.pixel p).first i = p0 then 1 else 0)) := by
        have h1 : p = p0 → m ≤ previous.getD ((S.pixel p).first i) 0 ∧
            previous.getD ((S.pixel p).first i) 0 ≤ M := by
          intro e
          exact hm _ ht (Or.inl ⟨i, by rw [← e]; exact h, by rw [← e]⟩)
        have h2 : (S.pixel p).first i = p0 → m ≤ previous.getD p 0 ∧ previous.getD p 0 ≤ M := by
          intro e
          exact hm _ hp' (Or.inr ⟨i, h, e⟩)
        split_ifs with e1 e2 e2
        · have := h1 e1; have := h2 e2; constructor <;> linarith
        · have := h1 e1; constructor <;> linarith
        · have := h2 e2; constructor <;> linarith
        · constructor <;> simp
      constructor
      · calc m * (slotCoefficient outside S p i *
              ((if p = p0 then 1 else 0) + (if (S.pixel p).first i = p0 then 1 else 0)))
            = slotCoefficient outside S p i * (m *
              ((if p = p0 then 1 else 0) + (if (S.pixel p).first i = p0 then 1 else 0))) := by
              ring
          _ ≤ _ := mul_le_mul_of_nonneg_left hA.1 hw
      · calc slotCoefficient outside S p i *
              ((if p = p0 then previous.getD ((S.pixel p).first i) 0 else 0) +
                (if (S.pixel p).first i = p0 then previous.getD p 0 else 0))
            ≤ slotCoefficient outside S p i * (M *
              ((if p = p0 then 1 else 0) + (if (S.pixel p).first i = p0 then 1 else 0))) :=
              mul_le_mul_of_nonneg_left hA.2 hw
          _ = _ := by ring
  constructor
  · simp only [Finset.mul_sum]
    exact Finset.sum_le_sum (fun p hp => Finset.sum_le_sum (fun i _ => (key p hp i).1))
  · simp only [Finset.mul_sum]
    exact Finset.sum_le_sum (fun p hp => Finset.sum_le_sum (fun i _ => (key p hp i).2))

theorem DiagonalCoefficients_nonneg {K : ℕ} (outside : ℕ) (S : StencilImage K)
    (hv : ValidAddresses outside S)
    (hc : ∀ p, p < S.numberOfPixels → ∀ k, 0 ≤ (S.pixel p).second k) (q : ℕ) :
    0 ≤ (DiagonalCoefficients outside S).getD q 0 := by
  rw [getD_DiagonalCoefficients_valid outside S hv]
  refine Finset.sum_nonneg (fun p hp => Finset.sum_nonneg (fun i _ => ?_))
  have hw := slotCoefficient_nonneg outside S p (hc p (Finset.mem_range.mp hp)) i
  apply mul_nonneg hw
  split_ifs <;> norm_num

/-- C3: for a stencil image with coefficients `≥ 0` and valid non-sentinel addresses,
the diagonal computed from it by `GenerateStencils` (of maximum `> 0`) and
`delta = 1 / max(diagonal)`, one `ImageUpdate` step gives at every point `p` a value
between the minimum and the maximum of `previous` over `p` and the points joined to `p`
by a non-sentinel slot: every `m` below and every `M` above those values of `previous`
bound `next[p]`. -/
theorem C3_maximum_principle {K : ℕ} (outside : ℕ) (S : StencilImage K)
    (hv : ValidAddresses outside S)
    (hc : ∀ p, p < S.numberOfPixels → ∀ k, 0 ≤ (S.pixel p).second k)
    (hmax : 0 < GetMaximum (DiagonalCoefficients outside S))
    (previous : List ℚ) (p : ℕ) (hp : p < S.numberOfPixels) (m M : ℚ)
    (hm : ∀ q, q < S.numberOfPixels → (q = p ∨ Joined outside S p q) →
      m ≤ previous.getD q 0 ∧ previous.getD q 0 ≤ M) :
    m ≤ (ImageUpdate outside S (DiagonalCoefficients outside S)
          (MaxStableTimeStep (DiagonalCoefficients outside S)) previous).getD p 0 ∧
      (ImageUpdate outside S (DiagonalCoefficients outside S)
          (MaxStableTimeStep (DiagonalCoefficients outside S)) previous).getD p 0 ≤ M := by
  rw [getD_ImageUpdate outside S _ _ previous p hp]
  obtain ⟨hlo, hhi⟩ := offDiagonal_bounds outside S hv hc previous p m M
    (fun q hq hj => hm q hq (Or.inr hj))
  obtain ⟨hpm, hpM⟩ := hm p hp (Or.inl rfl)
  have hd0 := DiagonalCoefficients_nonneg outside S hv hc p
  have hdmax : (DiagonalCoefficients outside S).getD p 0 ≤
      GetMaximum (DiagonalCoefficients outside S) :=
    getD_le_GetMaximum _ p (by rw [(getD_DiagonalCoefficients outside S p).1]; exact hp)
  have hδ : 0 ≤ MaxStableTimeStep (DiagonalCoefficients outside S) := by
    unfold MaxStableTimeStep
    positivity
  have hδd : MaxStableTimeStep (DiagonalCoefficients outside S) *
      (DiagonalCoefficients outside S).getD p 0 ≤ 1 := by
    unfold MaxStableTimeStep
    rw [one_div, inv_mul_le_iff₀ hmax]
    linarith
  unfold FunctorType
  have h1 := mul_le_mul_of_nonneg_right hlo hδ
  have h2 := mul_le_mul_of_nonneg_right hhi hδ
  have h3 : 0 ≤ 1 - MaxStableTimeStep (DiagonalCoefficients outside S) *
      (DiagonalCoefficients outside S).getD p 0 := by linarith
  have h4 := mul_le_mul_of_nonneg_right hpm h3
  have h5 := mul_le_mul_of_nonneg_right hpM h3
  constructor
  · nlinarith
  · nlinarith

theorem chainImage_update (delta : ℚ) :
    ImageUpdate 7 chainImage (DiagonalCoefficients 7 chainImage) delta [1, 0] =
      [1 - delta, delta] := by
  have h2 : List.range 2 = [0, 1] := by decide
  rw [chainImage_diag]
  simp only [ImageUpdate, offDiagonal, chainImage, h2, finRange_two_mul_one, List.foldl_cons,
    List.foldl_nil, offDiagonalSlot, List.map_cons, List.map_nil]
  norm_num [addAt, List.replicate, FunctorType]

/-- Witness of C3 on the chain of two pixels, with `previous = [1, 0]` at pixel 1. -/
theorem C3_maximum_principle_witness :
    ValidAddresses 7 chainImage ∧ 0 < GetMaximum (DiagonalCoefficients 7 chainImage) ∧
      0 ≤ (ImageUpdate 7 chainImage (DiagonalCoefficients 7 chainImage)
          (MaxStableTimeStep (DiagonalCoefficients 7 chainImage)) [1, 0]).getD 1 0 ∧
      (ImageUpdate 7 chainImage (DiagonalCoefficients 7 chainImage)
          (MaxStableTimeStep (DiagonalCoefficients 7 chainImage)) [1, 0]).getD 1 0 ≤ 1 := by
  have hmax : 0 < GetMaximum (DiagonalCoefficients 7 chainImage) := by
    rw [chainImage_diag]; norm_num [GetMaximum]
  have hc : ∀ p, p < chainImage.numberOfPixels → ∀ k, 0 ≤ (chainImage.pixel p).second k := by
    intro p _ k
    norm_num [chainImage]
  have hm : ∀ q, q < chainImage.numberOfPixels → (q = 1 ∨ Joined 7 chainImage 1 q) →
      (0 : ℚ) ≤ [(1 : ℚ), 0].getD q 0 ∧ [(1 : ℚ), 0].getD q 0 ≤ 1 := by
    intro q hq _
    have hq2 : q < 2 := hq
    interval_cases q <;> norm_num
  exact ⟨chainImage_valid, hmax,
    C3_maximum_principle 7 chainImage chainImage_valid hc hmax [1, 0] 1 (by decide) 0 1 hm⟩

/-- Witness of C4 on the chain of two pixels, with `previous = [1, 0]` and
`delta = 1/3`. -/
theorem C4_mass_preservation_witness :
    ValidAddresses 7 chainImage ∧ [(1 : ℚ), 0].length = chainImage.numberOfPixels ∧
      (ImageUpdate 7 chainImage (DiagonalCoefficients 7 chainImage) (1 / 3) [1, 0]).sum =
        [(1 : ℚ), 0].sum :=
  ⟨chainImage_valid, rfl, C4_mass_preservation 7 chainImage chainImage_valid [1, 0] rfl (1 / 3)⟩


/-! ## The hot point on the isotropic grid -/

theorem rescaled_identity (f : StencilFunctor 2) (h : ∀ i, f.invSpacing i = 1) :
    (⟨fun i j => (identityTensor 2).get i j * f.invSpacing i * f.invSpacing j⟩ : TensorType 2) =
      identityTensor 2 := by
  unfold identityTensor
  congr 1
  funext i j
  simp only [TensorType.get, h, mul_one]
  fin_cases i <;> fin_cases j <;> simp

theorem Stencil2_identity_offsets :
    (Stencil2 (identityTensor 2)).offsets = ![![0, 1], ![-1, 0], ![1, -1]] := by
  simp only [Stencil2, selling2_identity, initialSuperbase2_eq]
  decide

theorem Stencil2_identity_coefficients :
    (Stencil2 (identityTensor 2)).coefficients = ![1 / 2, 1 / 2, 0] := by
  funext i
  simp only [Stencil2, selling2_identity, initialSuperbase2_eq]
  fin_cases i <;> simp +decide [ScalarProduct_two, identityTensor] <;> norm_num

theorem isotropic_second (outside : ℕ) (region : RegionType 2) (p : ℕ) :
    ((isotropicImage outside region).pixel p).second = ![1 / 2, 1 / 2, 0] := by
  simp only [isotropicImage, stencilImageOf, StencilFunctor.apply, Dispatch2]
  rw [rescaled_identity _ (by intro i; simp [StencilFunctor.Initialize])]
  exact Stencil2_identity_coefficients

theorem wrapInt32_of_range (z : ℤ) (h0 : 0 ≤ z) (h1 : z ≤ 2147483647) : wrapInt32 z = z := by
  unfold wrapInt32
  omega

theorem apply_identity_first (outside W H : ℕ) (ox oy : ℤ) (x : Fin 2 → ℤ) (s : Fin (2 * 3)) :
    ((StencilFunctor.Initialize (region2 ox oy W H) (fun _ => 1)).apply Dispatch2 outside
        (identityTensor 2) x).cells.first s =
      if (ox ≤ x 0 + slotDx s ∧ x 0 + slotDx s < ox + W) ∧
          (oy ≤ x 1 + slotDy s ∧ x 1 + slotDy s < oy + H) then
        (wrapInt32 (1 * (x 0 + slotDx s - ox) + W * (x 1 + slotDy s - oy))).toNat
      else outside := by
  simp only [StoredStencil.cells, StencilFunctor.apply, Dispatch2]
  rw [rescaled_identity _ (by intro i; simp [StencilFunctor.Initialize])]
  rw [Stencil2_identity_offsets]
  simp only [StencilFunctor.Initialize, region2, RegionType.IsInside, StencilFunctor.BufferIndex,
    Fin.forall_fin_two, Fin.sum_univ_two, prodLoop]
  fin_cases s <;> simp [halfSlot, slotDx, slotDy] <;>
    (split_ifs <;> first | rfl | omega)

theorem indexOfAddress_zero (W H : ℕ) (ox oy : ℤ) (sp : Fin 2 → ℚ) (p : ℕ) :
    indexOfAddress (StencilFunctor.Initialize (region2 ox oy W H) sp) p 0 =
      ox + ((p % W : ℕ) : ℤ) := by
  simp [indexOfAddress, StencilFunctor.Initialize, region2, prodLoop]

theorem indexOfAddress_one (W H : ℕ) (ox oy : ℤ) (sp : Fin 2 → ℚ) (p : ℕ) :
    indexOfAddress (StencilFunctor.Initialize (region2 ox oy W H) sp) p 1 =
      oy + ((p / W % H : ℕ) : ℤ) := by
  simp [indexOfAddress, StencilFunctor.Initialize, region2, prodLoop]

theorem isotropic_first (outside W H : ℕ) (ox oy : ℤ) (p : ℕ) (s : Fin (2 * 3)) :
    ((isotropicImage outside (region2 ox oy W H)).pixel p).first s =
      if (0 ≤ ((p % W : ℕ) : ℤ) + slotDx s ∧ ((p % W : ℕ) : ℤ) + slotDx s < W) ∧
          (0 ≤ ((p / W % H : ℕ) : ℤ) + slotDy s ∧ ((p / W % H : ℕ) : ℤ) + slotDy s < H) then
        (wrapInt32
          (((p % W : ℕ) : ℤ) + slotDx s + W * (((p / W % H : ℕ) : ℤ) + slotDy s))).toNat
      else outside := by
  simp only [isotropicImage, stencilImageOf]
  rw [apply_identity_first, indexOfAddress_zero, indexOfAddress_one]
  have e1 : ox + ((p % W : ℕ) : ℤ) + slotDx s - ox = ((p % W : ℕ) : ℤ) + slotDx s := by ring
  have e2 : oy + ((p / W % H : ℕ) : ℤ) + slotDy s - oy = ((p / W % H : ℕ) : ℤ) + slotDy s := by
    ring
  rw [e1, e2, one_mul]
  apply if_congr _ rfl rfl
  constructor
  · rintro ⟨⟨h1, h2⟩, h3, h4⟩
    exact ⟨⟨by linarith, by linarith⟩, by linarith, by linarith⟩
  · rintro ⟨⟨h1, h2⟩, h3, h4⟩
    exact ⟨⟨by linarith, by linarith⟩, by linarith, by linarith⟩

theorem getD_hotField (N P : ℕ) (hP : P < N) (r : ℕ) :
    (hotField N P).getD r 0 = if r = P then 1 else 0 := by
  unfold hotField
  by_cases hr : r < N
  · simp [List.getD_eq_getElem?_getD, List.getElem?_map, List.getElem?_range hr]
  · have hne : r ≠ P := by omega
    have hnone : (List.range N)[r]? = none :=
      List.getElem?_eq_none (by simpa using not_lt.mp hr)
    simp [List.getD_eq_getElem?_getD, hnone, hne]

theorem sum_hotField (N P : ℕ) (hP : P < N) : (hotField N P).sum = 1 := by
  unfold hotField
  rw [sum_map_range, Finset.sum_ite_eq']
  simp [hP]

theorem length_hotField (N P : ℕ) : (hotField N P).length = N := by
  simp [hotField]

/-- Off-diagonal buffer of a field that is 1 at `P` and 0 elsewhere: cell `q` receives
the coefficients of the slots of `q` that reach `P` and of the slots of `P` that reach
`q`. -/
theorem getD_offDiagonal_hotField {K : ℕ} (outside : ℕ) (S : StencilImage K)
    (hv : ValidAddresses outside S) (P q : ℕ) (hP : P < S.numberOfPixels)
    (hq : q < S.numberOfPixels) :
    (offDiagonal outside S (hotField S.numberOfPixels P)).getD q 0 =
      (∑ i : Fin (2 * K), if (S.pixel q).first i = P then slotCoefficient outside S q i else 0) +
        ∑ i : Fin (2 * K), if (S.pixel P).first i = q then slotCoefficient outside S P i else 0 := by
  rw [getD_offDiagonal_valid outside S hv]
  simp only [getD_hotField _ _ hP]
  have e : ∀ p (i : Fin (2 * K)), slotCoefficient outside S p i *
      ((if p = q then (if (S.pixel p).first i = P then 1 else 0) else 0) +
        (if (S.pixel p).first i = q then (if p = P then 1 else 0) else 0)) =
      (if p = q then (if (S.pixel p).first i = P then slotCoefficient outside S p i else 0) else 0) +
        (if p = P then (if (S.pixel p).first i = q then slotCoefficient outside S p i else 0)
          else 0) := by
    intro p i
    split_ifs <;> ring
  simp only [e, Finset.sum_add_distrib]
  congr 1
  · rw [Finset.sum_eq_single q]
    · simp
    · intro p _ hpq
      simp [hpq]
    · intro h
      exact absurd (Finset.mem_range.mpr hq) h
  · rw [Finset.sum_eq_single P]
    · simp
    · intro p _ hpP
      simp [hpP]
    · intro h
      exact absurd (Finset.mem_range.mpr hP) h

theorem numberOfPixels_isotropic (outside W H : ℕ) (ox oy : ℤ) :
    (isotropicImage outside (region2 ox oy W H)).numberOfPixels = W * H := by
  simp [isotropicImage, stencilImageOf, RegionType.numberOfPixels, region2, Fin.prod_univ_two]

theorem address_lt (W H A B : ℕ) (hA : A < W) (hB : B < H) : A + W * B < W * H := by
  have h1 : W * (B + 1) ≤ W * H := Nat.mul_le_mul_left W hB
  rw [Nat.mul_succ] at h1
  omega

theorem address_inj (W A B A' B' : ℕ) (hA : A < W) (hA' : A' < W)
    (h : A + W * B = A' + W * B') : A = A' ∧ B = B' := by
  have hW : 0 < W := by omega
  have h1 : (A + W * B) % W = (A' + W * B') % W := by rw [h]
  have h2 : (A + W * B) / W = (A' + W * B') / W := by rw [h]
  rw [Nat.add_mul_mod_self_left, Nat.add_mul_mod_self_left, Nat.mod_eq_of_lt hA,
    Nat.mod_eq_of_lt hA'] at h1
  rw [Nat.add_mul_div_left _ _ hW, Nat.add_mul_div_left _ _ hW, Nat.div_eq_of_lt hA,
    Nat.div_eq_of_lt hA', zero_add, zero_add] at h2
  exact ⟨h1, h2⟩

theorem isotropic_first_coord (outside W H : ℕ) (ox oy : ℤ) (hI : W * H ≤ 2147483647)
    (A B : ℕ) (hA : A < W) (hB : B < H) (s : Fin (2 * 3)) :
    ((isotropicImage outside (region2 ox oy W H)).pixel (A + W * B)).first s =
      if (0 ≤ (A : ℤ) + slotDx s ∧ (A : ℤ) + slotDx s < W) ∧
          (0 ≤ (B : ℤ) + slotDy s ∧ (B : ℤ) + slotDy s < H) then
        ((A : ℤ) + slotDx s).toNat + W * ((B : ℤ) + slotDy s).toNat
      else outside := by
  have hW : 0 < W := by omega
  have e1 : (A + W * B) % W = A := by
    rw [Nat.add_mul_mod_self_left, Nat.mod_eq_of_lt hA]
  have e2 : (A + W * B) / W % H = B := by
    rw [Nat.add_mul_div_left _ _ hW, Nat.div_eq_of_lt hA, zero_add, Nat.mod_eq_of_lt hB]
  rw [isotropic_first, e1, e2]
  split_ifs with hc
  · obtain ⟨⟨h1, h2⟩, h3, h4⟩ := hc
    have e3 : (A : ℤ) + slotDx s + W * ((B : ℤ) + slotDy s) =
        ((((A : ℤ) + slotDx s).toNat + W * ((B : ℤ) + slotDy s).toNat : ℕ) : ℤ) := by
      push_cast
      rw [Int.toNat_of_nonneg h1, Int.toNat_of_nonneg h3]
    have hlt := address_lt W H ((A : ℤ) + slotDx s).toNat ((B : ℤ) + slotDy s).toNat
      (by omega) (by omega)
    rw [e3, wrapInt32_of_range _ (Int.natCast_nonneg _) (by omega), Int.toNat_ofNat]
  · rfl

theorem isotropic_first_eq_iff (outside W H : ℕ) (ox oy : ℤ) (hN : W * H ≤ outside)
    (hI : W * H ≤ 2147483647)
    (A B A' B' : ℕ) (hA : A < W) (hB : B < H) (hA' : A' < W) (hB' : B' < H)
    (s : Fin (2 * 3)) :
    ((isotropicImage outside (region2 ox oy W H)).pixel (A + W * B)).first s = A' + W * B' ↔
      ((A : ℤ) + slotDx s = A' ∧ (B : ℤ) + slotDy s = B') := by
  rw [isotropic_first_coord outside W H ox oy hI A B hA hB]
  split_ifs with hc
  · obtain ⟨⟨h1, h2⟩, h3, h4⟩ := hc
    constructor
    · intro h
      have := address_inj W _ _ _ _ (by omega) hA' h
      omega
    · rintro ⟨e1, e2⟩
      rw [e1, e2]
      simp
  · have hlt := address_lt W H A' B' hA' hB'
    constructor
    · intro h
      omega
    · rintro ⟨e1, e2⟩
      exfalso
      apply hc
      omega

theorem isotropic_valid (outside W H : ℕ) (ox oy : ℤ) (hI : W * H ≤ 2147483647) :
    ValidAddresses outside (isotropicImage outside (region2 ox oy W H)) := by
  intro p hp s hs
  rw [numberOfPixels_isotropic] at hp ⊢
  have hW : 0 < W := by
    rcases Nat.eq_zero_or_pos W with h | h
    · subst h; simp at hp
    · exact h
  have hA : p % W < W := Nat.mod_lt _ hW
  have hB : p / W < H := by
    rw [Nat.div_lt_iff_lt_mul hW]
    rw [Nat.mul_comm]
    exact hp
  have hp' : p = p % W + W * (p / W) := (Nat.mod_add_div p W).symm
  rw [hp'] at hs ⊢
  rw [isotropic_first_coord outside W H ox oy hI _ _ hA hB] at hs ⊢
  split_ifs at hs ⊢ with hc
  · obtain ⟨⟨h1, h2⟩, h3, h4⟩ := hc
    exact address_lt W H _ _ (by omega) (by omega)
  · exact absurd rfl hs

theorem slot_opposite_iff : ∀ s i : Fin (2 * 3),
    (slotDx s + slotDx i = 0 ∧ slotDy s + slotDy i = 0) ↔ i = oppositeSlot s := by
  decide

theorem slot_same_iff : ∀ s i : Fin (2 * 3),
    (slotDx i = slotDx s ∧ slotDy i = slotDy s) ↔ i = s := by
  decide

theorem slot_nonzero : ∀ s : Fin (2 * 3), ¬ (slotDx s = 0 ∧ slotDy s = 0) := by
  decide

theorem slot_bounds : ∀ s : Fin (2 * 3),
    (-1 ≤ slotDx s ∧ slotDx s ≤ 1) ∧ (-1 ≤ slotDy s ∧ slotDy s ≤ 1) := by
  decide

theorem halfSlot_oppositeSlot : ∀ s : Fin (2 * 3), halfSlot (oppositeSlot s) = halfSlot s := by
  decide

theorem isotropic_slotCoefficient (outside W H : ℕ) (ox oy : ℤ) (p : ℕ) (i : Fin (2 * 3))
    (h : ((isotropicImage outside (region2 ox oy W H)).pixel p).first i ≠ outside) :
    slotCoefficient outside (isotropicImage outside (region2 ox oy W H)) p i =
      (![1 / 2, 1 / 2, 0] : Fin 3 → ℚ) (halfSlot i) := by
  unfold slotCoefficient
  rw [if_pos h, isotropic_second]

/-- Off-diagonal buffer at the hot point: nothing arrives. -/
theorem offDiagonal_hot_center (outside W H : ℕ) (ox oy : ℤ) (hN : W * H ≤ outside)
    (hI : W * H ≤ 2147483647)
    (a b : ℕ) (ha : a < W) (hb : b < H) :
    (offDiagonal outside (isotropicImage outside (region2 ox oy W H))
      (hotField (isotropicImage outside (region2 ox oy W H)).numberOfPixels
        (a + W * b))).getD (a + W * b) 0 = 0 := by
  have hP : a + W * b < (isotropicImage outside (region2 ox oy W H)).numberOfPixels := by
    rw [numberOfPixels_isotropic]; exact address_lt W H a b ha hb
  rw [getD_offDiagonal_hotField outside _ (isotropic_valid outside W H ox oy hI) _ _ hP hP]
  have hne : ∀ i : Fin (2 * 3),
      ((isotropicImage outside (region2 ox oy W H)).pixel (a + W * b)).first i ≠ a + W * b := by
    intro i h
    rw [isotropic_first_eq_iff outside W H ox oy hN hI a b a b ha hb ha hb] at h
    exact slot_nonzero i ⟨by omega, by omega⟩
  simp [hne]

/-- Off-diagonal buffer at the neighbour of the hot point reached by slot `s`: the
coefficient arrives twice, once from each end of the edge. -/
theorem offDiagonal_hot_neighbour (outside W H : ℕ) (ox oy : ℤ) (hN : W * H ≤ outside)
    (hI : W * H ≤ 2147483647)
    (a b A B : ℕ) (ha : a < W) (hb : b < H) (hA : A < W) (hB : B < H) (s : Fin (2 * 3))
    (eA : (A : ℤ) = a + slotDx s) (eB : (B : ℤ) = b + slotDy s) :
    (offDiagonal outside (isotropicImage outside (region2 ox oy W H))
      (hotField (isotropicImage outside (region2 ox oy W H)).numberOfPixels
        (a + W * b))).getD (A + W * B) 0 =
      2 * (![1 / 2, 1 / 2, 0] : Fin 3 → ℚ) (halfSlot s) := by
  have hP : a + W * b < (isotropicImage outside (region2 ox oy W H)).numberOfPixels := by
    rw [numberOfPixels_isotropic]; exact address_lt W H a b ha hb
  have hQ : A + W * B < (isotropicImage outside (region2 ox oy W H)).numberOfPixels := by
    rw [numberOfPixels_isotropic]; exact address_lt W H A B hA hB
  have hPo : a + W * b ≠ outside := by
    have := address_lt W H a b ha hb; omega
  have hQo : A + W * B ≠ outside := by
    have := address_lt W H A B hA hB; omega
  rw [getD_offDiagonal_hotField outside _ (isotropic_valid outside W H ox oy hI) _ _ hP hQ]
  have h1 : ∀ i : Fin (2 * 3),
      ((isotropicImage outside (region2 ox oy W H)).pixel (A + W * B)).first i = a + W * b ↔
        i = oppositeSlot s := by
    intro i
    rw [isotropic_first_eq_iff outside W H ox oy hN hI A B a b hA hB ha hb, ← slot_opposite_iff]
    constructor
    · rintro ⟨e1, e2⟩; exact ⟨by omega, by omega⟩
    · rintro ⟨e1, e2⟩; exact ⟨by omega, by omega⟩
  have h2 : ∀ i : Fin (2 * 3),
      ((isotropicImage outside (region2 ox oy W H)).pixel (a + W * b)).first i = A + W * B ↔
        i = s := by
    intro i
    rw [isotropic_first_eq_iff outside W H ox oy hN hI a b A B ha hb hA hB, ← slot_same_iff]
    constructor
    · rintro ⟨e1, e2⟩; exact ⟨by omega, by omega⟩
    · rintro ⟨e1, e2⟩; exact ⟨by omega, by omega⟩
  simp only [h1, h2, Finset.sum_ite_eq', Finset.mem_univ, if_true]
  rw [isotropic_slotCoefficient _ _ _ _ _ _ _ (by rw [(h1 _).mpr rfl]; exact hPo),
    isotropic_slotCoefficient _ _ _ _ _ _ _ (by rw [(h2 _).mpr rfl]; exact hQo),
    halfSlot_oppositeSlot]
  ring

/-- The diagonal at `q` is the sum of the coefficients of the slots of `q` and of the
coefficients of all the slots that reach `q`. -/
theorem getD_DiagonalCoefficients_split {K : ℕ} (outside : ℕ) (S : StencilImage K)
    (hv : ValidAddresses outside S) (q : ℕ) (hq : q < S.numberOfPixels) :
    (DiagonalCoefficients outside S).getD q 0 =
      (∑ i : Fin (2 * K), slotCoefficient outside S q i) +
        ∑ p ∈ Finset.range S.numberOfPixels, ∑ i : Fin (2 * K),
          if (S.pixel p).first i = q then slotCoefficient outside S p i else 0 := by
  rw [getD_DiagonalCoefficients_valid outside S hv]
  have e : ∀ p (i : Fin (2 * K)), slotCoefficient outside S p i *
      ((if p = q then 1 else 0) + (if (S.pixel p).first i = q then 1 else 0)) =
      (if p = q then slotCoefficient outside S p i else 0) +
        (if (S.pixel p).first i = q then slotCoefficient outside S p i else 0) := by
    intro p i
    split_ifs <;> ring
  simp only [e, Finset.sum_add_distrib]
  congr 1
  rw [Finset.sum_eq_single q]
  · simp
  · intro p _ hpq
    simp [hpq]
  · intro h
    exact absurd (Finset.mem_range.mpr hq) h

theorem isotropic_coefficient_sum :
    ∑ i : Fin (2 * 3), (![1 / 2, 1 / 2, 0] : Fin 3 → ℚ) (halfSlot i) = 2 := by
  have e : ∀ i : Fin (2 * 3), (![1 / 2, 1 / 2, 0] : Fin 3 → ℚ) (halfSlot i) =
      if i.val < 4 then 1 / 2 else 0 := by
    intro i
    fin_cases i <;> simp [halfSlot]
  simp only [e]
  show ∑ i : Fin 6, (if i.val < 4 then (1 / 2 : ℚ) else 0) = 2
  rw [Fin.sum_univ_six]
  have h3 : ((3 : Fin 6).val < 4) := by decide
  have h4 : ¬ ((4 : Fin 6).val < 4) := by decide
  have h5 : ¬ ((5 : Fin 6).val < 4) := by decide
  rw [if_pos h3, if_neg h4, if_neg h5]
  norm_num

theorem isotropic_slotCoefficient_nonneg (outside W H : ℕ) (ox oy : ℤ) (p : ℕ)
    (i : Fin (2 * 3)) :
    0 ≤ slotCoefficient outside (isotropicImage outside (region2 ox oy W H)) p i := by
  apply slotCoefficient_nonneg
  intro k
  rw [isotropic_second]
  fin_cases k <;> norm_num

theorem width_pos_of_lt (W H q : ℕ) (h : q < W * H) : 0 < W := by
  rcases Nat.eq_zero_or_pos W with h0 | h0
  · subst h0; simp at h
  · exact h0

theorem isotropic_first_eq_iff_of_lt (outside W H : ℕ) (ox oy : ℤ) (hN : W * H ≤ outside)
    (hI : W * H ≤ 2147483647)
    (p A' B' : ℕ) (hp : p < W * H) (hA' : A' < W) (hB' : B' < H) (s : Fin (2 * 3)) :
    ((isotropicImage outside (region2 ox oy W H)).pixel p).first s = A' + W * B' ↔
      (((p % W : ℕ) : ℤ) + slotDx s = A' ∧ ((p / W : ℕ) : ℤ) + slotDy s = B') := by
  have hW : 0 < W := width_pos_of_lt W H p hp
  have hB : p / W < H := by
    rw [Nat.div_lt_iff_lt_mul hW, Nat.mul_comm]; exact hp
  have h := isotropic_first_eq_iff outside W H ox oy hN hI (p % W) (p / W) A' B'
    (Nat.mod_lt _ hW) hB hA' hB' s
  rw [Nat.mod_add_div] at h
  exact h

theorem isotropic_slotCoefficient_le (outside W H : ℕ) (ox oy : ℤ) (p : ℕ) (i : Fin (2 * 3)) :
    slotCoefficient outside (isotropicImage outside (region2 ox oy W H)) p i ≤
      (![1 / 2, 1 / 2, 0] : Fin 3 → ℚ) (halfSlot i) := by
  unfold slotCoefficient
  rw [isotropic_second]
  split_ifs
  · exact le_refl _
  · generalize halfSlot i = k
    fin_cases k <;> norm_num

/-- For a fixed slot index, at most one pixel reaches a given pixel `q`. -/
theorem isotropic_incoming_le (outside W H : ℕ) (ox oy : ℤ) (hN : W * H ≤ outside)
    (hI : W * H ≤ 2147483647)
    (q : ℕ) (hq : q < W * H) (i : Fin (2 * 3)) :
    (∑ p ∈ Finset.range (W * H),
      if ((isotropicImage outside (region2 ox oy W H)).pixel p).first i = q then
        slotCoefficient outside (isotropicImage outside (region2 ox oy W H)) p i else 0) ≤
      (![1 / 2, 1 / 2, 0] : Fin 3 → ℚ) (halfSlot i) := by
  have hW : 0 < W := width_pos_of_lt W H q hq
  have hqB : q / W < H := by
    rw [Nat.div_lt_iff_lt_mul hW, Nat.mul_comm]; exact hq
  have hq' : q = q % W + W * (q / W) := (Nat.mod_add_div q W).symm
  by_cases h : ∃ p0, p0 < W * H ∧
      ((isotropicImage outside (region2 ox oy W H)).pixel p0).first i = q
  · obtain ⟨p0, hp0, h0⟩ := h
    rw [Finset.sum_eq_single p0]
    · rw [if_pos h0]
      exact isotropic_slotCoefficient_le outside W H ox oy p0 i
    · intro p hp hne
      rw [if_neg]
      intro hpq
      apply hne
      rw [hq'] at h0 hpq
      rw [isotropic_first_eq_iff_of_lt outside W H ox oy hN hI p0 _ _ hp0 (Nat.mod_lt _ hW) hqB] at h0
      rw [isotropic_first_eq_iff_of_lt outside W H ox oy hN hI p _ _ (Finset.mem_range.mp hp)
        (Nat.mod_lt _ hW) hqB] at hpq
      have e1 : p % W = p0 % W := by omega
      have e2 : p / W = p0 / W := by omega
      rw [← Nat.mod_add_div p W, ← Nat.mod_add_div p0 W, e1, e2]
    · intro hn
      exact absurd (Finset.mem_range.mpr hp0) hn
  · rw [Finset.sum_eq_zero]
    · generalize halfSlot i = k
      fin_cases k <;> norm_num
    · intro p hp
      rw [if_neg]
      intro hpq
      exact h ⟨p, Finset.mem_range.mp hp, hpq⟩

/-- On the isotropic grid no diagonal coefficient exceeds 4. -/
theorem isotropic_diag_le (outside W H : ℕ) (ox oy : ℤ) (hN : W * H ≤ outside)
    (hI : W * H ≤ 2147483647)
    (q : ℕ) (hq : q < W * H) :
    (DiagonalCoefficients outside (isotropicImage outside (region2 ox oy W H))).getD q 0 ≤ 4 := by
  have hq' : q < (isotropicImage outside (region2 ox oy W H)).numberOfPixels := by
    rw [numberOfPixels_isotropic]; exact hq
  rw [getD_DiagonalCoefficients_split outside _ (isotropic_valid outside W H ox oy hI) _ hq',
    numberOfPixels_isotropic, Finset.sum_comm]
  have h1 : ∑ i : Fin (2 * 3),
      slotCoefficient outside (isotropicImage outside (region2 ox oy W H)) q i ≤ 2 := by
    rw [← isotropic_coefficient_sum]
    exact Finset.sum_le_sum (fun i _ => isotropic_slotCoefficient_le outside W H ox oy q i)
  have h2 : ∑ i : Fin (2 * 3), ∑ p ∈ Finset.range (W * H),
      (if ((isotropicImage outside (region2 ox oy W H)).pixel p).first i = q then
        slotCoefficient outside (isotropicImage outside (region2 ox oy W H)) p i else 0) ≤ 2 := by
    rw [← isotropic_coefficient_sum]
    exact Finset.sum_le_sum (fun i _ => isotropic_incoming_le outside W H ox oy hN hI q hq i)
  linarith

/-- At a pixel whose six targets are inside the region the diagonal coefficient is 4. -/
theorem isotropic_diag_interior (outside W H : ℕ) (ox oy : ℤ) (hN : W * H ≤ outside)
    (hI : W * H ≤ 2147483647)
    (a b : ℕ) (ha : 1 ≤ a) (ha' : a + 1 < W) (hb : 1 ≤ b) (hb' : b + 1 < H) :
    (DiagonalCoefficients outside (isotropicImage outside (region2 ox oy W H))).getD
      (a + W * b) 0 = 4 := by
  have hP := address_lt W H a b (by omega) (by omega)
  have hP' : a + W * b < (isotropicImage outside (region2 ox oy W H)).numberOfPixels := by
    rw [numberOfPixels_isotropic]; exact hP
  apply le_antisymm (isotropic_diag_le outside W H ox oy hN hI _ hP)
  rw [getD_DiagonalCoefficients_split outside _ (isotropic_valid outside W H ox oy hI) _ hP',
    numberOfPixels_isotropic, Finset.sum_comm]
  have hact : ∀ i : Fin (2 * 3),
      ((isotropicImage outside (region2 ox oy W H)).pixel (a + W * b)).first i ≠ outside := by
    intro i
    rw [isotropic_first_coord outside W H ox oy hI a b (by omega) (by omega)]
    have hbd := slot_bounds i
    rw [if_pos (by constructor <;> constructor <;> omega)]
    have := address_lt W H ((a : ℤ) + slotDx i).toNat ((b : ℤ) + slotDy i).toNat
      (by omega) (by omega)
    omega
  have h1 : ∑ i : Fin (2 * 3),
      slotCoefficient outside (isotropicImage outside (region2 ox oy W H)) (a + W * b) i = 2 := by
    simp only [isotropic_slotCoefficient outside W H ox oy _ _ (hact _)]
    exact isotropic_coefficient_sum
  have h2 : (2 : ℚ) ≤ ∑ i : Fin (2 * 3), ∑ p ∈ Finset.range (W * H),
      (if ((isotropicImage outside (region2 ox oy W H)).pixel p).first i = a + W * b then
        slotCoefficient outside (isotropicImage outside (region2 ox oy W H)) p i else 0) := by
    rw [← isotropic_coefficient_sum]
    refine Finset.sum_le_sum (fun i _ => ?_)
    have hbd := slot_bounds i
    have hA : ((a : ℤ) - slotDx i).toNat < W := by omega
    have hB : ((b : ℤ) - slotDy i).toNat < H := by omega
    have hp0 := address_lt W H _ _ hA hB
    have hT : ((isotropicImage outside (region2 ox oy W H)).pixel
        (((a : ℤ) - slotDx i).toNat + W * ((b : ℤ) - slotDy i).toNat)).first i = a + W * b := by
      rw [isotropic_first_eq_iff outside W H ox oy hN hI _ _ a b hA hB (by omega) (by omega)]
      constructor <;> omega
    have hnn : ∀ p ∈ Finset.range (W * H), (0 : ℚ) ≤
        (if ((isotropicImage outside (region2 ox oy W H)).pixel p).first i = a + W * b then
          slotCoefficient outside (isotropicImage outside (region2 ox oy W H)) p i else 0) := by
      intro p _
      split_ifs
      · exact isotropic_slotCoefficient_nonneg outside W H ox oy p i
      · exact le_refl 0
    have hs := Finset.single_le_sum hnn (Finset.mem_range.mpr hp0)
    rw [if_pos hT, isotropic_slotCoefficient outside W H ox oy _ _
      (by rw [hT]; omega)] at hs
    exact hs
  linarith

theorem foldl_max_le (l : List ℚ) (M : ℚ) :
    ∀ a : ℚ, a ≤ M → (∀ q, q < l.length → l.getD q 0 ≤ M) → l.foldl max a ≤ M := by
  induction l with
  | nil => intro a ha _; simpa using ha
  | cons b l ih =>
    intro a ha h
    simp only [List.foldl_cons]
    apply ih
    · exact max_le ha (by simpa using h 0 (by simp))
    · intro q hq
      simpa using h (q + 1) (by simpa using hq)

theorem GetMaximum_le (l : List ℚ) (M : ℚ) (hne : 0 < l.length)
    (h : ∀ q, q < l.length → l.getD q 0 ≤ M) : GetMaximum l ≤ M := by
  cases l with
  | nil => simp at hne
  | cons a l =>
    simp only [GetMaximum]
    apply foldl_max_le
    · simpa using h 0 (by simp)
    · intro q hq
      simpa using h (q + 1) (by simpa using hq)

theorem isotropic_MaxStableTimeStep (outside W H : ℕ) (ox oy : ℤ) (hN : W * H ≤ outside)
    (hI : W * H ≤ 2147483647)
    (a b : ℕ) (ha : 1 ≤ a) (ha' : a + 1 < W) (hb : 1 ≤ b) (hb' : b + 1 < H) :
    MaxStableTimeStep (DiagonalCoefficients outside (isotropicImage outside (region2 ox oy W H)))
      = 1 / 4 := by
  have hP := address_lt W H a b (by omega) (by omega)
  have hlen : (DiagonalCoefficients outside
      (isotropicImage outside (region2 ox oy W H))).length = W * H := by
    rw [(getD_DiagonalCoefficients outside _ 0).1, numberOfPixels_isotropic]
  have h1 : GetMaximum (DiagonalCoefficients outside
      (isotropicImage outside (region2 ox oy W H))) ≤ 4 := by
    apply GetMaximum_le
    · rw [hlen]; omega
    · intro q hq
      rw [hlen] at hq
      exact isotropic_diag_le outside W H ox oy hN hI q hq
  have h2 := getD_le_GetMaximum (DiagonalCoefficients outside
      (isotropicImage outside (region2 ox oy W H))) (a + W * b) (by rw [hlen]; exact hP)
  rw [isotropic_diag_interior outside W H ox oy hN hI a b ha ha' hb hb'] at h2
  unfold MaxStableTimeStep
  rw [le_antisymm h1 h2]

theorem gridAddress_eq (ox oy : ℤ) (W H : ℕ) (hI : W * H ≤ 2147483647) (x : Fin 2 → ℤ)
    (A B : ℕ) (hA : A < W) (hB : B < H)
    (h0 : x 0 = ox + A) (h1 : x 1 = oy + B) : gridAddress ox oy W H x = A + W * B := by
  unfold gridAddress
  simp only [StencilFunctor.BufferIndex, StencilFunctor.Initialize, region2, Fin.sum_univ_two,
    prodLoop]
  simp only [h0, h1]
  have e : (1 : ℤ) * (ox + (A : ℤ) - (![ox, oy] : Fin 2 → ℤ) 0) +
      (1 * (if h : 0 < 2 then (((![W, H] : Fin 2 → ℕ) ⟨0, h⟩ : ℕ) : ℤ) else 1)) *
        (oy + (B : ℤ) - (![ox, oy] : Fin 2 → ℤ) 1) = ((A + W * B : ℕ) : ℤ) := by
    simp
  have hlt := address_lt W H A B hA hB
  rw [e, wrapInt32_of_range _ (Int.natCast_nonneg _) (by omega)]
  exact Int.toNat_ofNat _

/-- Values after one step from the hot field, by buffer address: the hot point drops to
0, and the neighbour reached by slot `s` receives `2 * delta * coefficient`. -/
theorem hotStep_values (outside W H : ℕ) (ox oy : ℤ) (hN : W * H ≤ outside)
    (hI : W * H ≤ 2147483647)
    (a b : ℕ) (ha : 1 ≤ a) (ha' : a + 1 < W) (hb : 1 ≤ b) (hb' : b + 1 < H)
    (x : Fin 2 → ℤ) (hx0 : x 0 = ox + a) (hx1 : x 1 = oy + b) :
    (hotStep outside ox oy W H x).getD (a + W * b) 0 = 0 ∧
      (∀ (s : Fin (2 * 3)) (A B : ℕ), (A : ℤ) = a + slotDx s → (B : ℤ) = b + slotDy s →
        (hotStep outside ox oy W H x).getD (A + W * B) 0 =
          2 * (1 / 4) * (![1 / 2, 1 / 2, 0] : Fin 3 → ℚ) (halfSlot s)) ∧
      (hotStep outside ox oy W H x).sum = 1 := by
  have hP := address_lt W H a b (by omega) (by omega)
  have hP' : a + W * b < (isotropicImage outside (region2 ox oy W H)).numberOfPixels := by
    rw [numberOfPixels_isotropic]; exact hP
  have hδ := isotropic_MaxStableTimeStep outside W H ox oy hN hI a b ha ha' hb hb'
  unfold hotStep
  rw [gridAddress_eq ox oy W H hI x a b (by omega) (by omega) hx0 hx1, hδ]
  refine ⟨?_, ?_, ?_⟩
  · rw [getD_ImageUpdate _ _ _ _ _ _ hP',
      offDiagonal_hot_center outside W H ox oy hN hI a b (by omega) (by omega),
      isotropic_diag_interior outside W H ox oy hN hI a b ha ha' hb hb', getD_hotField _ _ hP']
    norm_num [FunctorType]
  · intro s A B eA eB
    have hbd := slot_bounds s
    have hA : A < W := by omega
    have hB : B < H := by omega
    have hQ : A + W * B < (isotropicImage outside (region2 ox oy W H)).numberOfPixels := by
      rw [numberOfPixels_isotropic]; exact address_lt W H A B hA hB
    have hne : A + W * B ≠ a + W * b := by
      intro h
      have := address_inj W A B a b hA (by omega) h
      exact slot_nonzero s ⟨by omega, by omega⟩
    rw [getD_ImageUpdate _ _ _ _ _ _ hQ,
      offDiagonal_hot_neighbour outside W H ox oy hN hI a b A B (by omega) (by omega) hA hB s eA eB,
      getD_hotField _ _ hP', if_neg hne]
    unfold FunctorType
    ring
  · rw [sum_ImageUpdate outside _ (isotropic_valid outside W H ox oy hI) _ (length_hotField _ _),
      sum_hotField _ _ hP']

theorem isotropic_inside_of_ne (outside W H : ℕ) (ox oy : ℤ) (hI : W * H ≤ 2147483647)
    (A B : ℕ) (hA : A < W) (hB : B < H) (s : Fin (2 * 3))
    (h : ((isotropicImage outside (region2 ox oy W H)).pixel (A + W * B)).first s ≠ outside) :
    (0 ≤ (A : ℤ) + slotDx s ∧ (A : ℤ) + slotDx s < W) ∧
      (0 ≤ (B : ℤ) + slotDy s ∧ (B : ℤ) + slotDy s < H) := by
  by_contra hc
  apply h
  rw [isotropic_first_coord outside W H ox oy hI A B hA hB, if_neg hc]

theorem isotropic_ne_of_inside (outside W H : ℕ) (ox oy : ℤ) (hN : W * H ≤ outside)
    (hI : W * H ≤ 2147483647) (A B : ℕ) (hA : A < W) (hB : B < H) (s : Fin (2 * 3))
    (hc : (0 ≤ (A : ℤ) + slotDx s ∧ (A : ℤ) + slotDx s < W) ∧
      (0 ≤ (B : ℤ) + slotDy s ∧ (B : ℤ) + slotDy s < H)) :
    ((isotropicImage outside (region2 ox oy W H)).pixel (A + W * B)).first s ≠ outside := by
  rw [isotropic_first_coord outside W H ox oy hI A B hA hB, if_pos hc]
  have hlt := address_lt W H ((A : ℤ) + slotDx s).toNat ((B : ℤ) + slotDy s).toNat
    (by omega) (by omega)
  omega

/-- On the isotropic grid, a point at distance at least 2 from the border and its six
stencil neighbours have all their stencil targets inside the region. -/
theorem isotropic_interior_targets (outside W H : ℕ) (ox oy : ℤ) (hN : W * H ≤ outside)
    (hI : W * H ≤ 2147483647) (a b : ℕ) (ha : 2 ≤ a) (ha' : a + 2 < W) (hb : 2 ≤ b)
    (hb' : b + 2 < H) :
    AllTargetsInside outside (isotropicImage outside (region2 ox oy W H)) (a + W * b) ∧
      ∀ s, AllTargetsInside outside (isotropicImage outside (region2 ox oy W H))
        (((isotropicImage outside (region2 ox oy W H)).pixel (a + W * b)).first s) := by
  constructor
  · intro s
    have hbd := slot_bounds s
    exact isotropic_ne_of_inside outside W H ox oy hN hI a b (by omega) (by omega) s
      ⟨⟨by omega, by omega⟩, by omega, by omega⟩
  · intro s s'
    have hbd := slot_bounds s
    have hbd' := slot_bounds s'
    rw [isotropic_first_coord outside W H ox oy hI a b (by omega) (by omega),
      if_pos ⟨⟨by omega, by omega⟩, by omega, by omega⟩]
    exact isotropic_ne_of_inside outside W H ox oy hN hI _ _ (by omega) (by omega) s'
      ⟨⟨by omega, by omega⟩, by omega, by omega⟩

/-- C7, amended: on a 2D grid with unit spacing and the identity tensor at every point
(the region having no more pixels than the sentinel value `OutsideBufferIndex()`), with
`previous` equal to 1 at one point `x` of the region and to 0 elsewhere, `x` and its
stencil neighbours having all their stencil targets inside the region, one
`ImageUpdate` step at `delta = 1 / max(diagonal)` gives `next[x] < 1`; for each stencil
offset `i` of `x` the neighbours `x + offsets[i]` and `x - offsets[i]` have `next` equal
to `2 * delta * coefficients[i]`, with `coefficients[i]` the coefficient stored at `x`
for that offset; and the sum of `next` over all points is 1. -/
theorem C7_hot_point (W H : ℕ) (ox oy : ℤ) (a b : ℕ) (hN : W * H ≤ OutsideBufferIndex)
    (ha : a < W) (hb : b < H)
    (hx : AllTargetsInside OutsideBufferIndex
      (isotropicImage OutsideBufferIndex (region2 ox oy W H))
      (gridAddress ox oy W H ![ox + a, oy + b]))
    (hnb : ∀ s, AllTargetsInside OutsideBufferIndex
      (isotropicImage OutsideBufferIndex (region2 ox oy W H))
      (((isotropicImage OutsideBufferIndex (region2 ox oy W H)).pixel
        (gridAddress ox oy W H ![ox + a, oy + b])).first s)) :
    (hotStep OutsideBufferIndex ox oy W H ![ox + a, oy + b]).getD
        (gridAddress ox oy W H ![ox + a, oy + b]) 0 < 1 ∧
      (∀ i : Fin 3,
        (hotStep OutsideBufferIndex ox oy W H ![ox + a, oy + b]).getD
            (gridAddress ox oy W H
              (![ox + a, oy + b] + (Stencil2 (identityTensor 2)).offsets i)) 0 =
          2 * MaxStableTimeStep
              (DiagonalCoefficients OutsideBufferIndex
                (isotropicImage OutsideBufferIndex (region2 ox oy W H))) *
            ((isotropicImage OutsideBufferIndex (region2 ox oy W H)).pixel
              (gridAddress ox oy W H ![ox + a, oy + b])).second i ∧
        (hotStep OutsideBufferIndex ox oy W H ![ox + a, oy + b]).getD
            (gridAddress ox oy W H
              (![ox + a, oy + b] - (Stencil2 (identityTensor 2)).offsets i)) 0 =
          2 * MaxStableTimeStep
              (DiagonalCoefficients OutsideBufferIndex
                (isotropicImage OutsideBufferIndex (region2 ox oy W H))) *
            ((isotropicImage OutsideBufferIndex (region2 ox oy W H)).pixel
              (gridAddress ox oy W H ![ox + a, oy + b])).second i) ∧
      (hotStep OutsideBufferIndex ox oy W H ![ox + a, oy + b]).sum = 1 := by
  have _ := hnb
  have hI : W * H ≤ 2147483647 := hN
  have hx0 := gridAddress_eq ox oy W H hI ![ox + a, oy + b] a b ha hb (by simp) (by simp)
  rw [hx0] at hx
  have c0 := isotropic_inside_of_ne OutsideBufferIndex W H ox oy hI a b ha hb ⟨0, by omega⟩
    (hx _)
  have c1 := isotropic_inside_of_ne OutsideBufferIndex W H ox oy hI a b ha hb ⟨1, by omega⟩
    (hx _)
  have c2 := isotropic_inside_of_ne OutsideBufferIndex W H ox oy hI a b ha hb ⟨2, by omega⟩
    (hx _)
  have c3 := isotropic_inside_of_ne OutsideBufferIndex W H ox oy hI a b ha hb ⟨3, by omega⟩
    (hx _)
  simp only [slotDx, slotDy] at c0 c1 c2 c3
  have ha1 : 1 ≤ a := by omega
  have ha' : a + 1 < W := by omega
  have hb1 : 1 ≤ b := by omega
  have hb' : b + 1 < H := by omega
  obtain ⟨h0, hs, hsum⟩ := hotStep_values OutsideBufferIndex W H ox oy hN hI a b ha1 ha' hb1 hb'
    ![ox + a, oy + b] (by simp) (by simp)
  rw [hx0, h0, isotropic_MaxStableTimeStep OutsideBufferIndex W H ox oy hN hI a b ha1 ha' hb1 hb',
    isotropic_second]
  refine ⟨by norm_num, ?_, hsum⟩
  intro i
  fin_cases i
  · have e1 := gridAddress_eq ox oy W H hI
      (![ox + a, oy + b] + (Stencil2 (identityTensor 2)).offsets 0) a (b + 1) ha hb'
      (by simp [Stencil2_identity_offsets])
      (by simp [Stencil2_identity_offsets]; ring)
    have e2 := gridAddress_eq ox oy W H hI
      (![ox + a, oy + b] - (Stencil2 (identityTensor 2)).offsets 0) a (b - 1) ha (by omega)
      (by simp [Stencil2_identity_offsets])
      (by simp [Stencil2_identity_offsets]; omega)
    have v1 := hs ⟨0, by omega⟩ a (b + 1) (by simp [slotDx]) (by simp [slotDy])
    have v2 := hs ⟨1, by omega⟩ a (b - 1) (by simp [slotDx]) (by simp [slotDy]; omega)
    simp only [Fin.zero_eta]
    rw [e1, e2, v1, v2]
    simp [halfSlot]
  · have e1 := gridAddress_eq ox oy W H hI
      (![ox + a, oy + b] + (Stencil2 (identityTensor 2)).offsets 1) (a - 1) b (by omega) hb
      (by simp [Stencil2_identity_offsets]; omega)
      (by simp [Stencil2_identity_offsets])
    have e2 := gridAddress_eq ox oy W H hI
      (![ox + a, oy + b] - (Stencil2 (identityTensor 2)).offsets 1) (a + 1) b ha' hb
      (by simp [Stencil2_identity_offsets]; ring)
      (by simp [Stencil2_identity_offsets])
    have v1 := hs ⟨2, by omega⟩ (a - 1) b (by simp [slotDx]; omega) (by simp [slotDy])
    have v2 := hs ⟨3, by omega⟩ (a + 1) b (by simp [slotDx]) (by simp [slotDy])
    simp only [Fin.mk_one]
    rw [e1, e2, v1, v2]
    simp [halfSlot]
  · have e1 := gridAddress_eq ox oy W H hI
      (![ox + a, oy + b] + (Stencil2 (identityTensor 2)).offsets 2) (a + 1) (b - 1) ha'
      (by omega)
      (by simp [Stencil2_identity_offsets]; ring)
      (by simp [Stencil2_identity_offsets]; omega)
    have e2 := gridAddress_eq ox oy W H hI
      (![ox + a, oy + b] - (Stencil2 (identityTensor 2)).offsets 2) (a - 1) (b + 1) (by omega)
      hb'
      (by simp [Stencil2_identity_offsets]; omega)
      (by simp [Stencil2_identity_offsets]; ring)
    have v1 := hs ⟨4, by omega⟩ (a + 1) (b - 1) (by simp [slotDx]) (by simp [slotDy]; omega)
    have v2 := hs ⟨5, by omega⟩ (a - 1) (b + 1) (by simp [slotDx]; omega) (by simp [slotDy])
    have e3 : (⟨2, by omega⟩ : Fin 3) = 2 := rfl
    simp only [e3]
    rw [e1, e2, v1, v2]
    simp [halfSlot]

/-- C7 fails as stated: on the 5 x 5 grid with unit spacing and the identity tensor, the
point `x = (2, 2)` and its six stencil neighbours have all their stencil targets inside
the region; with the hot point at `x` the step is `delta = 1/4`, the coefficient stored
for `offsets[0]` is `1/2`, and the neighbour `x + offsets[0]` receives `1/4`, which is
`2 * delta * coefficients[0]` and not `delta * coefficients[0] = 1/8`. -/
theorem C7_counterexample :
    AllTargetsInside OutsideBufferIndex (isotropicImage OutsideBufferIndex (region2 0 0 5 5))
        (gridAddress 0 0 5 5 ![2, 2]) ∧
      (∀ s, AllTargetsInside OutsideBufferIndex
        (isotropicImage OutsideBufferIndex (region2 0 0 5 5))
        (((isotropicImage OutsideBufferIndex (region2 0 0 5 5)).pixel
          (gridAddress 0 0 5 5 ![2, 2])).first s)) ∧
      (hotStep OutsideBufferIndex 0 0 5 5 ![2, 2]).getD
        (gridAddress 0 0 5 5 (![2, 2] + (Stencil2 (identityTensor 2)).offsets 0)) 0 = 1 / 4 ∧
      MaxStableTimeStep
          (DiagonalCoefficients OutsideBufferIndex
            (isotropicImage OutsideBufferIndex (region2 0 0 5 5))) *
        ((isotropicImage OutsideBufferIndex (region2 0 0 5 5)).pixel
          (gridAddress 0 0 5 5 ![2, 2])).second 0 = 1 / 8 := by
  have hN : 5 * 5 ≤ OutsideBufferIndex := by decide
  have hI : 5 * 5 ≤ 2147483647 := by norm_num
  have hx0 := gridAddress_eq 0 0 5 5 hI ![2, 2] 2 2 (by norm_num) (by norm_num) (by simp)
    (by simp)
  obtain ⟨t1, t2⟩ := isotropic_interior_targets OutsideBufferIndex 5 5 0 0 hN hI 2 2
    (by norm_num) (by norm_num) (by norm_num) (by norm_num)
  obtain ⟨_, hs, _⟩ := hotStep_values OutsideBufferIndex 5 5 0 0 hN hI 2 2 (by norm_num)
    (by norm_num) (by norm_num) (by norm_num) ![2, 2] (by simp) (by simp)
  have e1 := gridAddress_eq 0 0 5 5 hI (![2, 2] + (Stencil2 (identityTensor 2)).offsets 0) 2 3
    (by norm_num) (by norm_num)
    (by simp [Stencil2_identity_offsets]) (by simp [Stencil2_identity_offsets])
  have v1 := hs ⟨0, by omega⟩ 2 3 (by simp [slotDx]) (by simp [slotDy])
  rw [hx0]
  refine ⟨t1, t2, ?_, ?_⟩
  · rw [e1, v1]
    simp [halfSlot]
    norm_num
  · rw [isotropic_MaxStableTimeStep OutsideBufferIndex 5 5 0 0 hN hI 2 2 (by norm_num)
      (by norm_num) (by norm_num) (by norm_num), isotropic_second]
    norm_num

/-- Witness of C7 (amended) on the 5 x 5 grid with the hot point at the centre
`(2, 2)`. -/
theorem C7_hot_point_witness :
    (5 * 5 ≤ OutsideBufferIndex ∧ 2 < 5 ∧
      AllTargetsInside OutsideBufferIndex (isotropicImage OutsideBufferIndex (region2 0 0 5 5))
        (gridAddress 0 0 5 5 ![0 + ((2 : ℕ) : ℤ), 0 + ((2 : ℕ) : ℤ)]) ∧
      ∀ s, AllTargetsInside OutsideBufferIndex
        (isotropicImage OutsideBufferIndex (region2 0 0 5 5))
        (((isotropicImage OutsideBufferIndex (region2 0 0 5 5)).pixel
          (gridAddress 0 0 5 5 ![0 + ((2 : ℕ) : ℤ), 0 + ((2 : ℕ) : ℤ)])).first s)) ∧
      (hotStep OutsideBufferIndex 0 0 5 5 ![0 + ((2 : ℕ) : ℤ), 0 + ((2 : ℕ) : ℤ)]).getD
        (gridAddress 0 0 5 5 ![0 + ((2 : ℕ) : ℤ), 0 + ((2 : ℕ) : ℤ)]) 0 < 1 ∧
      (hotStep OutsideBufferIndex 0 0 5 5 ![0 + ((2 : ℕ) : ℤ), 0 + ((2 : ℕ) : ℤ)]).sum = 1 := by
  have hN : 5 * 5 ≤ OutsideBufferIndex := by decide
  have hI : 5 * 5 ≤ 2147483647 := by norm_num
  have hx0 := gridAddress_eq 0 0 5 5 hI ![0 + ((2 : ℕ) : ℤ), 0 + ((2 : ℕ) : ℤ)] 2 2
    (by norm_num) (by norm_num) (by simp) (by simp)
  obtain ⟨t1, t2⟩ := isotropic_interior_targets OutsideBufferIndex 5 5 0 0 hN hI 2 2
    (by norm_num) (by norm_num) (by norm_num) (by norm_num)
  rw [← hx0] at t1 t2
  have h := C7_hot_point 5 5 0 0 2 2 hN (by norm_num) (by norm_num) t1 t2
  exact ⟨⟨hN, by norm_num, t1, t2⟩, h.1, h.2.2⟩

/-- On the 3 x 3 grid with unit spacing and the identity tensor at every point, the
maximum of the diagonal coefficients is 4. -/
theorem GetMaximum_isotropic3 :
    GetMaximum (DiagonalCoefficients OutsideBufferIndex
      (isotropicImage OutsideBufferIndex (region2 0 0 3 3))) = 4 := by
  have h := isotropic_MaxStableTimeStep OutsideBufferIndex 3 3 0 0 (by decide) (by norm_num)
    1 1 (by norm_num) (by norm_num) (by norm_num) (by norm_num)
  unfold MaxStableTimeStep at h
  have h' := congrArg (fun q : ℚ => 1 / q) h
  simpa using h'

/-- C10 on the code: on the 3 x 3 grid with unit spacing and the identity tensor at
every point (the maximum of the diagonal is 4), for the request `T = 10^10`, `r = 1`,
`N_max = 10`, `targetStep = 1/4 > 0` and `n = ceil(T / targetStep) = 4 * 10^10` exceeds
`N_max`, but the schedule is not truncated: the count converted to `int` is `INT_MIN`,
the `else` branch runs, the recorded number of steps is `-2147483648`, the recorded
effective diffusion time is `T` itself, `delta` is `T / INT_MIN` instead of
`targetStep`, and the loop makes no step, whatever the input image. -/
theorem C10_overflow_schedule :
    GetMaximum (DiagonalCoefficients OutsideBufferIndex
        (isotropicImage OutsideBufferIndex (region2 0 0 3 3))) = 4 ∧
    (0 : ℚ) < overflowState.m_RatioToMaxStableTimeStep /
      GetMaximum (DiagonalCoefficients OutsideBufferIndex
        (isotropicImage OutsideBufferIndex (region2 0 0 3 3))) ∧
    ⌈overflowState.m_DiffusionTime /
        (overflowState.m_RatioToMaxStableTimeStep /
          GetMaximum (DiagonalCoefficients OutsideBufferIndex
            (isotropicImage OutsideBufferIndex (region2 0 0 3 3))))⌉ = 40000000000 ∧
    ⌈overflowState.m_DiffusionTime /
        (overflowState.m_RatioToMaxStableTimeStep /
          GetMaximum (DiagonalCoefficients OutsideBufferIndex
            (isotropicImage OutsideBufferIndex (region2 0 0 3 3))))⌉ >
      overflowState.m_MaxNumberOfTimeSteps ∧
    (timeStepping overflowState (DiagonalCoefficients OutsideBufferIndex
      (isotropicImage OutsideBufferIndex (region2 0 0 3 3)))).n = -2147483648 ∧
    (timeStepping overflowState (DiagonalCoefficients OutsideBufferIndex
      (isotropicImage OutsideBufferIndex (region2 0 0 3 3)))).delta =
        -(9765625 / 2097152) ∧
    ∀ input : List ℚ,
      (ImageUpdateLoop OutsideBufferIndex (isotropicImage OutsideBufferIndex (region2 0 0 3 3))
        (DiagonalCoefficients OutsideBufferIndex
          (isotropicImage OutsideBufferIndex (region2 0 0 3 3)))
        overflowState input).1.m_EffectiveNumberOfTimeSteps = -2147483648 ∧
      (ImageUpdateLoop OutsideBufferIndex (isotropicImage OutsideBufferIndex (region2 0 0 3 3))
        (DiagonalCoefficients OutsideBufferIndex
          (isotropicImage OutsideBufferIndex (region2 0 0 3 3)))
        overflowState input).1.m_EffectiveDiffusionTime = overflowState.m_DiffusionTime ∧
      (ImageUpdateLoop OutsideBufferIndex (isotropicImage OutsideBufferIndex (region2 0 0 3 3))
        (DiagonalCoefficients OutsideBufferIndex
          (isotropicImage OutsideBufferIndex (region2 0 0 3 3)))
        overflowState input).2 = input := by
  have hmax := GetMaximum_isotropic3
  have hc : ⌈overflowState.m_DiffusionTime /
      (overflowState.m_RatioToMaxStableTimeStep /
        GetMaximum (DiagonalCoefficients OutsideBufferIndex
          (isotropicImage OutsideBufferIndex (region2 0 0 3 3))))⌉ = 40000000000 := by
    rw [hmax, Int.ceil_eq_iff]
    norm_num [overflowState]
  have hts := timeStepping_of_overflow overflowState
    (DiagonalCoefficients OutsideBufferIndex
      (isotropicImage OutsideBufferIndex (region2 0 0 3 3))) (by rw [hc]; decide)
  refine ⟨hmax, by rw [hmax]; norm_num [overflowState], hc, by rw [hc]; decide, ?_, ?_, ?_⟩
  · rw [hts]; rfl
  · rw [hts]
    norm_num [overflowState, INT_MIN]
  · intro input
    simp only [ImageUpdateLoop, hts]
    exact ⟨rfl, trivial, rfl⟩

/-- Witness of C5 on the 3 x 3 grid with unit spacing and the identity tensor at every
point: the field equal to 5 everywhere is left unchanged by one step at `delta = 7/40`. -/
theorem C5_constant_fixed_point_witness :
    ValidAddresses 2147483647 (isotropicImage 2147483647 (region2 0 0 3 3)) ∧
      ImageUpdate 2147483647 (isotropicImage 2147483647 (region2 0 0 3 3))
        (DiagonalCoefficients 2147483647 (isotropicImage 2147483647 (region2 0 0 3 3))) (7 / 40)
        (List.replicate (isotropicImage 2147483647 (region2 0 0 3 3)).numberOfPixels 5) =
          List.replicate (isotropicImage 2147483647 (region2 0 0 3 3)).numberOfPixels 5 :=
  ⟨isotropic_valid 2147483647 3 3 0 0 (by norm_num),
    (C5_constant_fixed_point 2147483647 (isotropicImage 2147483647 (region2 0 0 3 3))
      (isotropic_valid 2147483647 3 3 0 0 (by norm_num)) 5 (7 / 40)).1⟩

/-! ## The untruncated schedule, the bilinear form, the diagonal -/

/-- C11: for `T > 0`, `targetStep = r / max(diagonal) > 0` and
`n = ceil(T / targetStep) ≤ N_max`, the scheduler of `ImageUpdateLoop` uses `n` steps
(`n ≥ 1`) of size `delta = T / n`, records `n` as the effective number of steps and `T`
as the effective diffusion time; `n * delta = T` and `delta ≤ targetStep`. -/
theorem C11_untruncated_schedule {K : ℕ} (s : FilterState) (diag : List ℚ) (outside : ℕ)
    (S : StencilImage K) (input : List ℚ) (hT : 0 < s.m_DiffusionTime)
    (hstep : 0 < s.m_RatioToMaxStableTimeStep / GetMaximum diag)
    (hn : ⌈s.m_DiffusionTime / (s.m_RatioToMaxStableTimeStep / GetMaximum diag)⌉ ≤
      s.m_MaxNumberOfTimeSteps) :
    (timeStepping s diag).n =
        ⌈s.m_DiffusionTime / (s.m_RatioToMaxStableTimeStep / GetMaximum diag)⌉ ∧
      1 ≤ (timeStepping s diag).n ∧
      (timeStepping s diag).delta = s.m_DiffusionTime / (timeStepping s diag).n ∧
      (ImageUpdateLoop outside S diag s input).1.m_EffectiveNumberOfTimeSteps =
        ⌈s.m_DiffusionTime / (s.m_RatioToMaxStableTimeStep / GetMaximum diag)⌉ ∧
      (ImageUpdateLoop outside S diag s input).1.m_EffectiveDiffusionTime = s.m_DiffusionTime ∧
      ((timeStepping s diag).n : ℚ) * (timeStepping s diag).delta = s.m_DiffusionTime ∧
      (timeStepping s diag).delta ≤ s.m_RatioToMaxStableTimeStep / GetMaximum diag ∧
      (ImageUpdateLoop outside S diag s input).2 =
        updateSteps outside S diag (timeStepping s diag).delta
          (timeStepping s diag).n.toNat input := by
  have hpos : 0 < ⌈s.m_DiffusionTime / (s.m_RatioToMaxStableTimeStep / GetMaximum diag)⌉ :=
    Int.ceil_pos.mpr (div_pos hT hstep)
  have hfit :
      ⌈s.m_DiffusionTime / (s.m_RatioToMaxStableTimeStep / GetMaximum diag)⌉ ≤ INT_MAX :=
    le_trans hn s.maxNumberOfTimeSteps_int.2
  have hts : timeStepping s diag =
      ⟨s.m_DiffusionTime /
          ⌈s.m_DiffusionTime / (s.m_RatioToMaxStableTimeStep / GetMaximum diag)⌉,
        ⌈s.m_DiffusionTime / (s.m_RatioToMaxStableTimeStep / GetMaximum diag)⌉,
        s.m_DiffusionTime⟩ := by
    rw [timeStepping_of_fit s diag (le_of_lt hpos) hfit, if_neg (not_lt.mpr hn)]
  have hposq : (0 : ℚ) <
      ⌈s.m_DiffusionTime / (s.m_RatioToMaxStableTimeStep / GetMaximum diag)⌉ := by
    exact_mod_cast hpos
  have hle := (timeStepping_delta_le s diag hstep hT hfit).2
  refine ⟨by rw [hts], by rw [hts]; exact hpos, by rw [hts], by simp only [ImageUpdateLoop, hts],
    by simp only [ImageUpdateLoop, hts], ?_, hle, rfl⟩
  rw [hts]
  exact mul_div_cancel₀ _ (ne_of_gt hposq)

/-- Witness of C11: `T = 1`, `r = 1`, `N_max = 10`, diagonal `[4]`: four steps of size
`1/4`. -/
theorem C11_untruncated_schedule_witness :
    (0 : ℚ) < (FilterState.mk 1 1 10 0 0 (by decide)).m_DiffusionTime ∧
    (0 : ℚ) < (FilterState.mk 1 1 10 0 0 (by decide)).m_RatioToMaxStableTimeStep / GetMaximum [4] ∧
    ⌈(FilterState.mk 1 1 10 0 0 (by decide)).m_DiffusionTime /
        ((FilterState.mk 1 1 10 0 0 (by decide)).m_RatioToMaxStableTimeStep / GetMaximum [4])⌉ ≤
      (FilterState.mk 1 1 10 0 0 (by decide)).m_MaxNumberOfTimeSteps ∧
    1 ≤ (timeStepping (FilterState.mk 1 1 10 0 0 (by decide)) [4]).n ∧
    (ImageUpdateLoop 7 trivialImage [4] (FilterState.mk 1 1 10 0 0 (by decide)) [1]).1.m_EffectiveDiffusionTime
      = (FilterState.mk 1 1 10 0 0 (by decide)).m_DiffusionTime := by
  have h0 : (0 : ℚ) < (FilterState.mk 1 1 10 0 0 (by decide)).m_DiffusionTime := by norm_num
  have h1 : (0 : ℚ) < (FilterState.mk 1 1 10 0 0 (by decide)).m_RatioToMaxStableTimeStep / GetMaximum [4] := by
    norm_num [GetMaximum]
  have h2 : ⌈(FilterState.mk 1 1 10 0 0 (by decide)).m_DiffusionTime /
        ((FilterState.mk 1 1 10 0 0 (by decide)).m_RatioToMaxStableTimeStep / GetMaximum [4])⌉ ≤
      (FilterState.mk 1 1 10 0 0 (by decide)).m_MaxNumberOfTimeSteps := by
    norm_num [GetMaximum]
  have h := C11_untruncated_schedule (FilterState.mk 1 1 10 0 0 (by decide)) [4] 7 trivialImage [1] h0 h1 h2
  exact ⟨h0, h1, h2, h.2.1, h.2.2.2.2.1⟩

theorem TensorType.get_comm {dim : ℕ} (m : TensorType dim) (i j : Fin dim) :
    m.get i j = m.get j i := by
  unfold TensorType.get
  by_cases h : i ≤ j
  · by_cases h' : j ≤ i
    · have : i = j := le_antisymm h h'
      subst this; rfl
    · simp [h, h']
  · have h' : j ≤ i := le_of_lt (not_le.mp h)
    simp [h, h']

/-- C12: in dimension 2 and in dimension 3, `ScalarProduct(m, u, v)` is the double sum
over all `i`, `j` of `M[i][j] * u[i] * v[j]`, with `M[i][j] = m(i, j)` the full symmetric
matrix of the tensor (stored by its entries with `i ≤ j`); and
`ScalarProduct(m, u, v) = ScalarProduct(m, v, u)`. -/
theorem C12_scalar_product_bilinear :
    (∀ (m : TensorType 2) (u v : VectorType 2),
        ScalarProduct m u v = ∑ i : Fin 2, ∑ j : Fin 2, m.get i j * u i * v j) ∧
      (∀ (m : TensorType 3) (u v : VectorType 3),
        ScalarProduct m u v = ∑ i : Fin 3, ∑ j : Fin 3, m.get i j * u i * v j) ∧
      (∀ (dim : ℕ) (m : TensorType dim) (i j : Fin dim), m.get i j = m.get j i) ∧
      (∀ (dim : ℕ) (m : TensorType dim) (u v : VectorType dim),
        ScalarProduct m u v = ScalarProduct m v u) := by
  refine ⟨?_, ?_, fun dim m i j => TensorType.get_comm m i j,
    fun dim m u v => ScalarProduct_comm m u v⟩
  · intro m u v
    rw [ScalarProduct_two]
    simp [Fin.sum_univ_two, TensorType.get]
    ring
  · intro m u v
    rw [ScalarProduct_three]
    simp [Fin.sum_univ_three, TensorType.get]
    ring

/-- C13: for a stencil image whose non-sentinel addresses are valid, after the
sequential sweep of `GenerateStencils` the diagonal buffer has one cell per pixel and
its value at every pixel `q` is the sum, over all pixels `p` and all slots `i < 2K` of
`p` whose address is not the sentinel, of `coefficient(p, i / 2)` counted once if
`p = q` and once more if the address of the slot is `q`; sentinel slots add nothing. -/
theorem C13_diagonal_accumulation {K : ℕ} (outside : ℕ) (S : StencilImage K)
    (hv : ValidAddresses outside S) :
    (DiagonalCoefficients outside S).length = S.numberOfPixels ∧
      ∀ q, q < S.numberOfPixels →
        (DiagonalCoefficients outside S).getD q 0 =
          ∑ p ∈ Finset.range S.numberOfPixels, ∑ i : Fin (2 * K),
            if (S.pixel p).first i ≠ outside then
              (S.pixel p).second (halfSlot i) *
                ((if p = q then 1 else 0) + (if (S.pixel p).first i = q then 1 else 0))
            else 0 := by
  refine ⟨(getD_DiagonalCoefficients outside S 0).1, ?_⟩
  intro q _
  rw [getD_DiagonalCoefficients_valid outside S hv]
  refine Finset.sum_congr rfl (fun p _ => Finset.sum_congr rfl (fun i _ => ?_))
  unfold slotCoefficient
  split_ifs <;> ring

/-- Witness of C13 on the chain of two pixels: each diagonal cell holds 1. -/
theorem C13_diagonal_accumulation_witness :
    ValidAddresses 7 chainImage ∧
      (DiagonalCoefficients 7 chainImage).length = chainImage.numberOfPixels :=
  ⟨chainImage_valid, (C13_diagonal_accumulation 7 chainImage chainImage_valid).1⟩

theorem ImageUpdate_eq_gatherStep {K : ℕ} (outside : ℕ) (S : StencilImage K)
    (hv : ValidAddresses outside S) (previous : List ℚ) (delta : ℚ) (p : ℕ)
    (hp : p < S.numberOfPixels) :
    (ImageUpdate outside S (DiagonalCoefficients outside S) delta previous).getD p 0 =
      gatherStep outside S delta previous p := by
  rw [getD_ImageUpdate outside S _ _ _ p hp, getD_offDiagonal_valid outside S hv,
    getD_DiagonalCoefficients_valid outside S hv]
  unfold FunctorType gatherStep
  have e : ∀ (x y z d : ℚ), x * d + y * (1 - d * z) = y + d * (x - y * z) := by
    intro x y z d; ring
  rw [e]
  congr 2
  rw [Finset.mul_sum, ← Finset.sum_sub_distrib]
  refine Finset.sum_congr rfl (fun q _ => ?_)
  rw [Finset.mul_sum, ← Finset.sum_sub_distrib]
  refine Finset.sum_congr rfl (fun i _ => ?_)
  unfold slotCoefficient
  split_ifs <;> ring

/-- C15: for a stencil image whose non-sentinel addresses are valid, with the diagonal
computed from it by `GenerateStencils`, every previous field and every `delta`, the
value that the sequential scatter-add `ImageUpdate` produces at every pixel `p` is the
gather form `gatherStep`. -/
theorem C15_scatter_equals_gather {K : ℕ} (outside : ℕ) (S : StencilImage K)
    (hv : ValidAddresses outside S) (previous : List ℚ) (delta : ℚ) (p : ℕ)
    (hp : p < S.numberOfPixels) :
    (ImageUpdate outside S (DiagonalCoefficients outside S) delta previous).getD p 0 =
      gatherStep outside S delta previous p :=
  ImageUpdate_eq_gatherStep outside S hv previous delta p hp

/-- Witness of C15 on the chain of two pixels, at pixel 1, with `previous = [1, 0]` and
`delta = 1/3`. -/
theorem C15_scatter_equals_gather_witness :
    ValidAddresses 7 chainImage ∧ 1 < chainImage.numberOfPixels ∧
      (ImageUpdate 7 chainImage (DiagonalCoefficients 7 chainImage) (1 / 3) [1, 0]).getD 1 0 =
        gatherStep 7 chainImage (1 / 3) [1, 0] 1 :=
  ⟨chainImage_valid, by decide,
    C15_scatter_equals_gather 7 chainImage chainImage_valid [1, 0] (1 / 3) 1 (by decide)⟩


theorem getD_combine (a b : ℚ) (u w : List ℚ) (h : u.length = w.length) (q : ℕ) :
    (combine a b u w).getD q 0 = a * u.getD q 0 + b * w.getD q 0 := by
  unfold combine
  by_cases hq : q < u.length
  · have hq' : q < w.length := h ▸ hq
    simp [List.getD_eq_getElem?_getD, List.getElem?_zipWith, List.getElem?_eq_getElem hq,
      List.getElem?_eq_getElem hq']
  · have hq' : ¬ q < w.length := h ▸ hq
    simp [List.getD_eq_getElem?_getD, List.getElem?_zipWith,
      List.getElem?_eq_none (not_lt.mp hq), List.getElem?_eq_none (not_lt.mp hq')]

theorem length_combine (a b : ℚ) (u w : List ℚ) (h : u.length = w.length) :
    (combine a b u w).length = u.length := by
  simp [combine, h]

theorem getD_offDiagonal_combine {K : ℕ} (outside : ℕ) (S : StencilImage K)
    (hv : ValidAddresses outside S) (a b : ℚ) (u w : List ℚ) (h : u.length = w.length)
    (q : ℕ) :
    (offDiagonal outside S (combine a b u w)).getD q 0 =
      a * (offDiagonal outside S u).getD q 0 + b * (offDiagonal outside S w).getD q 0 := by
  simp only [getD_offDiagonal_valid outside S hv, getD_combine a b u w h, Finset.mul_sum,
    ← Finset.sum_add_distrib]
  refine Finset.sum_congr rfl (fun p _ => Finset.sum_congr rfl (fun i _ => ?_))
  split_ifs <;> ring

theorem ImageUpdate_combine {K : ℕ} (outside : ℕ) (S : StencilImage K)
    (hv : ValidAddresses outside S) (diag : List ℚ) (delta a b : ℚ) (u w : List ℚ)
    (h : u.length = w.length) :
    ImageUpdate outside S diag delta (combine a b u w) =
      combine a b (ImageUpdate outside S diag delta u) (ImageUpdate outside S diag delta w) := by
  have hlen : (ImageUpdate outside S diag delta u).length =
      (ImageUpdate outside S diag delta w).length := by
    rw [length_ImageUpdate, length_ImageUpdate]
  apply List.ext_getElem
  · rw [length_ImageUpdate, length_combine _ _ _ _ hlen, length_ImageUpdate]
  · intro q h1 h2
    have hq : q < S.numberOfPixels := by rw [length_ImageUpdate] at h1; exact h1
    have e1 := getD_ImageUpdate outside S diag delta (combine a b u w) q hq
    have e2 := getD_combine a b (ImageUpdate outside S diag delta u)
      (ImageUpdate outside S diag delta w) hlen q
    rw [List.getD_eq_getElem _ _ h1] at e1
    rw [List.getD_eq_getElem _ _ h2] at e2
    rw [e1, e2, getD_ImageUpdate outside S diag delta u q hq,
      getD_ImageUpdate outside S diag delta w q hq, getD_offDiagonal_combine outside S hv a b u w h,
      getD_combine a b u w h]
    unfold FunctorType
    ring

theorem sum_offDiagonal_mul {K : ℕ} (outside : ℕ) (S : StencilImage K)
    (hv : ValidAddresses outside S) (u w : List ℚ) :
    ∑ q ∈ Finset.range S.numberOfPixels, (offDiagonal outside S u).getD q 0 * w.getD q 0 =
      ∑ p ∈ Finset.range S.numberOfPixels, ∑ i : Fin (2 * K),
        slotCoefficient outside S p i *
          (u.getD ((S.pixel p).first i) 0 * w.getD p 0 +
            u.getD p 0 * w.getD ((S.pixel p).first i) 0) := by
  simp only [getD_offDiagonal_valid outside S hv, Finset.sum_mul]
  rw [Finset.sum_comm]
  refine Finset.sum_congr rfl (fun p hp => ?_)
  rw [Finset.sum_comm]
  refine Finset.sum_congr rfl (fun i _ => ?_)
  have hp' : p < S.numberOfPixels := Finset.mem_range.mp hp
  have e : ∀ q, slotCoefficient outside S p i *
      ((if p = q then u.getD ((S.pixel p).first i) 0 else 0) +
        (if (S.pixel p).first i = q then u.getD p 0 else 0)) * w.getD q 0 =
      slotCoefficient outside S p i *
        ((if p = q then u.getD ((S.pixel p).first i) 0 * w.getD q 0 else 0) +
          (if (S.pixel p).first i = q then u.getD p 0 * w.getD q 0 else 0)) := by
    intro q
    split_ifs <;> ring
  simp only [e]
  rw [← Finset.mul_sum, Finset.sum_add_distrib, Finset.sum_ite_eq, Finset.sum_ite_eq]
  unfold slotCoefficient
  by_cases h : (S.pixel p).first i = outside
  · simp [h]
  · have ht := hv p hp' i h
    simp only [ne_eq, h, not_false_eq_true, if_true, Finset.mem_range, hp', ht]

theorem dot_ImageUpdate_comm {K : ℕ} (outside : ℕ) (S : StencilImage K)
    (hv : ValidAddresses outside S) (diag : List ℚ) (delta : ℚ) (u w : List ℚ) :
    dot S.numberOfPixels (ImageUpdate outside S diag delta u) w =
      dot S.numberOfPixels u (ImageUpdate outside S diag delta w) := by
  unfold dot
  have e1 : ∀ p ∈ Finset.range S.numberOfPixels,
      (ImageUpdate outside S diag delta u).getD p 0 * w.getD p 0 =
        delta * ((offDiagonal outside S u).getD p 0 * w.getD p 0) +
          u.getD p 0 * w.getD p 0 * (1 - delta * diag.getD p 0) := by
    intro p hp
    rw [getD_ImageUpdate outside S diag delta u p (Finset.mem_range.mp hp)]
    unfold FunctorType
    ring
  have e2 : ∀ p ∈ Finset.range S.numberOfPixels,
      u.getD p 0 * (ImageUpdate outside S diag delta w).getD p 0 =
        delta * ((offDiagonal outside S w).getD p 0 * u.getD p 0) +
          u.getD p 0 * w.getD p 0 * (1 - delta * diag.getD p 0) := by
    intro p hp
    rw [getD_ImageUpdate outside S diag delta w p (Finset.mem_range.mp hp)]
    unfold FunctorType
    ring
  rw [Finset.sum_congr rfl e1, Finset.sum_congr rfl e2, Finset.sum_add_distrib,
    Finset.sum_add_distrib, ← Finset.mul_sum, ← Finset.mul_sum,
    sum_offDiagonal_mul outside S hv u w, sum_offDiagonal_mul outside S hv w u]
  congr 2
  refine Finset.sum_congr rfl (fun p _ => Finset.sum_congr rfl (fun i _ => ?_))
  ring

/-- C17: for a stencil image whose non-sentinel addresses are valid, the diagonal
computed from it by `GenerateStencils` and every `delta`, the map taking `previous` to
`next` in `ImageUpdate` is linear (it sends `a * u + b * w` to the same combination of
the images) and self-adjoint for the standard dot product: for all fields `u` and `w`
(one value per pixel), the sum over `p` of `S(u)[p] * w[p]` equals the sum over `p` of
`u[p] * S(w)[p]`. -/
theorem C17_symmetric_operator {K : ℕ} (outside : ℕ) (S : StencilImage K)
    (hv : ValidAddresses outside S) (delta : ℚ) (u w : List ℚ)
    (hu : u.length = S.numberOfPixels) (hw : w.length = S.numberOfPixels) :
    (∀ a b : ℚ,
        ImageUpdate outside S (DiagonalCoefficients outside S) delta (combine a b u w) =
          combine a b (ImageUpdate outside S (DiagonalCoefficients outside S) delta u)
            (ImageUpdate outside S (DiagonalCoefficients outside S) delta w)) ∧
      dot S.numberOfPixels (ImageUpdate outside S (DiagonalCoefficients outside S) delta u) w =
        dot S.numberOfPixels u (ImageUpdate outside S (DiagonalCoefficients outside S) delta w) :=
  ⟨fun a b => ImageUpdate_combine outside S hv _ delta a b u w (hu.trans hw.symm),
    dot_ImageUpdate_comm outside S hv _ delta u w⟩

/-- Witness of C17 on the chain of two pixels, with `u = [1, 0]`, `w = [2, 5]` and
`delta = 1/3`. -/
theorem C17_symmetric_operator_witness :
    ValidAddresses 7 chainImage ∧ [(1 : ℚ), 0].length = chainImage.numberOfPixels ∧
      [(2 : ℚ), 5].length = chainImage.numberOfPixels ∧
      dot chainImage.numberOfPixels
          (ImageUpdate 7 chainImage (DiagonalCoefficients 7 chainImage) (1 / 3) [1, 0]) [2, 5] =
        dot chainImage.numberOfPixels [1, 0]
          (ImageUpdate 7 chainImage (DiagonalCoefficients 7 chainImage) (1 / 3) [2, 5]) :=
  ⟨chainImage_valid, rfl, rfl,
    (C17_symmetric_operator 7 chainImage chainImage_valid (1 / 3) [1, 0] [2, 5] rfl rfl).2⟩

/-! ## The superbase invariant -/

theorem superbaseDet2_eq (sb : Superbase2) :
    superbaseDet2 sb = sb 0 0 * sb 1 1 - sb 0 1 * sb 1 0 := by
  simp [superbaseDet2, Matrix.det_fin_two]

theorem superbaseDet3_eq (sb : Superbase3) :
    superbaseDet3 sb =
      sb 0 0 * sb 1 1 * sb 2 2 - sb 0 0 * sb 1 2 * sb 2 1 - sb 0 1 * sb 1 0 * sb 2 2 +
        sb 0 1 * sb 1 2 * sb 2 0 + sb 0 2 * sb 1 0 * sb 2 1 - sb 0 2 * sb 1 1 * sb 2 0 := by
  have e : (Fin.castSucc (2 : Fin 3) : Fin 4) = 2 := rfl
  simp [superbaseDet3, Matrix.det_fin_three, e]

theorem IsSuperbase2_third {sb : Superbase2} (h : IsSuperbase2 sb) :
    sb 2 0 = -(sb 0 0 + sb 1 0) ∧ sb 2 1 = -(sb 0 1 + sb 1 1) := by
  have h0 := congrFun h.1 0
  have h1 := congrFun h.1 1
  simp only [Pi.add_apply, Pi.zero_apply] at h0 h1
  constructor <;> linarith

theorem IsSuperbase2_initial : IsSuperbase2 initialSuperbase2 := by
  rw [initialSuperbase2_eq]
  constructor
  · decide
  · left; decide

theorem IsSuperbase2_step (sb : Superbase2) (h : IsSuperbase2 sb) (i j : Fin 3) (hij : j < i) :
    IsSuperbase2 (sellingStep2 sb i j) := by
  obtain ⟨e0, e1⟩ := IsSuperbase2_third h
  have hd := h.2
  rw [superbaseDet2_eq] at hd
  constructor
  · funext k
    simp [sellingStep2]
  · rw [superbaseDet2_eq]
    have hcases : (i = 1 ∧ j = 0) ∨ (i = 2 ∧ j = 0) ∨ (i = 2 ∧ j = 1) := by
      revert hij; revert i j; decide
    rcases hcases with ⟨rfl, rfl⟩ | ⟨rfl, rfl⟩ | ⟨rfl, rfl⟩
    · have key : sellingStep2 sb 1 0 0 0 * sellingStep2 sb 1 0 1 1 -
          sellingStep2 sb 1 0 0 1 * sellingStep2 sb 1 0 1 0 =
          (sb 0 0 * sb 1 1 - sb 0 1 * sb 1 0) := by
        simp [sellingStep2]; ring
      rw [key]
      exact hd
    · have key : sellingStep2 sb 2 0 0 0 * sellingStep2 sb 2 0 1 1 -
          sellingStep2 sb 2 0 0 1 * sellingStep2 sb 2 0 1 0 =
          -(sb 0 0 * sb 1 1 - sb 0 1 * sb 1 0) := by
        simp [sellingStep2, e0, e1]; ring
      rw [key]
      rcases hd with hd | hd
      · right; linarith
      · left; linarith
    · have key : sellingStep2 sb 2 1 0 0 * sellingStep2 sb 2 1 1 1 -
          sellingStep2 sb 2 1 0 1 * sellingStep2 sb 2 1 1 0 =
          (sb 0 0 * sb 1 1 - sb 0 1 * sb 1 0) := by
        simp [sellingStep2, e0, e1]; ring
      rw [key]
      exact hd

theorem IsSuperbase2_scan (D : TensorType 2) (sb : Superbase2) (h : IsSuperbase2 sb) :
    IsSuperbase2 (scan2 D sb).1 := by
  rw [scan2_eq]
  split_ifs
  · exact IsSuperbase2_step sb h 1 0 (by decide)
  · exact IsSuperbase2_step sb h 2 0 (by decide)
  · exact IsSuperbase2_step sb h 2 1 (by decide)
  · exact h

theorem IsSuperbase2_loop (D : TensorType 2) (fuel : ℕ) :
    ∀ (iter : ℕ) (sb : Superbase2), IsSuperbase2 sb →
      IsSuperbase2 (sellingLoop2 D fuel iter sb).1 := by
  induction fuel with
  | zero => intro iter sb h; exact h
  | succ fuel ih =>
    intro iter sb h
    unfold sellingLoop2
    split_ifs
    · exact IsSuperbase2_scan D sb h
    · exact ih _ _ (IsSuperbase2_scan D sb h)


theorem finRange_four : List.finRange 4 = [0, 1, 2, 3] := by decide

theorem sellingStep3_eq (sb : Superbase3) (i j : Fin 4) (hij : j < i) :
    sellingStep3 sb i j =
      if i = 1 ∧ j = 0 then ![sb 2 + sb 1, sb 3 + sb 1, -sb 1, sb 0]
      else if i = 2 ∧ j = 0 then ![sb 1 + sb 2, sb 3 + sb 2, -sb 2, sb 0]
      else if i = 2 ∧ j = 1 then ![sb 0 + sb 2, sb 3 + sb 2, -sb 2, sb 1]
      else if i = 3 ∧ j = 0 then ![sb 1 + sb 3, sb 2 + sb 3, -sb 3, sb 0]
      else if i = 3 ∧ j = 1 then ![sb 0 + sb 3, sb 2 + sb 3, -sb 3, sb 1]
      else ![sb 0 + sb 3, sb 1 + sb 3, -sb 3, sb 2] := by
  have hcases : (i = 1 ∧ j = 0) ∨ (i = 2 ∧ j = 0) ∨ (i = 2 ∧ j = 1) ∨ (i = 3 ∧ j = 0) ∨
      (i = 3 ∧ j = 1) ∨ (i = 3 ∧ j = 2) := by
    revert hij; revert i j; decide
  rcases hcases with ⟨rfl, rfl⟩ | ⟨rfl, rfl⟩ | ⟨rfl, rfl⟩ | ⟨rfl, rfl⟩ | ⟨rfl, rfl⟩ | ⟨rfl, rfl⟩ <;>
    (funext k; fin_cases k <;> simp +decide [sellingStep3, finRange_four, setAt])


theorem IsSuperbase3_fourth {sb : Superbase3} (h : IsSuperbase3 sb) :
    sb 3 0 = -(sb 0 0 + sb 1 0 + sb 2 0) ∧ sb 3 1 = -(sb 0 1 + sb 1 1 + sb 2 1) ∧
      sb 3 2 = -(sb 0 2 + sb 1 2 + sb 2 2) := by
  have h0 := congrFun h.1 0
  have h1 := congrFun h.1 1
  have h2 := congrFun h.1 2
  simp only [Pi.add_apply, Pi.zero_apply] at h0 h1 h2
  refine ⟨?_, ?_, ?_⟩ <;> linarith

theorem initialSuperbase3_IsSuperbase : IsSuperbase3 initialSuperbase3 := by
  rw [initialSuperbase3_eq]
  constructor
  · decide
  · left
    rw [superbaseDet3_eq]
    decide

theorem IsSuperbase3_step (sb : Superbase3) (h : IsSuperbase3 sb) (i j : Fin 4) (hij : j < i) :
    IsSuperbase3 (sellingStep3 sb i j) := by
  obtain ⟨e0, e1, e2⟩ := IsSuperbase3_fourth h
  have hd := h.2
  rw [superbaseDet3_eq] at hd
  have hcases : (i = 1 ∧ j = 0) ∨ (i = 2 ∧ j = 0) ∨ (i = 2 ∧ j = 1) ∨ (i = 3 ∧ j = 0) ∨
      (i = 3 ∧ j = 1) ∨ (i = 3 ∧ j = 2) := by
    revert hij; revert i j; decide
  have hsum : ∀ k : Fin 3, sb 0 k + sb 1 k + sb 2 k + sb 3 k = 0 := by
    intro k
    have := congrFun h.1 k
    simpa using this
  rw [sellingStep3_eq sb i j hij]
  rcases hcases with ⟨rfl, rfl⟩ | ⟨rfl, rfl⟩ | ⟨rfl, rfl⟩ | ⟨rfl, rfl⟩ | ⟨rfl, rfl⟩ | ⟨rfl, rfl⟩
  all_goals
    simp +decide only [and_self, if_true, if_false]
    constructor
    · funext k
      have := hsum k
      simp
      linarith
    · rw [superbaseDet3_eq]
      simp only [Matrix.cons_val_zero, Matrix.cons_val_one, Matrix.head_cons, Matrix.cons_val_two,
        Matrix.tail_cons, Pi.add_apply, Pi.neg_apply, e0, e1, e2]
      rcases hd with hd | hd
      · first
          | (left; linear_combination hd)
          | (right; linear_combination -hd)
      · first
          | (left; linear_combination -hd)
          | (right; linear_combination hd)

theorem IsSuperbase3_scan (D : TensorType 3) (sb : Superbase3) (h : IsSuperbase3 sb) :
    IsSuperbase3 (scan3 D sb).1 := by
  rw [scan3_eq]
  split_ifs
  · exact IsSuperbase3_step sb h 1 0 (by decide)
  · exact IsSuperbase3_step sb h 2 0 (by decide)
  · exact IsSuperbase3_step sb h 2 1 (by decide)
  · exact IsSuperbase3_step sb h 3 0 (by decide)
  · exact IsSuperbase3_step sb h 3 1 (by decide)
  · exact IsSuperbase3_step sb h 3 2 (by decide)
  · exact h

theorem IsSuperbase3_loop (D : TensorType 3) (fuel : ℕ) :
    ∀ (iter : ℕ) (sb : Superbase3), IsSuperbase3 sb →
      IsSuperbase3 (sellingLoop3 D fuel iter sb).1 := by
  induction fuel with
  | zero => intro iter sb h; exact h
  | succ fuel ih =>
    intro iter sb h
    unfold sellingLoop3
    split_ifs
    · exact IsSuperbase3_scan D sb h
    · exact ih _ _ (IsSuperbase3_scan D sb h)



/-- C19: in dimension 2 and in dimension 3, the initial superbase sums to zero with
determinant `1` or `-1` of its first `D` vectors; a reduction step on any pair
`(u, v) = (sb[i], sb[j])` with `i > j` keeps both properties; hence the superbase held by
the Selling loop after any number of iterations, for every tensor, has them, and so has
the superbase used to write the stencil. -/
theorem C19_superbase_invariant :
    (IsSuperbase2 initialSuperbase2 ∧
      (∀ (sb : Superbase2) (i j : Fin 3), IsSuperbase2 sb → j < i →
        IsSuperbase2 (sellingStep2 sb i j)) ∧
      (∀ (D : TensorType 2) (fuel iter : ℕ),
        IsSuperbase2 (sellingLoop2 D fuel iter initialSuperbase2).1) ∧
      (∀ D : TensorType 2, IsSuperbase2 (selling2 D).1)) ∧
    (IsSuperbase3 initialSuperbase3 ∧
      (∀ (sb : Superbase3) (i j : Fin 4), IsSuperbase3 sb → j < i →
        IsSuperbase3 (sellingStep3 sb i j)) ∧
      (∀ (D : TensorType 3) (fuel iter : ℕ),
        IsSuperbase3 (sellingLoop3 D fuel iter initialSuperbase3).1) ∧
      (∀ D : TensorType 3, IsSuperbase3 (selling3 D).1)) :=
  ⟨⟨IsSuperbase2_initial, fun sb i j h hij => IsSuperbase2_step sb h i j hij,
      fun D fuel iter => IsSuperbase2_loop D fuel iter _ IsSuperbase2_initial,
      fun D => IsSuperbase2_loop D maxIter 0 _ IsSuperbase2_initial⟩,
    ⟨initialSuperbase3_IsSuperbase, fun sb i j h hij => IsSuperbase3_step sb h i j hij,
      fun D fuel iter => IsSuperbase3_loop D fuel iter _ initialSuperbase3_IsSuperbase,
      fun D => IsSuperbase3_loop D maxIter 0 _ initialSuperbase3_IsSuperbase⟩⟩

/-! ## The obtuse exit -/

theorem scan3_same (D : TensorType 3) (sb : Superbase3) (h : (scan3 D sb).2 = true) :
    (scan3 D sb).1 = sb ∧ Obtuse3 D sb := by
  rw [scan3_eq] at h ⊢
  unfold Obtuse3
  split_ifs at h ⊢ with h1 h2 h3 h4 h5 h6
  all_goals exact ⟨rfl, not_lt.mp h1, not_lt.mp h2, not_lt.mp h3, not_lt.mp h4, not_lt.mp h5,
    not_lt.mp h6⟩

theorem sellingLoop3_iter_le (D : TensorType 3) (fuel : ℕ) :
    ∀ (iter : ℕ) (sb : Superbase3), (sellingLoop3 D fuel iter sb).2 ≤ iter + fuel := by
  induction fuel with
  | zero => intro iter sb; simp [sellingLoop3]
  | succ fuel ih =>
    intro iter sb
    unfold sellingLoop3
    split_ifs with h
    · simp
    · have := ih (iter + 1) (scan3 D sb).1
      omega

theorem sellingLoop3_obtuse (D : TensorType 3) (fuel : ℕ) :
    ∀ (iter : ℕ) (sb : Superbase3), (sellingLoop3 D fuel iter sb).2 < iter + fuel →
      Obtuse3 D (sellingLoop3 D fuel iter sb).1 := by
  induction fuel with
  | zero => intro iter sb h; simp [sellingLoop3] at h
  | succ fuel ih =>
    intro iter sb
    unfold sellingLoop3
    split_ifs with h
    · intro _
      have := scan3_same D sb h
      simp only [this.1]
      exact this.2
    · intro hlt
      exact ih (iter + 1) (scan3 D sb).1 (by omega)

theorem Obtuse2_pairs {D : TensorType 2} {sb : Superbase2} (h : Obtuse2 D sb) :
    ∀ i j : Fin 3, i ≠ j → ScalarProduct D (sb i) (sb j) ≤ 0 := by
  obtain ⟨h10, h20, h21⟩ := h
  have lower : ∀ i j : Fin 3, j < i → ScalarProduct D (sb i) (sb j) ≤ 0 := by
    intro i j hij
    have hcases : (i = 1 ∧ j = 0) ∨ (i = 2 ∧ j = 0) ∨ (i = 2 ∧ j = 1) := by
      revert hij; revert i j; decide
    rcases hcases with ⟨rfl, rfl⟩ | ⟨rfl, rfl⟩ | ⟨rfl, rfl⟩ <;> assumption
  intro i j hij
  rcases lt_or_gt_of_ne hij with hlt | hgt
  · rw [ScalarProduct_comm]; exact lower j i hlt
  · exact lower i j hgt

theorem Obtuse3_pairs {D : TensorType 3} {sb : Superbase3} (h : Obtuse3 D sb) :
    ∀ i j : Fin 4, i ≠ j → ScalarProduct D (sb i) (sb j) ≤ 0 := by
  obtain ⟨h10, h20, h21, h30, h31, h32⟩ := h
  have lower : ∀ i j : Fin 4, j < i → ScalarProduct D (sb i) (sb j) ≤ 0 := by
    intro i j hij
    have hcases : (i = 1 ∧ j = 0) ∨ (i = 2 ∧ j = 0) ∨ (i = 2 ∧ j = 1) ∨ (i = 3 ∧ j = 0) ∨
        (i = 3 ∧ j = 1) ∨ (i = 3 ∧ j = 2) := by
      revert hij; revert i j; decide
    rcases hcases with ⟨rfl, rfl⟩ | ⟨rfl, rfl⟩ | ⟨rfl, rfl⟩ | ⟨rfl, rfl⟩ | ⟨rfl, rfl⟩ |
      ⟨rfl, rfl⟩ <;> assumption
  intro i j hij
  rcases lt_or_gt_of_ne hij with hlt | hgt
  · rw [ScalarProduct_comm]; exact lower j i hlt
  · exact lower i j hgt

theorem Stencil3_coefficients (D : TensorType 3) (k : Fin 6) :
    ∃ i j : Fin 4, j < i ∧
      (Stencil3 D).coefficients k =
        (-1 / 2) * ScalarProduct D ((selling3 D).1 i) ((selling3 D).1 j) := by
  fin_cases k
  · exact ⟨3, 0, by decide, rfl⟩
  · exact ⟨3, 1, by decide, rfl⟩
  · exact ⟨3, 2, by decide, rfl⟩
  · exact ⟨1, 0, by decide, rfl⟩
  · exact ⟨2, 0, by decide, rfl⟩
  · exact ⟨2, 1, by decide, rfl⟩

theorem Stencil3_nonneg_of_obtuse (D : TensorType 3) (h : Obtuse3 D (selling3 D).1)
    (k : Fin 6) : 0 ≤ (Stencil3 D).coefficients k := by
  obtain ⟨i, j, hij, e⟩ := Stencil3_coefficients D k
  have := Obtuse3_pairs h i j (ne_of_gt hij)
  rw [e]
  linarith

/-- C16: in dimension 2 and in dimension 3, for every symmetric tensor `D`, if the
Selling loop of `Stencil` leaves before its 200 iterations are used up (a full scan
found no pair with `ScalarProduct > 0`), then `ScalarProduct(D, sb[i], sb[j]) ≤ 0` for
every pair of distinct final superbase vectors and every coefficient written to the
output (3 in 2D, 6 in 3D) is `≥ 0`. -/
theorem C16_obtuse_exit :
    (∀ D : TensorType 2, (selling2 D).2 < maxIter →
      (∀ i j : Fin 3, i ≠ j →
        ScalarProduct D ((selling2 D).1 i) ((selling2 D).1 j) ≤ 0) ∧
      ∀ k : Fin 3, 0 ≤ (Stencil2 D).coefficients k) ∧
    (∀ D : TensorType 3, (selling3 D).2 < maxIter →
      (∀ i j : Fin 4, i ≠ j →
        ScalarProduct D ((selling3 D).1 i) ((selling3 D).1 j) ≤ 0) ∧
      ∀ k : Fin 6, 0 ≤ (Stencil3 D).coefficients k) := by
  constructor
  · intro D h
    have hob : Obtuse2 D (selling2 D).1 :=
      sellingLoop2_obtuse D maxIter 0 initialSuperbase2 (by simpa [selling2] using h)
    exact ⟨Obtuse2_pairs hob, Stencil2_nonneg_of_obtuse D hob⟩
  · intro D h
    have hob : Obtuse3 D (selling3 D).1 :=
      sellingLoop3_obtuse D maxIter 0 initialSuperbase3 (by simpa [selling3] using h)
    exact ⟨Obtuse3_pairs hob, Stencil3_nonneg_of_obtuse D hob⟩

/-! ## Consistency of the stencil with the tensor -/

theorem IsSuperbase2_det_sq {sb : Superbase2} (h : IsSuperbase2 sb) :
    (((sb 0 0 : ℤ) : ℚ) * sb 1 1 - sb 0 1 * sb 1 0) ^ 2 = 1 := by
  have hd := h.2
  rw [superbaseDet2_eq] at hd
  have hq : (((sb 0 0 * sb 1 1 - sb 0 1 * sb 1 0 : ℤ)) : ℚ) ^ 2 = 1 := by
    rcases hd with hd | hd <;> rw [hd] <;> norm_num
  push_cast at hq
  exact hq

/-- Selling's decomposition for a superbase in dimension two, entry by entry. -/
theorem decomposition2 (D : TensorType 2) (sb : Superbase2) (h : IsSuperbase2 sb)
    (a b : Fin 2) :
    ∑ i : Fin 3, 2 * ((-1 / 2) * ScalarProduct D (sb (i + 1)) (sb (i + 2))) *
        ((![-(sb i 1), sb i 0] : Fin 2 → ℤ) a : ℚ) * ((![-(sb i 1), sb i 0] : Fin 2 → ℤ) b : ℚ) =
      D.get a b := by
  obtain ⟨e0, e1⟩ := IsSuperbase2_third h
  have hd := IsSuperbase2_det_sq h
  have s1 : ((1 : Fin 3) + 1) = 2 := rfl
  have s2 : ((1 : Fin 3) + 2) = 0 := rfl
  have s3 : ((2 : Fin 3) + 1) = 0 := rfl
  have s4 : ((2 : Fin 3) + 2) = 1 := rfl
  have s5 : ((0 : Fin 3) + 2) = 2 := rfl
  fin_cases a <;> fin_cases b <;>
    (simp [Fin.sum_univ_three, ScalarProduct_two, TensorType.get, s1, s2, s3, s4, s5, e0, e1]
     first
      | linear_combination (D.upper 0 0) * hd
      | linear_combination (D.upper 0 1) * hd
      | linear_combination (D.upper 1 1) * hd)


theorem IsSuperbase3_det_sq {sb : Superbase3} (h : IsSuperbase3 sb) :
    (((sb 0 0 : ℤ) : ℚ) * sb 1 1 * sb 2 2 - sb 0 0 * sb 1 2 * sb 2 1 - sb 0 1 * sb 1 0 * sb 2 2 +
        sb 0 1 * sb 1 2 * sb 2 0 + sb 0 2 * sb 1 0 * sb 2 1 - sb 0 2 * sb 1 1 * sb 2 0) ^ 2 = 1 := by
  have hd := h.2
  rw [superbaseDet3_eq] at hd
  have hq : (((sb 0 0 * sb 1 1 * sb 2 2 - sb 0 0 * sb 1 2 * sb 2 1 - sb 0 1 * sb 1 0 * sb 2 2 +
        sb 0 1 * sb 1 2 * sb 2 0 + sb 0 2 * sb 1 0 * sb 2 1 - sb 0 2 * sb 1 1 * sb 2 0 : ℤ)) : ℚ) ^ 2
      = 1 := by
    rcases hd with hd | hd <;> rw [hd] <;> norm_num
  push_cast at hq
  exact hq

theorem comatrixOffsets_eq (sb : Superbase3) :
    comatrixOffsets sb =
      ![![sb 1 1 * sb 2 2 - sb 2 1 * sb 1 2, sb 1 2 * sb 2 0 - sb 2 2 * sb 1 0,
          sb 1 0 * sb 2 1 - sb 2 0 * sb 1 1],
        ![sb 2 1 * sb 0 2 - sb 0 1 * sb 2 2, sb 2 2 * sb 0 0 - sb 0 2 * sb 2 0,
          sb 2 0 * sb 0 1 - sb 0 0 * sb 2 1],
        ![sb 0 1 * sb 1 2 - sb 1 1 * sb 0 2, sb 0 2 * sb 1 0 - sb 1 2 * sb 0 0,
          sb 0 0 * sb 1 1 - sb 1 0 * sb 0 1]] := by
  funext i j
  fin_cases i <;> fin_cases j <;> rfl

set_option maxHeartbeats 4000000 in
/-- Selling's decomposition for a superbase in dimension three, entry by entry. -/
theorem decomposition3 (D : TensorType 3) (sb : Superbase3) (h : IsSuperbase3 sb)
    (a b : Fin 3) :
    ∑ k : Fin 6,
        2 * ((![(Weights D sb).get 0 3, (Weights D sb).get 1 3, (Weights D sb).get 2 3,
            (Weights D sb).get 0 1, (Weights D sb).get 0 2, (Weights D sb).get 1 2] :
              Fin 6 → ℚ) k) *
          (((![comatrixOffsets sb 0, comatrixOffsets sb 1, comatrixOffsets sb 2,
              comatrixOffsets sb 0 - comatrixOffsets sb 1,
              comatrixOffsets sb 0 - comatrixOffsets sb 2,
              comatrixOffsets sb 1 - comatrixOffsets sb 2] : Fin 6 → Fin 3 → ℤ) k a : ℤ) : ℚ) *
          (((![comatrixOffsets sb 0, comatrixOffsets sb 1, comatrixOffsets sb 2,
              comatrixOffsets sb 0 - comatrixOffsets sb 1,
              comatrixOffsets sb 0 - comatrixOffsets sb 2,
              comatrixOffsets sb 1 - comatrixOffsets sb 2] : Fin 6 → Fin 3 → ℤ) k b : ℤ) : ℚ) =
      D.get a b := by
  obtain ⟨e0, e1, e2⟩ := IsSuperbase3_fourth h
  have hd := IsSuperbase3_det_sq h
  have w03 : (Weights D sb).get 0 3 = (-1 / 2) * ScalarProduct D (sb 3) (sb 0) := rfl
  have w13 : (Weights D sb).get 1 3 = (-1 / 2) * ScalarProduct D (sb 3) (sb 1) := rfl
  have w23 : (Weights D sb).get 2 3 = (-1 / 2) * ScalarProduct D (sb 3) (sb 2) := rfl
  have w01 : (Weights D sb).get 0 1 = (-1 / 2) * ScalarProduct D (sb 1) (sb 0) := rfl
  have w02 : (Weights D sb).get 0 2 = (-1 / 2) * ScalarProduct D (sb 2) (sb 0) := rfl
  have w12 : (Weights D sb).get 1 2 = (-1 / 2) * ScalarProduct D (sb 2) (sb 1) := rfl
  have c0 : ∀ (f : Fin 6 → ℚ) , ∑ k : Fin 6, f k = f 0 + f 1 + f 2 + f 3 + f 4 + f 5 :=
    fun f => Fin.sum_univ_six f
  rw [c0]
  have o3 : ∀ (x0 x1 x2 x3 x4 x5 : Fin 3 → ℤ),
      (![x0, x1, x2, x3, x4, x5] : Fin 6 → Fin 3 → ℤ) 3 = x3 := fun _ _ _ _ _ _ => rfl
  have o4 : ∀ (x0 x1 x2 x3 x4 x5 : Fin 3 → ℤ),
      (![x0, x1, x2, x3, x4, x5] : Fin 6 → Fin 3 → ℤ) 4 = x4 := fun _ _ _ _ _ _ => rfl
  have o5 : ∀ (x0 x1 x2 x3 x4 x5 : Fin 3 → ℤ),
      (![x0, x1, x2, x3, x4, x5] : Fin 6 → Fin 3 → ℤ) 5 = x5 := fun _ _ _ _ _ _ => rfl
  have q3 : ∀ (x0 x1 x2 x3 x4 x5 : ℚ),
      (![x0, x1, x2, x3, x4, x5] : Fin 6 → ℚ) 3 = x3 := fun _ _ _ _ _ _ => rfl
  have q4 : ∀ (x0 x1 x2 x3 x4 x5 : ℚ),
      (![x0, x1, x2, x3, x4, x5] : Fin 6 → ℚ) 4 = x4 := fun _ _ _ _ _ _ => rfl
  have q5 : ∀ (x0 x1 x2 x3 x4 x5 : ℚ),
      (![x0, x1, x2, x3, x4, x5] : Fin 6 → ℚ) 5 = x5 := fun _ _ _ _ _ _ => rfl
  simp only [o3, o4, o5, q3, q4, q5, Matrix.cons_val_zero, Matrix.cons_val_one,
    Matrix.head_cons, Matrix.cons_val_two, Matrix.tail_cons, w03, w13, w23, w01, w02, w12,
    Pi.sub_apply]
  rw [comatrixOffsets_eq]
  simp only [ScalarProduct_three]
  fin_cases a <;> fin_cases b
  all_goals
    simp only [TensorType.get, Fin.zero_eta, Fin.mk_one, Fin.reduceFinMk, Matrix.cons_val_zero,
      Matrix.cons_val_one, Matrix.head_cons, Matrix.cons_val_two, Matrix.tail_cons, e0, e1, e2,
      le_refl, if_true]
    push_cast
  · linear_combination (D.upper 0 0) * hd
  · linear_combination (D.upper 0 1) * hd
  · linear_combination (D.upper 0 2) * hd
  · linear_combination (D.upper 0 1) * hd
  · linear_combination (D.upper 1 1) * hd
  · linear_combination (D.upper 1 2) * hd
  · linear_combination (D.upper 0 2) * hd
  · linear_combination (D.upper 1 2) * hd
  · linear_combination (D.upper 2 2) * hd


theorem Stencil2_entries (D : TensorType 2) (a b : Fin 2) :
    ∑ i : Fin 3, 2 * (Stencil2 D).coefficients i * ((Stencil2 D).offsets i a : ℚ) *
        ((Stencil2 D).offsets i b : ℚ) = D.get a b :=
  decomposition2 D (selling2 D).1 (IsSuperbase2_loop D maxIter 0 _ IsSuperbase2_initial) a b

theorem Stencil3_entries (D : TensorType 3) (a b : Fin 3) :
    ∑ k : Fin 6, 2 * (Stencil3 D).coefficients k * ((Stencil3 D).offsets k a : ℚ) *
        ((Stencil3 D).offsets k b : ℚ) = D.get a b :=
  decomposition3 D (selling3 D).1
    (IsSuperbase3_loop D maxIter 0 _ initialSuperbase3_IsSuperbase) a b

theorem Stencil2_quadratic (D : TensorType 2) (w : VectorType 2) :
    ∑ i : Fin 3, 2 * (Stencil2 D).coefficients i *
        ((∑ a : Fin 2, (Stencil2 D).offsets i a * w a : ℤ) : ℚ) ^ 2 = ScalarProduct D w w := by
  have h00 := Stencil2_entries D 0 0
  have h01 := Stencil2_entries D 0 1
  have h11 := Stencil2_entries D 1 1
  have g00 : D.get 0 0 = D.upper 0 0 := by simp [TensorType.get]
  have g01 : D.get 0 1 = D.upper 0 1 := by simp [TensorType.get]
  have g11 : D.get 1 1 = D.upper 1 1 := by simp [TensorType.get]
  rw [g00] at h00
  rw [g01] at h01
  rw [g11] at h11
  rw [ScalarProduct_two, ← h00, ← h01, ← h11]
  simp only [Fin.sum_univ_three, Fin.sum_univ_two]
  push_cast
  ring

theorem Stencil3_quadratic (D : TensorType 3) (w : VectorType 3) :
    ∑ k : Fin 6, 2 * (Stencil3 D).coefficients k *
        ((∑ a : Fin 3, (Stencil3 D).offsets k a * w a : ℤ) : ℚ) ^ 2 = ScalarProduct D w w := by
  have h00 := Stencil3_entries D 0 0
  have h01 := Stencil3_entries D 0 1
  have h02 := Stencil3_entries D 0 2
  have h11 := Stencil3_entries D 1 1
  have h12 := Stencil3_entries D 1 2
  have h22 := Stencil3_entries D 2 2
  have g00 : D.get 0 0 = D.upper 0 0 := by simp [TensorType.get]
  have g01 : D.get 0 1 = D.upper 0 1 := by simp [TensorType.get]
  have g02 : D.get 0 2 = D.upper 0 2 := by simp [TensorType.get]
  have g11 : D.get 1 1 = D.upper 1 1 := by simp [TensorType.get]
  have g12 : D.get 1 2 = D.upper 1 2 := by simp +decide [TensorType.get]
  have g22 : D.get 2 2 = D.upper 2 2 := by simp [TensorType.get]
  rw [g00] at h00
  rw [g01] at h01
  rw [g02] at h02
  rw [g11] at h11
  rw [g12] at h12
  rw [g22] at h22
  rw [ScalarProduct_three, ← h00, ← h01, ← h02, ← h11, ← h12, ← h22]
  simp only [Fin.sum_univ_six, Fin.sum_univ_three]
  push_cast
  ring

/-- C18: in dimension 2 and in dimension 3, for every symmetric tensor `D` (positive
definite or not, whether or not the reduction stabilised within 200 iterations), the
offsets and coefficients returned by `Stencil` satisfy
`D(a, b) = sum over i < K of 2 * coefficients[i] * offsets[i][a] * offsets[i][b]` for all
`a`, `b`, and for every vector `w` the sum over `i < K` of
`2 * coefficients[i] * (offsets[i] . w)^2` equals `ScalarProduct(D, w, w)`. -/
theorem C18_selling_decomposition :
    (∀ D : TensorType 2,
      (∀ a b : Fin 2,
        ∑ i : Fin 3, 2 * (Stencil2 D).coefficients i * ((Stencil2 D).offsets i a : ℚ) *
          ((Stencil2 D).offsets i b : ℚ) = D.get a b) ∧
      ∀ w : VectorType 2,
        ∑ i : Fin 3, 2 * (Stencil2 D).coefficients i *
          ((∑ a : Fin 2, (Stencil2 D).offsets i a * w a : ℤ) : ℚ) ^ 2 = ScalarProduct D w w) ∧
    (∀ D : TensorType 3,
      (∀ a b : Fin 3,
        ∑ k : Fin 6, 2 * (Stencil3 D).coefficients k * ((Stencil3 D).offsets k a : ℚ) *
          ((Stencil3 D).offsets k b : ℚ) = D.get a b) ∧
      ∀ w : VectorType 3,
        ∑ k : Fin 6, 2 * (Stencil3 D).coefficients k *
          ((∑ a : Fin 3, (Stencil3 D).offsets k a * w a : ℤ) : ℚ) ^ 2 = ScalarProduct D w w) :=
  ⟨fun D => ⟨Stencil2_entries D, Stencil2_quadratic D⟩,
    fun D => ⟨Stencil3_entries D, Stencil3_quadratic D⟩⟩

/-! ## Linear addresses -/

theorem prodLoop_succ {dim : ℕ} (r : RegionType dim) (i : ℕ) :
    prodLoop r (i + 1) = prodLoop r i * sizeAt r i := rfl

theorem linearSum_eq_sum_range {dim : ℕ} (region : RegionType dim) (spacing : Fin dim → ℚ)
    (x : Fin dim → ℤ) :
    (∑ i, (StencilFunctor.Initialize region spacing).prod i *
        (x i - (StencilFunctor.Initialize region spacing).region.index i)) =
      ∑ i ∈ Finset.range dim, prodLoop region i * digitAt region x i := by
  rw [← Fin.sum_univ_eq_sum_range (fun i => prodLoop region i * digitAt region x i) dim]
  unfold StencilFunctor.Initialize
  refine Finset.sum_congr rfl (fun i _ => ?_)
  simp [digitAt]

theorem digitAt_bounds {dim : ℕ} (region : RegionType dim) (x : Fin dim → ℤ)
    (hx : region.IsInside x) (i : ℕ) (hi : i < dim) :
    0 ≤ digitAt region x i ∧ digitAt region x i < sizeAt region i := by
  have h := hx ⟨i, hi⟩
  simp only [digitAt, sizeAt, dif_pos hi]
  constructor <;> linarith [h.1, h.2]

/-- Mixed radix: partial sums of `prod[i] * digit[i]` stay below the next stride. -/
theorem partial_sum_bounds {dim : ℕ} (region : RegionType dim) (x : Fin dim → ℤ)
    (hx : region.IsInside x) (n : ℕ) (hn : n ≤ dim) :
    0 < prodLoop region n ∧
      0 ≤ ∑ i ∈ Finset.range n, prodLoop region i * digitAt region x i ∧
      ∑ i ∈ Finset.range n, prodLoop region i * digitAt region x i < prodLoop region n := by
  induction n with
  | zero => simp [prodLoop]
  | succ n ih =>
    obtain ⟨hP, h0, h1⟩ := ih (by omega)
    obtain ⟨d0, d1⟩ := digitAt_bounds region x hx n (by omega)
    rw [Finset.sum_range_succ, prodLoop_succ]
    have hs : 0 < sizeAt region n := by linarith
    refine ⟨mul_pos hP hs, ?_, ?_⟩
    · have := mul_nonneg (le_of_lt hP) d0
      linarith
    · have : prodLoop region n * (digitAt region x n + 1) ≤ prodLoop region n * sizeAt region n :=
        mul_le_mul_of_nonneg_left (by linarith) (le_of_lt hP)
      nlinarith

theorem partial_sum_inj {dim : ℕ} (region : RegionType dim) (x y : Fin dim → ℤ)
    (hx : region.IsInside x) (hy : region.IsInside y) (n : ℕ) (hn : n ≤ dim)
    (h : ∑ i ∈ Finset.range n, prodLoop region i * digitAt region x i =
      ∑ i ∈ Finset.range n, prodLoop region i * digitAt region y i) :
    ∀ i, i < n → digitAt region x i = digitAt region y i := by
  induction n with
  | zero => intro i hi; omega
  | succ n ih =>
    obtain ⟨hP, a0, a1⟩ := partial_sum_bounds region x hx n (by omega)
    obtain ⟨_, b0, b1⟩ := partial_sum_bounds region y hy n (by omega)
    rw [Finset.sum_range_succ, Finset.sum_range_succ] at h
    have hd : digitAt region x n = digitAt region y n := by
      by_contra hne
      rcases lt_or_gt_of_ne hne with hlt | hgt
      · have : prodLoop region n * (digitAt region x n + 1) ≤
            prodLoop region n * digitAt region y n :=
          mul_le_mul_of_nonneg_left (by omega) (le_of_lt hP)
        nlinarith
      · have : prodLoop region n * (digitAt region y n + 1) ≤
            prodLoop region n * digitAt region x n :=
          mul_le_mul_of_nonneg_left (by omega) (le_of_lt hP)
        nlinarith
    rw [hd] at h
    have h' := add_right_cancel h
    intro i hi
    rcases Nat.lt_succ_iff_lt_or_eq.mp hi with hlt | heq
    · exact ih (by omega) h' i hlt
    · rw [heq]; exact hd

theorem prodLoop_eq_prod {dim : ℕ} (region : RegionType dim) (n : ℕ) :
    prodLoop region n = ∏ i ∈ Finset.range n, sizeAt region i := by
  induction n with
  | zero => simp [prodLoop]
  | succ n ih => rw [prodLoop_succ, Finset.prod_range_succ, ih]

theorem prodLoop_dim {dim : ℕ} (region : RegionType dim) :
    prodLoop region dim = (region.numberOfPixels : ℤ) := by
  rw [prodLoop_eq_prod, ← Fin.prod_univ_eq_prod_range]
  unfold RegionType.numberOfPixels
  push_cast
  refine Finset.prod_congr rfl (fun i _ => ?_)
  simp [sizeAt]

/-- Inside a region of at most `INT_MAX` pixels the narrowing to `int` is exact:
`BufferIndex` is the sum of the strides times the coordinates. -/
theorem BufferIndex_eq_sum_range {dim : ℕ} (region : RegionType dim) (spacing : Fin dim → ℚ)
    (hI : region.numberOfPixels ≤ 2147483647) (x : Fin dim → ℤ) (hx : region.IsInside x) :
    (StencilFunctor.Initialize region spacing).BufferIndex x =
      ∑ i ∈ Finset.range dim, prodLoop region i * digitAt region x i := by
  unfold StencilFunctor.BufferIndex
  rw [linearSum_eq_sum_range]
  obtain ⟨_, h0, h1⟩ := partial_sum_bounds region x hx dim (le_refl _)
  rw [prodLoop_dim] at h1
  exact wrapInt32_of_range _ h0 (by omega)

theorem BufferIndex_bounds {dim : ℕ} (region : RegionType dim) (spacing : Fin dim → ℚ)
    (hI : region.numberOfPixels ≤ 2147483647) (x : Fin dim → ℤ) (hx : region.IsInside x) :
    0 ≤ (StencilFunctor.Initialize region spacing).BufferIndex x ∧
      (StencilFunctor.Initialize region spacing).BufferIndex x < region.numberOfPixels := by
  rw [BufferIndex_eq_sum_range region spacing hI x hx, ← prodLoop_dim]
  exact (partial_sum_bounds region x hx dim (le_refl _)).2

theorem BufferIndex_inj {dim : ℕ} (region : RegionType dim) (spacing : Fin dim → ℚ)
    (hI : region.numberOfPixels ≤ 2147483647)
    (x y : Fin dim → ℤ) (hx : region.IsInside x) (hy : region.IsInside y)
    (h : (StencilFunctor.Initialize region spacing).BufferIndex x =
      (StencilFunctor.Initialize region spacing).BufferIndex y) : x = y := by
  rw [BufferIndex_eq_sum_range region spacing hI x hx,
    BufferIndex_eq_sum_range region spacing hI y hy] at h
  funext i
  have := partial_sum_inj region x y hx hy dim (le_refl _) h i.val i.isLt
  simp only [digitAt, dif_pos i.isLt] at this
  linarith

theorem rescaled_eq {dim : ℕ} (region : RegionType dim) (spacing : Fin dim → ℚ)
    (tensor : TensorType dim) :
    (⟨fun i j => tensor.get i j * (StencilFunctor.Initialize region spacing).invSpacing i *
        (StencilFunctor.Initialize region spacing).invSpacing j⟩ : TensorType dim) =
      rescaledTensor tensor spacing := by
  unfold rescaledTensor StencilFunctor.Initialize
  congr 1
  funext i j
  simp only [one_div, div_eq_mul_inv, mul_inv]
  ring

theorem apply_second {dim K : ℕ} (region : RegionType dim) (spacing : Fin dim → ℚ)
    (d : Dispatch dim K) (outside : ℕ) (tensor : TensorType dim) (x : Fin dim → ℤ) :
    ((StencilFunctor.Initialize region spacing).apply d outside tensor x).second =
      (d.Stencil (rescaledTensor tensor spacing)).coefficients := by
  simp only [StencilFunctor.apply]
  rw [rescaled_eq]

theorem apply_first {dim K : ℕ} (region : RegionType dim) (spacing : Fin dim → ℚ)
    (d : Dispatch dim K) (outside : ℕ) (tensor : TensorType dim) (x : Fin dim → ℤ)
    (s : Fin (2 * K)) :
    ((StencilFunctor.Initialize region spacing).apply d outside tensor x).first s =
      if region.IsInside (slotTarget (d.Stencil (rescaledTensor tensor spacing)) x s) then
        (StencilFunctor.Initialize region spacing).BufferIndex
          (slotTarget (d.Stencil (rescaledTensor tensor spacing)) x s)
      else (outside : ℤ) := by
  simp only [StencilFunctor.apply]
  rw [rescaled_eq]
  rfl

theorem apply_first_lt {dim K : ℕ} (region : RegionType dim) (spacing : Fin dim → ℚ)
    (hI : region.numberOfPixels ≤ 2147483647)
    (d : Dispatch dim K) (outside : ℕ) (tensor : TensorType dim) (x : Fin dim → ℤ)
    (s : Fin (2 * K))
    (h : ((StencilFunctor.Initialize region spacing).apply d outside tensor x).first s ≠
      (outside : ℤ)) :
    0 ≤ ((StencilFunctor.Initialize region spacing).apply d outside tensor x).first s ∧
      ((StencilFunctor.Initialize region spacing).apply d outside tensor x).first s <
        region.numberOfPixels := by
  rw [apply_first] at h ⊢
  split_ifs at h ⊢ with hin
  · exact BufferIndex_bounds region spacing hI _ hin
  · exact absurd rfl h

theorem apply_first_inside {dim K : ℕ} (region : RegionType dim) (spacing : Fin dim → ℚ)
    (hI : region.numberOfPixels ≤ 2147483647)
    (d : Dispatch dim K) (outside : ℕ) (tensor : TensorType dim) (x : Fin dim → ℤ)
    (s : Fin (2 * K))
    (hin : region.IsInside (slotTarget (d.Stencil (rescaledTensor tensor spacing)) x s)) :
    ((StencilFunctor.Initialize region spacing).apply d outside tensor x).first s =
        (StencilFunctor.Initialize region spacing).BufferIndex
          (slotTarget (d.Stencil (rescaledTensor tensor spacing)) x s) ∧
      ((StencilFunctor.Initialize region spacing).apply d outside tensor x).first s <
        region.numberOfPixels := by
  rw [apply_first, if_pos hin]
  exact ⟨rfl, (BufferIndex_bounds region spacing hI _ hin).2⟩

theorem slotTarget_even {dim K : ℕ} (out : StencilOutput dim K) (x : Fin dim → ℤ) (i : Fin K) :
    slotTarget out x ⟨2 * i.val, by omega⟩ = x + out.offsets i := by
  unfold slotTarget halfSlot
  have h1 : ¬ (2 * i.val % 2 = 1) := by omega
  have h2 : 2 * i.val / 2 = i.val := by omega
  simp only [h1, if_false, h2]

theorem slotTarget_odd {dim K : ℕ} (out : StencilOutput dim K) (x : Fin dim → ℤ) (i : Fin K) :
    slotTarget out x ⟨2 * i.val + 1, by omega⟩ = x - out.offsets i := by
  unfold slotTarget halfSlot
  have h1 : (2 * i.val + 1) % 2 = 1 := by omega
  have h2 : (2 * i.val + 1) / 2 = i.val := by omega
  simp only [h1, if_true, h2]

theorem stencilImageOf_valid {dim K : ℕ} (d : Dispatch dim K) (outside : ℕ)
    (region : RegionType dim) (hI : region.numberOfPixels ≤ 2147483647)
    (spacing : Fin dim → ℚ) (tensorImage : (Fin dim → ℤ) → TensorType dim) :
    ValidAddresses outside (stencilImageOf d outside region spacing tensorImage) := by
  intro p _ s hs
  simp only [stencilImageOf, StoredStencil.cells] at hs ⊢
  have hne : ((StencilFunctor.Initialize region spacing).apply d outside
      (tensorImage (indexOfAddress (StencilFunctor.Initialize region spacing) p))
      (indexOfAddress (StencilFunctor.Initialize region spacing) p)).first s ≠ (outside : ℤ) := by
    intro h
    apply hs
    rw [h, Int.toNat_ofNat]
  have hb := apply_first_lt region spacing hI d outside _ _ s hne
  omega

/-- C20 fails as stated: on the region of 65536 x 65536 pixels starting at `(0, 0)`
(every size is at least 1) the point `(65535, 32768)` is inside the region, the sum of
`BufferIndex` is `65535 + 65536 * 32768 = 2147549183`, above `INT_MAX`, and
`BufferIndex` returns it narrowed to `int`: `-2147418113`, which is negative.  That
value is what `operator()` stores in slot 0 of the point `(65535, 32767)` for the
identity tensor and unit spacing (`offsets[0] = (0, 1)`): an address that is not the
sentinel and is not an index of the buffers. -/
theorem C20_counterexample :
    (∀ i, 1 ≤ (region2 0 0 65536 65536).size i) ∧
      (region2 0 0 65536 65536).IsInside ![65535, 32768] ∧
      (StencilFunctor.Initialize (region2 0 0 65536 65536) (fun _ => 1)).BufferIndex
        ![65535, 32768] = -2147418113 ∧
      ¬ (0 ≤ (StencilFunctor.Initialize (region2 0 0 65536 65536) (fun _ => 1)).BufferIndex
        ![65535, 32768]) ∧
      ((StencilFunctor.Initialize (region2 0 0 65536 65536) (fun _ => 1)).apply Dispatch2
        OutsideBufferIndex (identityTensor 2) ![65535, 32767]).first ⟨0, by omega⟩ =
          -2147418113 ∧
      (-2147418113 : ℤ) ≠ (OutsideBufferIndex : ℤ) := by
  have h : (StencilFunctor.Initialize (region2 0 0 65536 65536) (fun _ => 1)).BufferIndex
      ![65535, 32768] = -2147418113 := by
    simp [StencilFunctor.BufferIndex, StencilFunctor.Initialize, region2, Fin.sum_univ_two,
      prodLoop, wrapInt32]
  refine ⟨by decide, by decide, h, ?_, ?_, by decide⟩
  · rw [h]
    decide
  · simp only [StencilFunctor.apply, Dispatch2]
    rw [rescaled_identity _ (by intro i; simp [StencilFunctor.Initialize])]
    rw [Stencil2_identity_offsets]
    simp [StencilFunctor.BufferIndex, StencilFunctor.Initialize, region2, Fin.sum_univ_two,
      prodLoop, wrapInt32, RegionType.IsInside, halfSlot, Fin.forall_fin_two]

/-- C20, amended: after `Initialize(region, spacing)` with every region size `≥ 1` and
a region of at most `OutsideBufferIndex()` pixels (the largest value of the address type,
`2^31 - 1`), `BufferIndex` maps the grid points inside the region injectively into
`0 ≤ BufferIndex(x) < (product of the region sizes)`; hence every address stored in a
stencil that is not the sentinel is a valid index of the buffers (so the stencil image
of `GenerateStencils` has valid addresses), and when the number of pixels does not
exceed the sentinel value the address stored for a target inside the region is
`BufferIndex` of the target and is never the sentinel. -/
theorem C20_linear_addresses {dim : ℕ} (region : RegionType dim) (spacing : Fin dim → ℚ)
    (hsize : ∀ i, 1 ≤ region.size i) (hI : region.numberOfPixels ≤ OutsideBufferIndex) :
    (∀ x, region.IsInside x →
      0 ≤ (StencilFunctor.Initialize region spacing).BufferIndex x ∧
        (StencilFunctor.Initialize region spacing).BufferIndex x < region.numberOfPixels) ∧
    (∀ x y, region.IsInside x → region.IsInside y →
      (StencilFunctor.Initialize region spacing).BufferIndex x =
        (StencilFunctor.Initialize region spacing).BufferIndex y → x = y) ∧
    (∀ (K : ℕ) (d : Dispatch dim K) (outside : ℕ) (tensor : TensorType dim) (x : Fin dim → ℤ)
      (s : Fin (2 * K)),
      ((StencilFunctor.Initialize region spacing).apply d outside tensor x).first s ≠
          (outside : ℤ) →
        0 ≤ ((StencilFunctor.Initialize region spacing).apply d outside tensor x).first s ∧
          ((StencilFunctor.Initialize region spacing).apply d outside tensor x).first s <
            region.numberOfPixels) ∧
    (∀ (K : ℕ) (d : Dispatch dim K) (outside : ℕ)
      (tensorImage : (Fin dim → ℤ) → TensorType dim),
      ValidAddresses outside (stencilImageOf d outside region spacing tensorImage)) ∧
    (∀ (K : ℕ) (d : Dispatch dim K) (outside : ℕ) (tensor : TensorType dim) (x : Fin dim → ℤ)
      (s : Fin (2 * K)), region.numberOfPixels ≤ outside →
      region.IsInside (slotTarget (d.Stencil (rescaledTensor tensor spacing)) x s) →
        ((StencilFunctor.Initialize region spacing).apply d outside tensor x).first s =
            (StencilFunctor.Initialize region spacing).BufferIndex
              (slotTarget (d.Stencil (rescaledTensor tensor spacing)) x s) ∧
          ((StencilFunctor.Initialize region spacing).apply d outside tensor x).first s ≠
            (outside : ℤ)) := by
  have _ := hsize
  have hI' : region.numberOfPixels ≤ 2147483647 := hI
  refine ⟨fun x hx => BufferIndex_bounds region spacing hI' x hx,
    fun x y hx hy h => BufferIndex_inj region spacing hI' x y hx hy h,
    fun K d outside tensor x s h => apply_first_lt region spacing hI' d outside tensor x s h,
    fun K d outside tensorImage =>
      stencilImageOf_valid d outside region hI' spacing tensorImage, ?_⟩
  intro K d outside tensor x s hN hin
  obtain ⟨h1, h2⟩ := apply_first_inside region spacing hI' d outside tensor x s hin
  refine ⟨h1, ?_⟩
  intro h
  rw [h] at h2
  have : (outside : ℤ) < (outside : ℤ) := lt_of_lt_of_le h2 (by exact_mod_cast hN)
  exact lt_irrefl _ this

/-- Witness of C20 (amended) on the 3 x 3 region starting at `(0, 0)` with unit
spacing: the point `(1, 2)` has address 7. -/
theorem C20_linear_addresses_witness :
    (∀ i, 1 ≤ (region2 0 0 3 3).size i) ∧
      (region2 0 0 3 3).numberOfPixels ≤ OutsideBufferIndex ∧
      (region2 0 0 3 3).IsInside ![1, 2] ∧
      0 ≤ (StencilFunctor.Initialize (region2 0 0 3 3) (fun _ => 1)).BufferIndex ![1, 2] ∧
      (StencilFunctor.Initialize (region2 0 0 3 3) (fun _ => 1)).BufferIndex ![1, 2] <
        (region2 0 0 3 3).numberOfPixels := by
  have hs : ∀ i, 1 ≤ (region2 0 0 3 3).size i := by decide
  have hI : (region2 0 0 3 3).numberOfPixels ≤ OutsideBufferIndex := by decide
  have hin : (region2 0 0 3 3).IsInside ![1, 2] := by decide
  exact ⟨hs, hI, hin, (C20_linear_addresses (region2 0 0 3 3) (fun _ => 1) hs hI).1 ![1, 2] hin⟩

/-- C14: in dimension 2 and in dimension 3, for every tensor, grid point `x`, region
and spacing, the stencil returned by `StencilFunctor::operator()` carries the `K`
coefficients produced by `Stencil` on the tensor rescaled by
`D(i, j) = tensor(i, j) / (spacing[i] * spacing[j])`, and for each base offset `i < K`
slot `2i` is `BufferIndex(x + offsets[i])` if `x + offsets[i]` is inside the region and
the sentinel otherwise, slot `2i + 1` is `BufferIndex(x - offsets[i])` if
`x - offsets[i]` is inside the region and the sentinel otherwise.  The slots hold
values of `InternalSizeT`, the type that `BufferIndex` returns. -/
theorem C14_boundary_resolution :
    (∀ (region : RegionType 2) (spacing : Fin 2 → ℚ) (outside : ℕ) (tensor : TensorType 2)
      (x : Fin 2 → ℤ),
      ((StencilFunctor.Initialize region spacing).apply Dispatch2 outside tensor x).second =
          (Stencil2 (rescaledTensor tensor spacing)).coefficients ∧
        ∀ i : Fin 3,
          (((StencilFunctor.Initialize region spacing).apply Dispatch2 outside tensor x).first
              ⟨2 * i.val, by omega⟩ =
            if region.IsInside (x + (Stencil2 (rescaledTensor tensor spacing)).offsets i) then
              (StencilFunctor.Initialize region spacing).BufferIndex
                (x + (Stencil2 (rescaledTensor tensor spacing)).offsets i)
            else (outside : ℤ)) ∧
          (((StencilFunctor.Initialize region spacing).apply Dispatch2 outside tensor x).first
              ⟨2 * i.val + 1, by omega⟩ =
            if region.IsInside (x - (Stencil2 (rescaledTensor tensor spacing)).offsets i) then
              (StencilFunctor.Initialize region spacing).BufferIndex
                (x - (Stencil2 (rescaledTensor tensor spacing)).offsets i)
            else (outside : ℤ))) ∧
    (∀ (region : RegionType 3) (spacing : Fin 3 → ℚ) (outside : ℕ) (tensor : TensorType 3)
      (x : Fin 3 → ℤ),
      ((StencilFunctor.Initialize region spacing).apply Dispatch3 outside tensor x).second =
          (Stencil3 (rescaledTensor tensor spacing)).coefficients ∧
        ∀ i : Fin 6,
          (((StencilFunctor.Initialize region spacing).apply Dispatch3 outside tensor x).first
              ⟨2 * i.val, by omega⟩ =
            if region.IsInside (x + (Stencil3 (rescaledTensor tensor spacing)).offsets i) then
              (StencilFunctor.Initialize region spacing).BufferIndex
                (x + (Stencil3 (rescaledTensor tensor spacing)).offsets i)
            else (outside : ℤ)) ∧
          (((StencilFunctor.Initialize region spacing).apply Dispatch3 outside tensor x).first
              ⟨2 * i.val + 1, by omega⟩ =
            if region.IsInside (x - (Stencil3 (rescaledTensor tensor spacing)).offsets i) then
              (StencilFunctor.Initialize region spacing).BufferIndex
                (x - (Stencil3 (rescaledTensor tensor spacing)).offsets i)
            else (outside : ℤ))) := by
  constructor
  · intro region spacing outside tensor x
    refine ⟨apply_second region spacing Dispatch2 outside tensor x, fun i => ⟨?_, ?_⟩⟩
    · rw [apply_first, slotTarget_even]; rfl
    · rw [apply_first, slotTarget_odd]; rfl
  · intro region spacing outside tensor x
    refine ⟨apply_second region spacing Dispatch3 outside tensor x, fun i => ⟨?_, ?_⟩⟩
    · rw [apply_first, slotTarget_even]; rfl
    · rw [apply_first, slotTarget_odd]; rfl

end LBR
